import Mathlib

/-!
# addrlist: the address book, the session controller and the event loop

A shallow embedding of the address-record merge, persistence and search engine
of `list/list.go`, of the session controller of `client/client.go` and of the
event loop of `addrlist.go`, followed by the properties proved about them.

Modelling conventions.

* `time.Time` is modelled by what the program observes of it: its instant, an
  integer number of nanoseconds since the Unix epoch, and the offset of its
  location at that instant, in seconds east of UTC. `Before` and `After` compare
  instants; `Format` prints the wall clock of the zone and the offset. The times of
  the program come from `time.Parse` and from the message data of the backend, so
  none carries a monotonic clock reading.
* The Go map `addrs` is an association list that holds at most one entry per key
  (`mapSet` replaces in place or appends); the iteration order of a Go map is
  unspecified, so nothing below depends on the order of that list except where
  an order is quantified over explicitly.
* `*AddressRecord` pointers are only ever reachable through the map entry of
  their key, so a write through the pointer is a write to that entry.
* A store (the CSV file) is the sequence of records that `encoding/csv` yields
  for it: a list of rows, each a list of fields.
* A string is a sequence of Unicode characters (valid UTF-8). `strings.ToLower`
  maps every character by `unicode.ToLower`, the simple lower-case mapping of the
  Unicode character database, which package `unicode` holds in `CaseRanges`.
* The backend worker and the message store are collaborators from the aerc
  library: a controller's calls on them are recorded as a list of effects, and
  `Worker.ProcessMessage`, which hands the message back, is left out.
-/

namespace AddrList

/-! ## Data model -/

/-- A `time.Time`: its instant, in nanoseconds since the Unix epoch, and the offset of its
location at that instant, in seconds east of UTC. -/
structure Time where
  unixNano : Int
  offset : Int
deriving DecidableEq, Repr

/-- Model of `t.Before(u)`: the instant of `t` is before that of `u`. -/
def Time.Before (t u : Time) : Prop := t.unixNano < u.unixNano

/-- Model of `t.After(u)`: the instant of `t` is after that of `u`. -/
def Time.After (t u : Time) : Prop := u.unixNano < t.unixNano

/-- Model of `t.Equal(u)`: the two times are the same instant, whatever their zones. -/
def Time.Equal (t u : Time) : Prop := t.unixNano = u.unixNano

instance (t u : Time) : Decidable (t.Before u) := by
  unfold Time.Before
  infer_instance

instance (t u : Time) : Decidable (t.After u) := by
  unfold Time.After
  infer_instance

instance (t u : Time) : Decidable (t.Equal u) := by
  unfold Time.Equal
  infer_instance

structure AddressKey where
  Email : String
deriving DecidableEq, Repr

structure AddressRecord where
  Email : String
  Name : String
  LastUsed : Time
  Ignore : Bool
deriving DecidableEq, Repr

/-- The address list: the `addrs` map. (`LastUpdated` and `logger` are never read by
the operations modelled here.) -/
structure AddressList where
  addrs : List (AddressKey × AddressRecord)
deriving DecidableEq, Repr

/-- The result of `(*AddressRecord).IgnoreStr`. -/
def AddressRecord.IgnoreStr (ar : AddressRecord) : String :=
  if ar.Ignore then "IGNORE" else ""

/-- The book made by `NewAddressList`: an empty map. -/
def NewAddressList : AddressList := ⟨[]⟩

/-! ## Strings and maps -/

/-- A range of `unicode.CaseRanges`, as far as lower-casing reads it: each of the code
points `Lo`, `Lo + Stride`, ..., `Hi` has the lower case `Delta` code points further. An
`UpperLower` range of the Go table, in which upper-case and lower-case letters alternate,
is a range of stride 2 and delta 1. -/
structure CaseRange where
  Lo : Nat
  Hi : Nat
  Delta : Int
  Stride : Nat
deriving DecidableEq, Repr

/-- The lower-case mappings of `unicode.CaseRanges` (Unicode 15.0) above U+007F: every
code point that `unicode.ToLower` changes, other than `A` to `Z`, lies in one of these
ranges. -/
def caseRanges : List CaseRange :=
  [CaseRange.mk 0x00C0 0x00D6 (32) 1, CaseRange.mk 0x00D8 0x00DE (32) 1,
   CaseRange.mk 0x0100 0x012E (1) 2, CaseRange.mk 0x0130 0x0130 (-199) 1,
   CaseRange.mk 0x0132 0x0136 (1) 2, CaseRange.mk 0x0139 0x0147 (1) 2,
   CaseRange.mk 0x014A 0x0176 (1) 2, CaseRange.mk 0x0178 0x0178 (-121) 1,
   CaseRange.mk 0x0179 0x017D (1) 2, CaseRange.mk 0x0181 0x0181 (210) 1,
   CaseRange.mk 0x0182 0x0184 (1) 2, CaseRange.mk 0x0186 0x0186 (206) 1,
   CaseRange.mk 0x0187 0x0187 (1) 1, CaseRange.mk 0x0189 0x018A (205) 1,
   CaseRange.mk 0x018B 0x018B (1) 1, CaseRange.mk 0x018E 0x018E (79) 1,
   CaseRange.mk 0x018F 0x018F (202) 1, CaseRange.mk 0x0190 0x0190 (203) 1,
   CaseRange.mk 0x0191 0x0191 (1) 1, CaseRange.mk 0x0193 0x0193 (205) 1,
   CaseRange.mk 0x0194 0x0194 (207) 1, CaseRange.mk 0x0196 0x0196 (211) 1,
   CaseRange.mk 0x0197 0x0197 (209) 1, CaseRange.mk 0x0198 0x0198 (1) 1,
   CaseRange.mk 0x019C 0x019C (211) 1, CaseRange.mk 0x019D 0x019D (213) 1,
   CaseRange.mk 0x019F 0x019F (214) 1, CaseRange.mk 0x01A0 0x01A4 (1) 2,
   CaseRange.mk 0x01A6 0x01A6 (218) 1, CaseRange.mk 0x01A7 0x01A7 (1) 1,
   CaseRange.mk 0x01A9 0x01A9 (218) 1, CaseRange.mk 0x01AC 0x01AC (1) 1,
   CaseRange.mk 0x01AE 0x01AE (218) 1, CaseRange.mk 0x01AF 0x01AF (1) 1,
   CaseRange.mk 0x01B1 0x01B2 (217) 1, CaseRange.mk 0x01B3 0x01B5 (1) 2,
   CaseRange.mk 0x01B7 0x01B7 (219) 1, CaseRange.mk 0x01B8 0x01B8 (1) 1,
   CaseRange.mk 0x01BC 0x01BC (1) 1, CaseRange.mk 0x01C4 0x01C4 (2) 1,
   CaseRange.mk 0x01C5 0x01C5 (1) 1, CaseRange.mk 0x01C7 0x01C7 (2) 1,
   CaseRange.mk 0x01C8 0x01C8 (1) 1, CaseRange.mk 0x01CA 0x01CA (2) 1,
   CaseRange.mk 0x01CB 0x01DB (1) 2, CaseRange.mk 0x01DE 0x01EE (1) 2,
   CaseRange.mk 0x01F1 0x01F1 (2) 1, CaseRange.mk 0x01F2 0x01F4 (1) 2,
   CaseRange.mk 0x01F6 0x01F6 (-97) 1, CaseRange.mk 0x01F7 0x01F7 (-56) 1,
   CaseRange.mk 0x01F8 0x021E (1) 2, CaseRange.mk 0x0220 0x0220 (-130) 1,
   CaseRange.mk 0x0222 0x0232 (1) 2, CaseRange.mk 0x023A 0x023A (10795) 1,
   CaseRange.mk 0x023B 0x023B (1) 1, CaseRange.mk 0x023D 0x023D (-163) 1,
   CaseRange.mk 0x023E 0x023E (10792) 1, CaseRange.mk 0x0241 0x0241 (1) 1,
   CaseRange.mk 0x0243 0x0243 (-195) 1, CaseRange.mk 0x0244 0x0244 (69) 1,
   CaseRange.mk 0x0245 0x0245 (71) 1, CaseRange.mk 0x0246 0x024E (1) 2,
   CaseRange.mk 0x0370 0x0372 (1) 2, CaseRange.mk 0x0376 0x0376 (1) 1,
   CaseRange.mk 0x037F 0x037F (116) 1, CaseRange.mk 0x0386 0x0386 (38) 1,
   CaseRange.mk 0x0388 0x038A (37) 1, CaseRange.mk 0x038C 0x038C (64) 1,
   CaseRange.mk 0x038E 0x038F (63) 1, CaseRange.mk 0x0391 0x03A1 (32) 1,
   CaseRange.mk 0x03A3 0x03AB (32) 1, CaseRange.mk 0x03CF 0x03CF (8) 1,
   CaseRange.mk 0x03D8 0x03EE (1) 2, CaseRange.mk 0x03F4 0x03F4 (-60) 1,
   CaseRange.mk 0x03F7 0x03F7 (1) 1, CaseRange.mk 0x03F9 0x03F9 (-7) 1,
   CaseRange.mk 0x03FA 0x03FA (1) 1, CaseRange.mk 0x03FD 0x03FF (-130) 1,
   CaseRange.mk 0x0400 0x040F (80) 1, CaseRange.mk 0x0410 0x042F (32) 1,
   CaseRange.mk 0x0460 0x0480 (1) 2, CaseRange.mk 0x048A 0x04BE (1) 2,
   CaseRange.mk 0x04C0 0x04C0 (15) 1, CaseRange.mk 0x04C1 0x04CD (1) 2,
   CaseRange.mk 0x04D0 0x052E (1) 2, CaseRange.mk 0x0531 0x0556 (48) 1,
   CaseRange.mk 0x10A0 0x10C5 (7264) 1, CaseRange.mk 0x10C7 0x10C7 (7264) 1,
   CaseRange.mk 0x10CD 0x10CD (7264) 1, CaseRange.mk 0x13A0 0x13EF (38864) 1,
   CaseRange.mk 0x13F0 0x13F5 (8) 1, CaseRange.mk 0x1C90 0x1CBA (-3008) 1,
   CaseRange.mk 0x1CBD 0x1CBF (-3008) 1, CaseRange.mk 0x1E00 0x1E94 (1) 2,
   CaseRange.mk 0x1E9E 0x1E9E (-7615) 1, CaseRange.mk 0x1EA0 0x1EFE (1) 2,
   CaseRange.mk 0x1F08 0x1F0F (-8) 1, CaseRange.mk 0x1F18 0x1F1D (-8) 1,
   CaseRange.mk 0x1F28 0x1F2F (-8) 1, CaseRange.mk 0x1F38 0x1F3F (-8) 1,
   CaseRange.mk 0x1F48 0x1F4D (-8) 1, CaseRange.mk 0x1F59 0x1F59 (-8) 1,
   CaseRange.mk 0x1F5B 0x1F5B (-8) 1, CaseRange.mk 0x1F5D 0x1F5D (-8) 1,
   CaseRange.mk 0x1F5F 0x1F5F (-8) 1, CaseRange.mk 0x1F68 0x1F6F (-8) 1,
   CaseRange.mk 0x1F88 0x1F8F (-8) 1, CaseRange.mk 0x1F98 0x1F9F (-8) 1,
   CaseRange.mk 0x1FA8 0x1FAF (-8) 1, CaseRange.mk 0x1FB8 0x1FB9 (-8) 1,
   CaseRange.mk 0x1FBA 0x1FBB (-74) 1, CaseRange.mk 0x1FBC 0x1FBC (-9) 1,
   CaseRange.mk 0x1FC8 0x1FCB (-86) 1, CaseRange.mk 0x1FCC 0x1FCC (-9) 1,
   CaseRange.mk 0x1FD8 0x1FD9 (-8) 1, CaseRange.mk 0x1FDA 0x1FDB (-100) 1,
   CaseRange.mk 0x1FE8 0x1FE9 (-8) 1, CaseRange.mk 0x1FEA 0x1FEB (-112) 1,
   CaseRange.mk 0x1FEC 0x1FEC (-7) 1, CaseRange.mk 0x1FF8 0x1FF9 (-128) 1,
   CaseRange.mk 0x1FFA 0x1FFB (-126) 1, CaseRange.mk 0x1FFC 0x1FFC (-9) 1,
   CaseRange.mk 0x2126 0x2126 (-7517) 1, CaseRange.mk 0x212A 0x212A (-8383) 1,
   CaseRange.mk 0x212B 0x212B (-8262) 1, CaseRange.mk 0x2132 0x2132 (28) 1,
   CaseRange.mk 0x2160 0x216F (16) 1, CaseRange.mk 0x2183 0x2183 (1) 1,
   CaseRange.mk 0x24B6 0x24CF (26) 1, CaseRange.mk 0x2C00 0x2C2F (48) 1,
   CaseRange.mk 0x2C60 0x2C60 (1) 1, CaseRange.mk 0x2C62 0x2C62 (-10743) 1,
   CaseRange.mk 0x2C63 0x2C63 (-3814) 1, CaseRange.mk 0x2C64 0x2C64 (-10727) 1,
   CaseRange.mk 0x2C67 0x2C6B (1) 2, CaseRange.mk 0x2C6D 0x2C6D (-10780) 1,
   CaseRange.mk 0x2C6E 0x2C6E (-10749) 1, CaseRange.mk 0x2C6F 0x2C6F (-10783) 1,
   CaseRange.mk 0x2C70 0x2C70 (-10782) 1, CaseRange.mk 0x2C72 0x2C72 (1) 1,
   CaseRange.mk 0x2C75 0x2C75 (1) 1, CaseRange.mk 0x2C7E 0x2C7F (-10815) 1,
   CaseRange.mk 0x2C80 0x2CE2 (1) 2, CaseRange.mk 0x2CEB 0x2CED (1) 2,
   CaseRange.mk 0x2CF2 0x2CF2 (1) 1, CaseRange.mk 0xA640 0xA66C (1) 2,
   CaseRange.mk 0xA680 0xA69A (1) 2, CaseRange.mk 0xA722 0xA72E (1) 2,
   CaseRange.mk 0xA732 0xA76E (1) 2, CaseRange.mk 0xA779 0xA77B (1) 2,
   CaseRange.mk 0xA77D 0xA77D (-35332) 1, CaseRange.mk 0xA77E 0xA786 (1) 2,
   CaseRange.mk 0xA78B 0xA78B (1) 1, CaseRange.mk 0xA78D 0xA78D (-42280) 1,
   CaseRange.mk 0xA790 0xA792 (1) 2, CaseRange.mk 0xA796 0xA7A8 (1) 2,
   CaseRange.mk 0xA7AA 0xA7AA (-42308) 1, CaseRange.mk 0xA7AB 0xA7AB (-42319) 1,
   CaseRange.mk 0xA7AC 0xA7AC (-42315) 1, CaseRange.mk 0xA7AD 0xA7AD (-42305) 1,
   CaseRange.mk 0xA7AE 0xA7AE (-42308) 1, CaseRange.mk 0xA7B0 0xA7B0 (-42258) 1,
   CaseRange.mk 0xA7B1 0xA7B1 (-42282) 1, CaseRange.mk 0xA7B2 0xA7B2 (-42261) 1,
   CaseRange.mk 0xA7B3 0xA7B3 (928) 1, CaseRange.mk 0xA7B4 0xA7C2 (1) 2,
   CaseRange.mk 0xA7C4 0xA7C4 (-48) 1, CaseRange.mk 0xA7C5 0xA7C5 (-42307) 1,
   CaseRange.mk 0xA7C6 0xA7C6 (-35384) 1, CaseRange.mk 0xA7C7 0xA7C9 (1) 2,
   CaseRange.mk 0xA7D0 0xA7D0 (1) 1, CaseRange.mk 0xA7D6 0xA7D8 (1) 2,
   CaseRange.mk 0xA7F5 0xA7F5 (1) 1, CaseRange.mk 0xFF21 0xFF3A (32) 1,
   CaseRange.mk 0x10400 0x10427 (40) 1, CaseRange.mk 0x104B0 0x104D3 (40) 1,
   CaseRange.mk 0x10570 0x1057A (39) 1, CaseRange.mk 0x1057C 0x1058A (39) 1,
   CaseRange.mk 0x1058C 0x10592 (39) 1, CaseRange.mk 0x10594 0x10595 (39) 1,
   CaseRange.mk 0x10C80 0x10CB2 (64) 1, CaseRange.mk 0x118A0 0x118BF (32) 1,
   CaseRange.mk 0x16E40 0x16E5F (32) 1, CaseRange.mk 0x1E900 0x1E921 (34) 1]

/-- Whether a code point is one of those a range maps. -/
def CaseRange.covers (cr : CaseRange) (r : Nat) : Bool :=
  decide (cr.Lo ≤ r) && decide (r ≤ cr.Hi) && decide ((r - cr.Lo) % cr.Stride = 0)

/-- Model of `unicode.ToLower` on code points: the ASCII letters directly, every other
code point through the table. -/
def unicodeToLower (r : Nat) : Nat :=
  if r ≤ 0x7F then
    if 0x41 ≤ r ∧ r ≤ 0x5A then r + 32 else r
  else
    match caseRanges.find? (fun cr => cr.covers r) with
    | some cr => (r + cr.Delta).toNat
    | none => r

/-- Model of `strings.ToLower`: every character mapped by `unicode.ToLower`. -/
def ToLower (s : String) : String :=
  ⟨s.data.map (fun c => Char.ofNat (unicodeToLower c.toNat))⟩

/-- The lower-case forms of a range are characters, and none of them is `A` to `Z`. -/
def CaseRange.imageOK (e : CaseRange) : Bool :=
  decide (0x5A < e.Lo + e.Delta) &&
  (decide (e.Hi + e.Delta < 0xD800) ||
    (decide (0xE000 ≤ e.Lo + e.Delta) && decide (e.Hi + e.Delta ≤ 0x10FFFF)))

/-- No lower-case form of range `e` is a code point that range `e2` maps: the forms lie
below or above `e2`, or both ranges alternate and the forms fall between its code points. -/
def CaseRange.imageAvoids (e e2 : CaseRange) : Bool :=
  decide (e.Hi + e.Delta < e2.Lo) || decide (e2.Hi < e.Lo + e.Delta) ||
  ((decide (e.Stride = 2) || decide (e.Lo = e.Hi)) && decide (e2.Stride = 2) &&
    decide ((e.Lo + e.Delta + e2.Lo) % 2 = 1))

/-- Map read `m[k]`, with the `present` flag as the option. -/
def mapGet : List (AddressKey × AddressRecord) → AddressKey → Option AddressRecord
  | [], _ => none
  | (k', r) :: rest, k => if k' = k then some r else mapGet rest k

/-- Map write `m[k] = r`. -/
def mapSet : List (AddressKey × AddressRecord) → AddressKey → AddressRecord →
    List (AddressKey × AddressRecord)
  | [], k, r => [(k, r)]
  | (k', r') :: rest, k, r =>
    if k' = k then (k, r) :: rest else (k', r') :: mapSet rest k r

/-! ## ReceiveRecord -/

/-- The name after line 59 of `ReceiveRecord`: blank when it equals the lowercased email
ignoring case. -/
def effName (email name : String) : String :=
  if ToLower name = ToLower email then "" else name

/-- The update of an existing record in `ReceiveRecord` (the `present` branch), for the
already normalised `name`. -/
def mergeRecord (ar : AddressRecord) (name : String) (usedTime : Time) : AddressRecord :=
  if ar.LastUsed.Before usedTime then
    { ar with LastUsed := usedTime, Name := if name ≠ "" then name else ar.Name }
  else if ar.Name = "" ∧ name ≠ "" then
    { ar with Name := name }
  else ar

/-- Model of `AddressList.ReceiveRecord`: returns the updated list and the record the returned
pointer refers to. -/
def ReceiveRecord (al : AddressList) (email name : String) (usedTime : Time) :
    AddressList × AddressRecord :=
  let name := effName email name
  let email := ToLower email
  let key : AddressKey := ⟨email⟩
  match mapGet al.addrs key with
  | some ar =>
    let ar := mergeRecord ar name usedTime
    (⟨mapSet al.addrs key ar⟩, ar)
  | none =>
    let ar : AddressRecord := ⟨email, name, usedTime, false⟩
    (⟨mapSet al.addrs key ar⟩, ar)

/-- The record stored for an email: the map entry under its lowercased form. -/
def AddressList.find (al : AddressList) (email : String) : Option AddressRecord :=
  mapGet al.addrs ⟨ToLower email⟩

/-! ## RFC3339 timestamps

`time.Parse(time.RFC3339, s)` and `Time.Format(time.RFC3339)` belong to the Go standard
library. They are modelled on the proleptic Gregorian calendar. `time.Parse` first tries
`parseRFC3339`, the strict parser of the library for this layout, and when that fails it
runs `parse`, the layout-driven parser, which is looser: it takes an hour of one digit, a
comma before the fraction of a second, and zone offsets up to 24 hours and 60 minutes.
Lengths and positions are counted in characters; a timestamp either parser accepts is
made of ASCII characters, for which characters and bytes coincide. -/

/-- Decimal value of a run of ASCII digits lying in `[lo, hi]` (`parseUint` of the
library's RFC3339 parser). -/
def parseUint (cs : List Char) (lo hi : Nat) : Option Nat :=
  if cs.all Char.isDigit then
    let x := cs.foldl (fun acc c => acc * 10 + (c.toNat - 48)) 0
    if lo ≤ x ∧ x ≤ hi then some x else none
  else none

def isLeap (year : Nat) : Bool :=
  year % 4 = 0 ∧ (year % 100 ≠ 0 ∨ year % 400 = 0)

def daysIn (month year : Nat) : Nat :=
  if month = 2 then (if isLeap year then 29 else 28)
  else if month = 4 ∨ month = 6 ∨ month = 9 ∨ month = 11 then 30
  else 31

/-- Days from 1970-01-01 to the civil date `year-month-day`. -/
def daysFromCivil (year month day : Int) : Int :=
  let y := if month ≤ 2 then year - 1 else year
  let era := y / 400
  let yoe := y - era * 400
  let mp := (month + 9) % 12
  let doy := (153 * mp + 2) / 5 + day - 1
  let doe := yoe * 365 + yoe / 4 - yoe / 100 + doy
  era * 146097 + doe - 719468

/-- The civil date `(year, month, day)` that lies `z` days after 1970-01-01. -/
def civilFromDays (z : Int) : Int × Int × Int :=
  let z := z + 719468
  let era := z / 146097
  let doe := z - era * 146097
  let yoe := (doe - doe / 1460 + doe / 36524 - doe / 146096) / 365
  let doy := doe - (365 * yoe + yoe / 4 - yoe / 100)
  let mp := (5 * doy + 2) / 153
  let day := doy - (153 * mp + 2) / 5 + 1
  let month := if mp < 10 then mp + 3 else mp - 9
  let year := yoe + era * 400 + (if month ≤ 2 then 1 else 0)
  (year, month, day)

/-- The instant of `Date(year, month, day, hour, min, sec, nsec, UTC)`, for fields in their
ranges. -/
def Date (year month day hour min sec nsec : Nat) : Int :=
  (daysFromCivil year month day * 86400 + (hour * 3600 + min * 60 + sec : Nat)) * 1000000000
    + nsec

/-- Nanoseconds of a fractional-second run of digits: its first nine digits, scaled
(`parseNanoseconds` of the library, for the digits after the period or comma). -/
def parseNanoseconds (digits : List Char) : Nat :=
  let d := digits.take 9
  d.foldl (fun acc c => acc * 10 + (c.toNat - 48)) 0 * 10 ^ (9 - d.length)

/-- Model of `parseRFC3339` of package `time`, the strict parser `time.Parse` tries first
for the layout `RFC3339`; `none` is its `ok = false`. A zone offset other than `Z` gives a
time in a zone of that offset. -/
def parseRFC3339 (str : String) : Option Time :=
  let s := str.data
  if s.length < 19 then none
  else
    match parseUint (s.take 4) 0 9999, parseUint ((s.drop 5).take 2) 1 12 with
    | some year, some month =>
      match parseUint ((s.drop 8).take 2) 1 (daysIn month year),
            parseUint ((s.drop 11).take 2) 0 23,
            parseUint ((s.drop 14).take 2) 0 59,
            parseUint ((s.drop 17).take 2) 0 59 with
      | some day, some hour, some min, some sec =>
        if s.get? 4 = some '-' ∧ s.get? 7 = some '-' ∧ s.get? 10 = some 'T' ∧
            s.get? 13 = some ':' ∧ s.get? 16 = some ':' then
          let s := s.drop 19
          let frac := if s.head? = some '.' ∧ ((s.drop 1).head?.map Char.isDigit) = some true
                      then (s.drop 1).takeWhile Char.isDigit else []
          let nsec := parseNanoseconds frac
          let s := if frac = [] then s else s.drop (1 + frac.length)
          let t := Date year month day hour min sec nsec
          if s = ['Z'] then some ⟨t, 0⟩
          else if s.length ≠ 6 then none
          else
            match parseUint ((s.drop 1).take 2) 0 23, parseUint ((s.drop 4).take 2) 0 59 with
            | some hr, some mm =>
              if (s.head? = some '-' ∨ s.head? = some '+') ∧ s.get? 3 = some ':' then
                let zoneOffset : Int := ((hr * 60 + mm) * 60 : Nat)
                let zoneOffset := if s.head? = some '-' then -zoneOffset else zoneOffset
                some ⟨t - zoneOffset * 1000000000, zoneOffset⟩
              else none
            | _, _ => none
        else none
      | _, _, _, _ => none
    | _, _ => none

/-- Model of `getnum`: a number of two digits, or of one digit unless `fixed`, and the rest
of the value. -/
def getnum (s : List Char) (fixed : Bool) : Option (Nat × List Char) :=
  match s with
  | c0 :: c1 :: rest =>
    if c0.isDigit then
      if c1.isDigit then some ((c0.toNat - 48) * 10 + (c1.toNat - 48), rest)
      else if fixed then none else some (c0.toNat - 48, c1 :: rest)
    else none
  | [c0] => if c0.isDigit ∧ fixed = false then some (c0.toNat - 48, []) else none
  | [] => none

/-- Model of `atoi` on a string that starts with a digit, as `parse` calls it for the
year: all characters must be digits. -/
def atoi (s : List Char) : Option Nat :=
  if s.all Char.isDigit then some (s.foldl (fun acc c => acc * 10 + (c.toNat - 48)) 0)
  else none

/-- Model of `skip(value, prefix)` for a prefix of one character other than a space. -/
def skip (value : List Char) (pre : Char) : Option (List Char) :=
  match value with
  | c :: rest => if c = pre then some rest else none
  | [] => none

def commaOrPeriod (c : Char) : Bool := c = '.' || c = ','

/-- The chunks `2006-01-02` of the layout in `parse`: year, month, day and the rest of the
value. The day of the month is checked at the end of `parse`. -/
def parseDate (value : List Char) : Option (Nat × Nat × Nat × List Char) :=
  if value.length < 4 ∨ value.head?.map Char.isDigit ≠ some true then none else
  (atoi (value.take 4)).bind fun year =>
  (skip (value.drop 4) '-').bind fun value =>
  (getnum value true).bind fun month =>
  if month.1 ≤ 0 ∨ 12 < month.1 then none else
  (skip month.2 '-').bind fun value =>
  (getnum value true).bind fun day =>
  some (year, month.1, day.1, day.2)

/-- The chunks `15:04:05` of the layout in `parse`: hour, minute, second and the rest of
the value. -/
def parseClock (value : List Char) : Option (Nat × Nat × Nat × List Char) :=
  (getnum value false).bind fun hour =>
  if 24 ≤ hour.1 then none else
  (skip hour.2 ':').bind fun value =>
  (getnum value true).bind fun min =>
  if 60 ≤ min.1 then none else
  (skip min.2 ':').bind fun value =>
  (getnum value true).bind fun sec =>
  if 60 ≤ sec.1 then none else
  some (hour.1, min.1, sec.1, sec.2)

/-- The fraction of a second that `parse` reads after the seconds although the layout has
none: a period or comma followed by digits. Returns the nanoseconds and the rest. -/
def parseFraction (value : List Char) : Nat × List Char :=
  match value with
  | c0 :: c1 :: rest =>
    if commaOrPeriod c0 ∧ c1.isDigit then
      (parseNanoseconds ((c1 :: rest).takeWhile Char.isDigit),
        (c1 :: rest).dropWhile Char.isDigit)
    else (0, value)
  | _ => (0, value)

/-- The chunk `Z07:00` of the layout in `parse`: `Z`, or a sign, two digits, a colon and two
digits, with at most 24 hours and at most 60 minutes. Returns the offset in seconds and
the rest. -/
def parseColonTZ (value : List Char) : Option (Int × List Char) :=
  if value.head? = some 'Z' then some (0, value.drop 1)
  else if value.length < 6 then none
  else if value.get? 3 ≠ some ':' then none
  else
    match getnum ((value.drop 1).take 2) true, getnum ((value.drop 4).take 2) true with
    | some (hr, _), some (mm, _) =>
      if 24 < hr ∨ 60 < mm then none
      else
        let zoneOffset : Int := ((hr * 60 + mm) * 60 : Nat)
        if value.head? = some '+' then some (zoneOffset, value.drop 6)
        else if value.head? = some '-' then some (-zoneOffset, value.drop 6)
        else none
    | _, _ => none

/-- Model of `parse(layout, value, UTC, Local)` of package `time` for the layout `RFC3339`,
the parser `time.Parse` falls back to; `none` is any of its errors. -/
def parse (str : String) : Option Time :=
  (parseDate str.data).bind fun d =>
  (skip d.2.2.2 'T').bind fun value =>
  (parseClock value).bind fun c =>
  let nsec := parseFraction c.2.2.2
  (parseColonTZ nsec.2).bind fun zone =>
  if zone.2 ≠ [] then none else
  if d.2.2.1 < 1 ∨ d.2.2.1 > daysIn d.2.1 d.1 then none else
  some ⟨Date d.1 d.2.1 d.2.2.1 c.1 c.2.1 c.2.2.1 nsec.1 - zone.1 * 1000000000, zone.1⟩

/-- Model of `time.Parse(time.RFC3339, value)`; `none` is the parse error. -/
def Parse (value : String) : Option Time :=
  match parseRFC3339 value with
  | some t => some t
  | none => parse value

/-- Decimal digits of `n`, zero-padded to at least `width` digits. -/
def padNat (width n : Nat) : List Char :=
  if n < 10 ^ width then
    (List.range width).reverse.map (fun i => Nat.digitChar (n / 10 ^ i % 10))
  else Nat.toDigits 10 n

/-- Model of `appendInt`: the decimal text of `x`, a minus sign first when negative, the
digits zero-padded to at least `width`. -/
def appendInt (x : Int) (width : Nat) : List Char :=
  if x < 0 then '-' :: padNat width x.natAbs else padNat width x.natAbs

/-- Model of `t.Nanosecond()`: the nanoseconds within the second. -/
def Time.Nanosecond (t : Time) : Int := t.unixNano % 1000000000

/-- Model of `t.Year()`: the civil year of the time in its own zone. -/
def Time.Year (t : Time) : Int :=
  (civilFromDays ((t.unixNano / 1000000000 + t.offset) / 86400)).1

/-- Model of `t.Format(time.RFC3339)`: the date and the wall clock of the time in its own
zone, then `Z` when the offset is zero and else the offset in hours and minutes. -/
def formatRFC3339 (t : Time) : String :=
  let abs := t.unixNano / 1000000000 + t.offset
  let (year, month, day) := civilFromDays (abs / 86400)
  let clock := (abs % 86400).toNat
  let zone := Int.tdiv t.offset 60
  ⟨appendInt year 4 ++ '-' :: appendInt month 2 ++ '-' :: appendInt day 2 ++ 'T' ::
    appendInt (clock / 3600 : Nat) 2 ++ ':' :: appendInt (clock % 3600 / 60 : Nat) 2 ++ ':' ::
    appendInt (clock % 60 : Nat) 2 ++
    (if t.offset = 0 then ['Z']
     else (if zone < 0 then '-' else '+') :: appendInt (zone.natAbs / 60 : Nat) 2 ++ ':' ::
       appendInt (zone.natAbs % 60 : Nat) 2)⟩

/-! ## ParseRecord, Import, Export -/

/-- The errors of the modelled operations: the error of `ParseRecord` for a short row
("ProcessRecord: wrong number of array args"), the error of `time.Parse`, and
`csv.ErrFieldCount`. -/
inductive Error where
  | wrongArgs
  | timeParse
  | fieldCount
deriving DecidableEq, Repr

/-- Model of `AddressList.ParseRecord`: merges the row through `ReceiveRecord` and then writes the
ignore flag through the returned pointer. -/
def ParseRecord (al : AddressList) (row : List String) :
    AddressList × Except Error AddressRecord :=
  match row with
  | email :: name :: ts :: ign :: _ =>
    match Parse ts with
    | none => (al, .error .timeParse)
    | some t =>
      let (al1, ar) := ReceiveRecord al email name t
      let ar := { ar with Ignore := (ign = "IGNORE") }
      (⟨mapSet al1.addrs ⟨ToLower email⟩ ar⟩, .ok ar)
  | _ => (al, .error .wrongArgs)

/-- The field-count check of `csv.Reader.Read` with `FieldsPerRecord` left at 0: the
first record fixes the count every later record must have. Returns the new
`FieldsPerRecord`. -/
def csvFieldCheck (fieldsPerRecord : Nat) (row : List String) : Except Error Nat :=
  if fieldsPerRecord > 0 then
    if row.length ≠ fieldsPerRecord then .error .fieldCount else .ok fieldsPerRecord
  else .ok row.length

/-- The read loop of `Import`. -/
def importLoop (fieldsPerRecord : Nat) (al : AddressList) :
    List (List String) → AddressList × Option Error
  | [] => (al, none)
  | row :: rest =>
    match csvFieldCheck fieldsPerRecord row with
    | .error e => (al, some e)
    | .ok fpr =>
      match ParseRecord al row with
      | (al1, .error e) => (al1, some e)
      | (al1, .ok _) => importLoop fpr al1 rest

/-- Model of `AddressList.Import` on an existing store: the updated list and the returned error
(`none` for `nil`). -/
def Import (al : AddressList) (store : List (List String)) : AddressList × Option Error :=
  importLoop 0 al store

/-- The value `al.addrs[k].LastUsed`, as read by the comparison function of `Export`. -/
def lastUsedOf (al : AddressList) (k : AddressKey) : Time :=
  match mapGet al.addrs k with
  | some v => v.LastUsed
  | none => ⟨0, 0⟩

/-- The row `Export` writes for key `k`. -/
def exportRow (al : AddressList) (k : AddressKey) : List String :=
  match mapGet al.addrs k with
  | some v => [k.Email, v.Name, formatRFC3339 v.LastUsed, v.IgnoreStr]
  | none => []

/-- Model of `AddressList.Export`, for the iteration order of the map given by the list and a
stable sort: the rows written. -/
def Export (al : AddressList) : List (List String) :=
  let keys := al.addrs.map Prod.fst
  let keys := keys.insertionSort (fun i j => ¬ (lastUsedOf al j).After (lastUsedOf al i))
  keys.map (exportRow al)

/-- Every result `Export` can produce: the map is iterated in an unspecified order and
`sort.Slice` is not stable, so the keys come in any order in which no key is followed by
one whose `LastUsed` is after its own. -/
def IsExport (al : AddressList) (rows : List (List String)) : Prop :=
  ∃ keys : List AddressKey, keys.Perm (al.addrs.map Prod.fst) ∧
    keys.Sorted (fun i j => ¬ (lastUsedOf al j).After (lastUsedOf al i)) ∧
    rows = keys.map (exportRow al)

/-- The row `Export` writes for a map entry. -/
def entryRow (p : AddressKey × AddressRecord) : List String :=
  [p.1.Email, p.2.Name, formatRFC3339 p.2.LastUsed, p.2.IgnoreStr]

/-- A time has second precision: it is a whole number of seconds. -/
def SecondPrecision (t : Time) : Prop := t.Nanosecond = 0

instance (t : Time) : Decidable (SecondPrecision t) := by
  unfold SecondPrecision
  infer_instance

/-- What RFC3339 text can carry of a time besides whole seconds: a year from 0 to 9999 in
the zone of the time, and a zone offset of a whole number of minutes, less than 24 hours
from UTC. -/
def InRFC3339Range (t : Time) : Prop :=
  0 ≤ t.Year ∧ t.Year ≤ 9999 ∧ t.offset % 60 = 0 ∧ -86400 < t.offset ∧ t.offset < 86400

instance (t : Time) : Decidable (InRFC3339Range t) := by
  unfold InRFC3339Range
  infer_instance

/-! ## Rows as sightings (used to reason about `Import`) -/

/-- What `ParseRecord` reads from a row it accepts: the first two fields, the parsed time
and whether the fourth field is the ignore marker. -/
structure Sighting where
  email : String
  name : String
  time : Time
  ignore : Bool
deriving DecidableEq, Repr

/-- The sighting of a row, `none` for a row `ParseRecord` rejects. -/
def parseRow (row : List String) : Option Sighting :=
  match row with
  | email :: name :: ts :: ign :: _ =>
    match Parse ts with
    | none => none
    | some t => some ⟨email, name, t, decide (ign = "IGNORE")⟩
  | _ => none

def Sighting.key (s : Sighting) : AddressKey := ⟨ToLower s.email⟩

/-- The record `ParseRecord` leaves under the key of sighting `s`, from the entry `o`
the map held under that key before. -/
def stepRec (o : Option AddressRecord) (s : Sighting) : AddressRecord :=
  match o with
  | none => ⟨ToLower s.email, effName s.email s.name, s.time, s.ignore⟩
  | some ar => { mergeRecord ar (effName s.email s.name) s.time with Ignore := s.ignore }

/-- The error `ParseRecord` returns for a row it rejects. -/
def rowError (row : List String) : Error :=
  if row.length < 4 then .wrongArgs else .timeParse

/-- The rows of a store that `Import` merges before it stops, and the error it stops
with: both depend on the rows alone. -/
def importPrefix (fieldsPerRecord : Nat) : List (List String) → List Sighting × Option Error
  | [] => ([], none)
  | row :: rest =>
    match csvFieldCheck fieldsPerRecord row with
    | .error e => ([], some e)
    | .ok fpr =>
      match parseRow row with
      | none => ([], some (rowError row))
      | some sg => (sg :: (importPrefix fpr rest).1, (importPrefix fpr rest).2)

/-- Merging one sighting as `ParseRecord` does. -/
def applySighting (al : AddressList) (s : Sighting) : AddressList :=
  ⟨mapSet (ReceiveRecord al s.email s.name s.time).1.addrs s.key
    { (ReceiveRecord al s.email s.name s.time).2 with Ignore := s.ignore }⟩

/-- Record `r` absorbs sighting `s`: it is not older than `s` and has a name unless `s`
has none. -/
def Absorbs (r : AddressRecord) (s : Sighting) : Prop :=
  ¬ r.LastUsed.Before s.time ∧ (r.Name = "" → effName s.email s.name = "")

/-- Record `r2` dominates `r1`: it is not older and has a name if `r1` has one. -/
def Dominates (r1 r2 : AddressRecord) : Prop :=
  ¬ r2.LastUsed.Before r1.LastUsed ∧ (r2.Name = "" → r1.Name = "")

/-- One step of the evolution of a single map entry under the sightings of its key. -/
def entryStep (o : Option AddressRecord) (s : Sighting) : Option AddressRecord :=
  some (stepRec o s)

/-! ## IsMatch, FindMatches -/

/-- Model of `strings.Contains` on the characters of the strings. -/
def containsChars : List Char → List Char → Bool
  | [], sub => sub.isPrefixOf []
  | c :: cs, sub => sub.isPrefixOf (c :: cs) || containsChars cs sub

/-- Model of `strings.Contains`. -/
def Contains (s substr : String) : Bool := containsChars s.data substr.data

/-- Model of `strings.SplitN(s, "@", 2)`. -/
def SplitN2 (s : List Char) : List (List Char) :=
  match s.span (fun c => c ≠ '@') with
  | (a, []) => [a]
  | (a, _ :: b) => [a, b]

/-- The `emailParts` of `IsMatch`: the split of the lowercased email, padded with empty
strings to two parts. -/
def emailParts (email : String) : List (List Char) :=
  let parts := SplitN2 (ToLower email).data
  parts ++ List.replicate (2 - parts.length) []

/-- Model of the function `IsMatch`. -/
def IsMatch (rec : AddressRecord) (searches : List String) : Bool :=
  if rec.Ignore then false
  else
    let parts := emailParts rec.Email
    searches.all (fun search =>
      Contains (ToLower rec.Name) search
      || containsChars (parts.getD 0 []) search.data
      || containsChars ('.' :: parts.getD 1 []) ('.' :: search.data))

/-- The class `\w` of the regular expression: ASCII letters, digits and underscore. -/
def isWordChar (c : Char) : Bool := c.isAlphanum || c = '_'

/-- The pieces between maximal runs of non-word characters; `cur` is the piece being read
(reversed), `inSep` tells whether the previous character was a separator. -/
def splitAux : List Char → List Char → Bool → List (List Char)
  | [], cur, _ => [cur.reverse]
  | c :: cs, cur, inSep =>
    if isWordChar c then splitAux cs (c :: cur) false
    else if inSep then splitAux cs cur true
    else cur.reverse :: splitAux cs [] true

/-- Model of ``regexp.MustCompile(`\W+`).Split(s, -1)``: the pieces between the maximal runs
of non-word characters, the empty pieces at either end included. -/
def splitNonWord (s : String) : List String :=
  (splitAux s.data [] false).map String.mk

/-- The `searches` of `FindMatches`: the non-empty pieces of the lowercased query. -/
def tokenize (search : String) : List String :=
  (splitNonWord (ToLower search)).filter (fun str => str ≠ "")

/-- A Go slice of records: its elements and its capacity. -/
structure Slice where
  elems : List AddressRecord
  cap : Nat
deriving DecidableEq, Repr

/-- Model of `append(res, rec)`: in place while the capacity allows, else into a grown
array (at least doubled, at least the needed length; from capacity 0 the new capacity
is 1). -/
def Slice.append (s : Slice) (rec : AddressRecord) : Slice :=
  if s.elems.length < s.cap then ⟨s.elems ++ [rec], s.cap⟩
  else ⟨s.elems ++ [rec], max (s.elems.length + 1) (2 * s.cap)⟩

/-- The scan loop of `FindMatches`. -/
def findLoop (searches : List String) (fieldsPerRecord : Nat) (al : AddressList)
    (res : Slice) : List (List String) → AddressList × Except Error (List AddressRecord)
  | [] => (al, .ok res.elems)
  | row :: rest =>
    match csvFieldCheck fieldsPerRecord row with
    | .error e => (al, .error e)
    | .ok fpr =>
      match ParseRecord al row with
      | (al1, .error e) => (al1, .error e)
      | (al1, .ok rec) =>
        if IsMatch rec searches then
          let res := res.append rec
          if res.elems.length = res.cap then (al1, .ok res.elems)
          else findLoop searches fpr al1 res rest
        else findLoop searches fpr al1 res rest

/-- Model of `AddressList.FindMatches` on an existing store: the list after the call and the
returned matches or error. -/
def FindMatches (al : AddressList) (search : String) (store : List (List String))
    (maxMatches : Nat) : AddressList × Except Error (List AddressRecord) :=
  findLoop (tokenize search) 0 al ⟨[], maxMatches⟩ store

/-! ## The words of the specification about matching -/

/-- The part of an email before its first `@` (all of it when there is none). -/
def localPart (email : List Char) : List Char := email.takeWhile (fun c => c ≠ '@')

/-- The part of an email after its first `@` (empty when there is none). -/
def domainPart (email : List Char) : List Char := (email.dropWhile (fun c => c ≠ '@')).drop 1

/-- A token matches a record as the specification words it: it is a substring of the
lowercased name, or of the local part of the lowercased email, or, both prefixed with a
dot, of the domain of the lowercased email. -/
def TokenMatches (rec : AddressRecord) (tok : String) : Prop :=
  tok.data <:+: (ToLower rec.Name).data ∨
  tok.data <:+: localPart (ToLower rec.Email).data ∨
  ('.' :: tok.data) <:+: ('.' :: domainPart (ToLower rec.Email).data)

/-- A book for examples: one sighting, then one imported row carrying the ignore marker. -/
def exampleBook : AddressList :=
  (ParseRecord (ReceiveRecord NewAddressList "Bob@X.org" "Bob" ⟨1577836800000000000, 0⟩).1
    ["a@b.c", "Ann", "2020-01-02T00:00:00Z", "IGNORE"]).1

/-- A book with times in two zones: one sighting in a zone five and a half hours east of
UTC, then one imported row, seven hours west, carrying the ignore marker. -/
def zoneBook : AddressList :=
  (ParseRecord (ReceiveRecord NewAddressList "Bob@X.org" "Bob" ⟨1577836800000000000, 19800⟩).1
    ["a@b.c", "Ann", "2019-12-31T17:00:00-07:00", "IGNORE"]).1

/-- A book with one sighting at 10000-01-01T00:00:00 UTC. -/
def farFutureBook : AddressList :=
  (ReceiveRecord NewAddressList "a@b.c" "Ann" ⟨253402300800000000000, 0⟩).1

/-- A book with one sighting at the epoch, in a zone 30 seconds east of UTC. -/
def oddZoneBook : AddressList :=
  (ReceiveRecord NewAddressList "a@b.c" "Ann" ⟨0, 30⟩).1

/-- The store of the `acme` example, for any three timestamps. -/
def acmeStore (ts1 ts2 ts3 : String) : List (List String) :=
  [["alice@acme.com", "Alice", ts1, ""], ["bob@other.com", "Bob", ts2, ""],
   ["carol@sub.acme.com", "Carol", ts3, ""]]

/-- The records `ParseRecord` returns for the rows of a store, in row order, up to the
first row that is rejected: the records `FindMatches` tests with `IsMatch`. -/
def parsedRecords (fieldsPerRecord : Nat) (al : AddressList) :
    List (List String) → List AddressRecord
  | [] => []
  | row :: rest =>
    match csvFieldCheck fieldsPerRecord row with
    | .error _ => []
    | .ok fpr =>
      match ParseRecord al row with
      | (_, .error _) => []
      | (al1, .ok rec) => rec :: parsedRecords fpr al1 rest

/-- A book that already knows bob@other.com under another name, seen later than the rows
of the `acme` store. -/
def bobBook : AddressList :=
  (ReceiveRecord NewAddressList "bob@other.com" "Acme Bob" ⟨1600000000000000000, 0⟩).1

/-- A store of two rows with five fields each. -/
def fiveFieldStore : List (List String) :=
  [["a@b.c", "Ann", "2020-01-02T00:00:00Z", "", "extra"],
   ["d@e.f", "Dan", "2020-01-03T00:00:00Z", "IGNORE", "more"]]

/-- The row `Export` writes for a record, in the words of the specification: email, name,
RFC3339 time, and the ignore marker. -/
def recordRow (r : AddressRecord) : List String :=
  [r.Email, r.Name, formatRFC3339 r.LastUsed, if r.Ignore then "IGNORE" else ""]

/-- The book after a sequence of `ReceiveRecord` calls, each given as (email, name, time). -/
def receiveAll (al : AddressList) (calls : List (String × String × Time)) : AddressList :=
  calls.foldl (fun b c => (ReceiveRecord b c.1 c.2.1 c.2.2).1) al

/-- What the specification asks of the rows of an export: one row per record of the book,
in an order in which no row is strictly later than a row before it. -/
def ExportedRows (al : AddressList) (rows : List (List String)) : Prop :=
  ∃ recs : List AddressRecord, recs.Perm (al.addrs.map Prod.snd) ∧
    rows = recs.map recordRow ∧
    recs.Pairwise (fun r1 r2 => ¬ r1.LastUsed.Before r2.LastUsed)

/-! ## The session controller (`client/client.go`)

The backend worker, its actions and messages, and the message store belong to the aerc
library; they are modelled as far as the controller tells them apart. What the controller
does to its collaborators is recorded as a list of effects. -/

/-- The actions of the backend worker. -/
inductive Action where
  | configure
  | connect
  | openDirectory (directory : String)
  | fetchDirectoryContents
  | fetchMessageHeaders (uids : List Nat)
  | otherAction (tag : Nat)
deriving DecidableEq, Repr

/-- An address of an envelope (`mail.Address`). -/
structure MailAddress where
  Name : String
  Address : String
deriving DecidableEq, Repr

/-- The address lists of a message envelope. -/
structure Envelope where
  From : List MailAddress
  ReplyTo : List MailAddress
  To : List MailAddress
  Cc : List MailAddress
  Bcc : List MailAddress
deriving DecidableEq, Repr

/-- What the controller reads of a message: its envelope and its arrival time. -/
structure MessageInfo where
  Envelope : AddrList.Envelope
  InternalDate : Time
deriving DecidableEq, Repr

/-- The messages of the backend worker; `inResponseTo` is the action a message answers,
if any. -/
inductive WorkerMessage where
  | error (inResponseTo : Option Action)
  | directoryInfo (info : String)
  | directoryContents (uids : List Nat)
  | messageInfo (info : MessageInfo)
  | done (inResponseTo : Option Action)
  | otherMessage (tag : Nat) (inResponseTo : Option Action)
deriving DecidableEq, Repr

/-- The message store, as far as the controller uses it: the directory it was created for
and the message ids of the last listing. -/
structure MessageStore where
  dirInfo : String
  uids : List Nat
deriving DecidableEq, Repr

/-- Model of `MessageStore.Update` for the two messages the controller passes to it. -/
def MessageStore.Update (st : MessageStore) (msg : WorkerMessage) : MessageStore :=
  match msg with
  | .directoryInfo info => { st with dirInfo := info }
  | .directoryContents uids => { st with uids := uids }
  | _ => st

/-- What a controller does to its collaborators: post an action to the worker, create a
message store, ask the store to fetch headers, invoke the sighting callback. -/
inductive Effect where
  | postAction (a : Action)
  | newMessageStore (dirInfo : String)
  | fetchHeaders (uids : List Nat)
  | callback (account : String) (addr : MailAddress) (info : MessageInfo)
deriving DecidableEq, Repr

/-- Whether an effect is a call of the sighting callback. -/
def Effect.isCallback : Effect → Bool
  | .callback _ _ _ => true
  | _ => false

/-- The state of a session controller: account name, folder, the identity of its worker (and
so of the worker's message channel), and the message store once created. -/
structure AccountClient where
  acct : String
  folder : String
  worker : Nat
  store : Option MessageStore
deriving DecidableEq, Repr

/-- Model of `NewAccountClient` when the worker is created without error: the controller
and the two actions posted. -/
def NewAccountClient (acct folder : String) (worker : Nat) : AccountClient × List Effect :=
  (⟨acct, folder, worker, none⟩, [.postAction .configure, .postAction .connect])

/-- Model of `AccountClient.parseMessage`: one callback per address of the five lists. -/
def AccountClient.parseMessage (client : AccountClient) (info : MessageInfo) : List Effect :=
  let envelope := info.Envelope
  let addrLists := [envelope.From, envelope.ReplyTo, envelope.To, envelope.Cc, envelope.Bcc]
  (addrLists.map (fun list => list.map (fun addr => Effect.callback client.acct addr info))).flatten

/-- Model of `AccountClient.connected`. -/
def AccountClient.connected (client : AccountClient) : List Effect × Bool :=
  ([.postAction (.openDirectory client.folder)], true)

/-- Model of `AccountClient.openedDirectory`. -/
def AccountClient.openedDirectory (_client : AccountClient) : List Effect × Bool := ([], true)

/-- Model of `AccountClient.fetchedDirContents`. -/
def AccountClient.fetchedDirContents (_client : AccountClient) : List Effect × Bool := ([], true)

/-- Model of `AccountClient.fetchedMsgHeaders`. -/
def AccountClient.fetchedMsgHeaders (_client : AccountClient) : List Effect × Bool := ([], false)

/-- Model of `AccountClient.ProcessMessage`: the controller after the message, the effects,
and the returned flag (`false` reports termination). -/
def AccountClient.ProcessMessage (client : AccountClient) (msg : WorkerMessage) :
    AccountClient × List Effect × Bool :=
  match msg with
  | .error _ => (client, [], false)
  | .directoryInfo info =>
    match client.store with
    | none =>
      ({ client with store := some ((MessageStore.mk info []).Update msg) },
        [.newMessageStore info], true)
    | some _ => (client, [], true)
  | .directoryContents _ =>
    match client.store with
    | some st =>
      ({ client with store := some (st.Update msg) }, [.fetchHeaders (st.Update msg).uids], true)
    | none => (client, [], true)
  | .messageInfo info => (client, client.parseMessage info, true)
  | .done (some .connect) => (client, client.connected.1, client.connected.2)
  | .done (some (.openDirectory _)) =>
    (client, client.openedDirectory.1, client.openedDirectory.2)
  | .done (some .fetchDirectoryContents) =>
    (client, client.fetchedDirContents.1, client.fetchedDirContents.2)
  | .done (some (.fetchMessageHeaders _)) =>
    (client, client.fetchedMsgHeaders.1, client.fetchedMsgHeaders.2)
  | .done _ => (client, [], true)
  | .otherMessage _ _ => (client, [], true)

/-- A controller fed a sequence of messages: the final controller, all effects in order, and
the flag returned for each message. -/
def feed (client : AccountClient) : List WorkerMessage → AccountClient × List Effect × List Bool
  | [] => (client, [], [])
  | m :: ms =>
    ((feed (client.ProcessMessage m).1 ms).1,
      (client.ProcessMessage m).2.1 ++ (feed (client.ProcessMessage m).1 ms).2.1,
      (client.ProcessMessage m).2.2 :: (feed (client.ProcessMessage m).1 ms).2.2)

/-! ## The callback and the event loop (`addrlist.go`) -/

/-- Model of `clientCallback`: the sighting is merged into the book. -/
def clientCallback (al : AddressList) (_account : String) (addr : MailAddress)
    (info : MessageInfo) : AddressList :=
  (ReceiveRecord al addr.Address addr.Name info.InternalDate).1

/-- The book after the callbacks among a list of effects have run, in order. -/
def runEffects (al : AddressList) (effects : List Effect) : AddressList :=
  effects.foldl (fun b e =>
    match e with
    | .callback account addr info => clientCallback b account addr info
    | _ => b) al

/-- The state of the event loop of `main`: the two parallel slices and the book. -/
structure MuxState where
  clients : List AccountClient
  cases : List Nat
  al : AddressList
deriving DecidableEq, Repr

/-- Removal by `l[chosen] = l[len(l)-1]; l = l[:len(l)-1]`. -/
def swapRemove {α : Type} (l : List α) (chosen : Nat) : List α :=
  match l.getLast? with
  | none => l
  | some last => (l.set chosen last).dropLast

/-- A result of `reflect.Select`: the index chosen, and the value received (`none` when the
channel is closed, `ok = false`). -/
structure Selected where
  chosen : Nat
  value : Option WorkerMessage
deriving DecidableEq, Repr

/-- One iteration of the event loop of `main`. `Select` only returns an index of `cases`; for
any other index the model leaves the state alone. -/
def loopBody (s : MuxState) (sel : Selected) : MuxState :=
  match sel.value with
  | none => s
  | some msg =>
    match s.clients[sel.chosen]? with
    | none => s
    | some client =>
      let r := client.ProcessMessage msg
      let clients := s.clients.set sel.chosen r.1
      let al := runEffects s.al r.2.1
      if r.2.2 then { s with clients := clients, al := al }
      else { clients := swapRemove clients sel.chosen,
             cases := swapRemove s.cases sel.chosen,
             al := al }

/-- Whether the dispatch of a selection reports termination. -/
def reportsTermination (s : MuxState) (sel : Selected) : Bool :=
  match sel.value, s.clients[sel.chosen]? with
  | some msg, some client => !(client.ProcessMessage msg).2.2
  | _, _ => false

/-- The event loop of `main`, run on the selections a schedule supplies. It goes on while
`cases` is not empty and returns the state it ends in; `none` when the schedule is used up
while `cases` is not empty, the loop then still waiting in `Select`. -/
def mainLoop : MuxState → List Selected → Option MuxState
  | s, [] => if s.cases.length > 0 then none else some s
  | s, sel :: rest => if s.cases.length > 0 then mainLoop (loopBody s sel) rest else some s

/-- The number of dispatches that report termination while the loop runs a schedule. -/
def terminations : MuxState → List Selected → Nat
  | _, [] => 0
  | s, sel :: rest =>
    if s.cases.length > 0 then
      (if reportsTermination s sel then 1 else 0) + terminations (loopBody s sel) rest
    else 0

/-- The two slices of the loop are paired: position by position, the event source is the
channel of the session's worker. -/
def Paired (s : MuxState) : Prop := s.cases = s.clients.map (fun c => c.worker)

/-- An account as the start-up loop of `main` sees it: its name, the folder the folder map
gives for it (empty when it gives none), and the worker created for it (`none` when
`NewAccountClient` fails). -/
structure AccountConfig where
  Name : String
  folder : String
  worker : Option Nat
deriving DecidableEq, Repr

/-- The start-up loop of `main`: one session and one select case per account that has a
folder and whose client is created without error; `al` is the book the event loop starts
with. -/
def startSessions (accounts : List AccountConfig) (al : AddressList) : MuxState :=
  accounts.foldl (fun s acct =>
    if acct.folder = "" then s
    else
      match acct.worker with
      | some w =>
        { s with clients := s.clients ++ [(NewAccountClient acct.Name acct.folder w).1],
                 cases := s.cases ++ [w] }
      | none => s) ⟨[], [], al⟩

/-- Three sessions on workers 1, 2 and 3, on a fresh book. -/
def threeSessions : MuxState :=
  { clients := [(NewAccountClient "one" "Sent" 1).1, (NewAccountClient "two" "Sent" 2).1,
      (NewAccountClient "three" "Sent" 3).1],
    cases := [1, 2, 3],
    al := NewAddressList }

instance (s : MuxState) : Decidable (Paired s) := by
  unfold Paired
  infer_instance

/-- The sighting calls of a message: its addresses in field order, each with the arrival
time of the message. -/
def sightingsOf (info : MessageInfo) : List (String × String × Time) :=
  (info.Envelope.From ++ info.Envelope.ReplyTo ++ info.Envelope.To ++ info.Envelope.Cc
    ++ info.Envelope.Bcc).map (fun addr => (addr.Address, addr.Name, info.InternalDate))

/-- The messages of the example run of a session. -/
def exampleRun (info : String) (uids fetched : List Nat) (m1 m2 m3 : MessageInfo) :
    List WorkerMessage :=
  [.done (some .connect), .directoryInfo info, .directoryContents uids, .messageInfo m1,
    .messageInfo m2, .messageInfo m3, .done (some (.fetchMessageHeaders fetched))]

/-! ## Reachable books and their invariant -/

/-- The books reachable from the empty book by `ReceiveRecord` and `ParseRecord` (the
only writers of the map; `Import` and `FindMatches` write through `ParseRecord`). -/
inductive Reachable : AddressList → Prop
  | empty : Reachable NewAddressList
  | receive (al : AddressList) (email name : String) (t : Time) :
      Reachable al → Reachable (ReceiveRecord al email name t).1
  | parse (al : AddressList) (row : List String) :
      Reachable al → Reachable (ParseRecord al row).1

/-- A map entry is well formed: the record carries the key as its email, the key is
lowercase, and the name is not the email up to letter case (unless empty). -/
def EntryOK (p : AddressKey × AddressRecord) : Prop :=
  p.2.Email = p.1.Email ∧ ToLower p.1.Email = p.1.Email ∧ effName p.1.Email p.2.Name = p.2.Name

/-- The invariant of the book: one entry per key, every entry well formed. -/
def BookInv (al : AddressList) : Prop :=
  (al.addrs.map Prod.fst).Nodup ∧ ∀ p ∈ al.addrs, EntryOK p

/-! ## Map lemmas -/

theorem mapGet_mapSet_self (m : List (AddressKey × AddressRecord)) (k : AddressKey)
    (r : AddressRecord) : mapGet (mapSet m k r) k = some r := by
  induction m with
  | nil => simp [mapSet, mapGet]
  | cons p rest ih =>
    obtain ⟨k', r'⟩ := p
    by_cases h : k' = k
    · simp [mapSet, mapGet, h]
    · simp [mapSet, mapGet, h, ih]

theorem mapGet_mapSet_of_ne (m : List (AddressKey × AddressRecord)) (k k2 : AddressKey)
    (r : AddressRecord) (h : k ≠ k2) : mapGet (mapSet m k r) k2 = mapGet m k2 := by
  induction m with
  | nil => simp [mapSet, mapGet, h]
  | cons p rest ih =>
    obtain ⟨k', r'⟩ := p
    by_cases h1 : k' = k
    · subst h1
      simp [mapSet, mapGet, h]
    · by_cases h2 : k' = k2
      · subst h2
        simp [mapSet, mapGet, h1]
      · simp [mapSet, mapGet, h1, h2, ih]

theorem mem_of_mapGet (m : List (AddressKey × AddressRecord)) (k : AddressKey)
    (r : AddressRecord) (h : mapGet m k = some r) : (k, r) ∈ m := by
  induction m with
  | nil => simp [mapGet] at h
  | cons p rest ih =>
    obtain ⟨k', r'⟩ := p
    by_cases h1 : k' = k
    · subst h1
      simp [mapGet] at h
      simp [h]
    · simp [mapGet, h1] at h
      exact List.mem_cons_of_mem _ (ih h)

theorem mapGet_of_mem (m : List (AddressKey × AddressRecord)) (k : AddressKey)
    (r : AddressRecord) (hnd : (m.map Prod.fst).Nodup) (h : (k, r) ∈ m) :
    mapGet m k = some r := by
  induction m with
  | nil => simp at h
  | cons p rest ih =>
    obtain ⟨k', r'⟩ := p
    simp only [List.map_cons, List.nodup_cons, List.mem_map, not_exists, not_and] at hnd
    rcases List.mem_cons.1 h with heq | hmem
    · cases heq
      simp [mapGet]
    · have hne : k' ≠ k := fun hk => hnd.1 (k, r) hmem hk.symm
      simp only [mapGet, hne, if_false]
      exact ih hnd.2 hmem

theorem mapGet_eq_none_iff (m : List (AddressKey × AddressRecord)) (k : AddressKey) :
    mapGet m k = none ↔ k ∉ m.map Prod.fst := by
  induction m with
  | nil => simp [mapGet]
  | cons p rest ih =>
    obtain ⟨k', r'⟩ := p
    by_cases h1 : k' = k
    · simp [mapGet, h1]
    · simp only [mapGet, h1, if_false, ih, List.map_cons, List.mem_cons]
      constructor
      · intro h hor
        rcases hor with hk | hk
        · exact h1 hk.symm
        · exact h hk
      · intro h hk
        exact h (Or.inr hk)

theorem mem_mapSet (m : List (AddressKey × AddressRecord)) (k : AddressKey)
    (r : AddressRecord) (p : AddressKey × AddressRecord) (h : p ∈ mapSet m k r) :
    p = (k, r) ∨ p ∈ m := by
  induction m with
  | nil =>
    simp [mapSet] at h
    exact Or.inl h
  | cons q rest ih =>
    obtain ⟨k', r'⟩ := q
    by_cases h1 : k' = k
    · simp only [mapSet, h1, if_true, List.mem_cons] at h
      rcases h with h | h
      · exact Or.inl h
      · exact Or.inr (List.mem_cons_of_mem _ h)
    · simp only [mapSet, h1, if_false, List.mem_cons] at h
      rcases h with h | h
      · exact Or.inr (h ▸ List.mem_cons_self _ _)
      · rcases ih h with h2 | h2
        · exact Or.inl h2
        · exact Or.inr (List.mem_cons_of_mem _ h2)

/-- Writing under a key that is present keeps the list of keys. -/
theorem keys_mapSet_of_mem (m : List (AddressKey × AddressRecord)) (k : AddressKey)
    (r : AddressRecord) (h : k ∈ m.map Prod.fst) :
    (mapSet m k r).map Prod.fst = m.map Prod.fst := by
  induction m with
  | nil => simp at h
  | cons q rest ih =>
    obtain ⟨k', r'⟩ := q
    by_cases h1 : k' = k
    · simp [mapSet, h1]
    · have h2 : k ∈ rest.map Prod.fst := by
        simp only [List.map_cons, List.mem_cons] at h
        rcases h with h | h
        · exact absurd h.symm h1
        · exact h
      simp [mapSet, h1, ih h2]

/-- Writing under a key that is absent appends it. -/
theorem keys_mapSet_of_not_mem (m : List (AddressKey × AddressRecord)) (k : AddressKey)
    (r : AddressRecord) (h : k ∉ m.map Prod.fst) :
    (mapSet m k r).map Prod.fst = m.map Prod.fst ++ [k] := by
  induction m with
  | nil => simp [mapSet]
  | cons q rest ih =>
    obtain ⟨k', r'⟩ := q
    simp only [List.map_cons, List.mem_cons, not_or] at h
    have h1 : k' ≠ k := fun hk => h.1 hk.symm
    simp [mapSet, h1, ih h.2]

theorem nodup_keys_mapSet (m : List (AddressKey × AddressRecord)) (k : AddressKey)
    (r : AddressRecord) (h : (m.map Prod.fst).Nodup) :
    ((mapSet m k r).map Prod.fst).Nodup := by
  by_cases hk : k ∈ m.map Prod.fst
  · rw [keys_mapSet_of_mem m k r hk]
    exact h
  · rw [keys_mapSet_of_not_mem m k r hk]
    exact List.Nodup.append h (List.nodup_singleton k) (by simpa using hk)

/-! ## Lowercasing -/

set_option maxRecDepth 100000 in
set_option maxHeartbeats 4000000 in
/-- The table is closed under lower-casing: every lower-case form is a character that
no range maps again. -/
theorem caseRanges_ok :
    caseRanges.all (fun e => e.imageOK && caseRanges.all (fun e2 => e.imageAvoids e2)) = true := by
  decide!


theorem covers_imageAvoids (e e2 : CaseRange) (r : Nat) (hc : e.covers r = true)
    (hi : e.imageOK = true) (ha : e.imageAvoids e2 = true) :
    e2.covers (r + e.Delta).toNat = false := by
  simp only [CaseRange.covers, Bool.and_eq_true, decide_eq_true_eq] at hc
  simp only [CaseRange.imageOK, Bool.and_eq_true, Bool.or_eq_true, decide_eq_true_eq] at hi
  simp only [CaseRange.imageAvoids, Bool.or_eq_true, Bool.and_eq_true, decide_eq_true_eq] at ha
  obtain ⟨⟨h1, h2⟩, h3⟩ := hc
  have hx : (((r + e.Delta).toNat : Nat) : Int) = r + e.Delta :=
    Int.toNat_of_nonneg (by omega)
  generalize (r + e.Delta).toNat = x at hx ⊢
  rw [← Bool.not_eq_true]
  simp only [CaseRange.covers, Bool.and_eq_true, decide_eq_true_eq]
  rintro ⟨⟨g1, g2⟩, g3⟩
  rcases ha with (ha | ha) | ⟨⟨ha1, ha2⟩, ha3⟩
  · omega
  · omega
  · rw [ha2] at g3
    rcases ha1 with ha1 | ha1
    · rw [ha1] at h3
      omega
    · omega

/-- Lower-casing a code point twice is lower-casing it once, and the lower case of a
character is a character. -/
theorem unicodeToLower_spec (r : Nat) :
    unicodeToLower (unicodeToLower r) = unicodeToLower r ∧
    (r.isValidChar → (unicodeToLower r).isValidChar) := by
  by_cases hr : r ≤ 0x7F
  · by_cases hu : 0x41 ≤ r ∧ r ≤ 0x5A
    · have e1 : unicodeToLower r = r + 32 := by simp [unicodeToLower, hr, hu]
      have e2 : unicodeToLower (r + 32) = r + 32 := by
        have h1 : r + 32 ≤ 0x7F := by omega
        have h2 : ¬ (0x41 ≤ r + 32 ∧ r + 32 ≤ 0x5A) := by omega
        simp only [unicodeToLower, h1, h2, if_true, if_false]
      rw [e1, e2]
      refine ⟨rfl, fun _ => ?_⟩
      left
      show r + 32 < 55296
      omega
    · have e1 : unicodeToLower r = r := by simp only [unicodeToLower, hr, hu, if_true, if_false]
      rw [e1, e1]
      exact ⟨rfl, fun h => h⟩
  · cases hf : caseRanges.find? (fun cr => cr.covers r) with
    | none =>
      have e1 : unicodeToLower r = r := by simp only [unicodeToLower, hr, if_false, hf]
      rw [e1, e1]
      exact ⟨rfl, fun h => h⟩
    | some e =>
      have e1 : unicodeToLower r = (r + e.Delta).toNat := by
        simp only [unicodeToLower, hr, if_false, hf]
      have hmem : e ∈ caseRanges := List.mem_of_find?_eq_some hf
      have hcov : e.covers r = true := by
        have := List.find?_some hf
        exact this
      have hok := (List.all_eq_true.1 caseRanges_ok) e hmem
      rw [Bool.and_eq_true] at hok
      obtain ⟨hi, hav⟩ := hok
      have hi0 := hi
      have hcov2 := hcov
      simp only [CaseRange.covers, Bool.and_eq_true, decide_eq_true_eq] at hcov2
      simp only [CaseRange.imageOK, Bool.and_eq_true, Bool.or_eq_true, decide_eq_true_eq] at hi
      have e2 : unicodeToLower (r + e.Delta).toNat = (r + e.Delta).toNat := by
        by_cases h7 : (r + e.Delta).toNat ≤ 0x7F
        · have h2 : ¬ (0x41 ≤ (r + e.Delta).toNat ∧ (r + e.Delta).toNat ≤ 0x5A) := by omega
          simp only [unicodeToLower, h7, h2, if_true, if_false]
        · have hnone : caseRanges.find? (fun cr => cr.covers (r + e.Delta).toNat) = none := by
            rw [List.find?_eq_none]
            intro e3 he3
            rw [covers_imageAvoids e e3 r hcov hi0 ((List.all_eq_true.1 hav) e3 he3)]
            simp
          simp only [unicodeToLower, h7, if_false, hnone]
      rw [e1, e2]
      refine ⟨rfl, fun _ => ?_⟩
      rcases hi.2 with h | h
      · left
        show (r + e.Delta).toNat < 55296
        omega
      · right
        show 57343 < (r + e.Delta).toNat ∧ (r + e.Delta).toNat < 1114112
        omega

theorem toNat_ofNat_of_valid (n : Nat) (h : n.isValidChar) : (Char.ofNat n).toNat = n := by
  unfold Char.ofNat
  rw [dif_pos h]
  rfl

theorem ToLower_ToLower (s : String) : ToLower (ToLower s) = ToLower s := by
  unfold ToLower
  simp only [List.map_map]
  congr 1
  apply List.map_congr_left
  intro c _
  simp only [Function.comp]
  rw [toNat_ofNat_of_valid _ ((unicodeToLower_spec c.toNat).2 c.valid), (unicodeToLower_spec c.toNat).1]

theorem effName_ToLower (e N : String) : effName (ToLower e) N = effName e N := by
  simp [effName, ToLower_ToLower]

theorem effName_idem (e N : String) : effName e (effName e N) = effName e N := by
  unfold effName
  by_cases h : ToLower N = ToLower e
  · simp only [h, if_true]
    split_ifs <;> rfl
  · simp only [h, if_false]

theorem effName_of_ne_empty (e N : String) (h : effName e N ≠ "") : effName e N = N := by
  unfold effName at h ⊢
  split_ifs at h ⊢ with hh
  · exact absurd rfl h
  · rfl

/-- What `ReceiveRecord` leaves in the map under the key it was called for. -/
theorem find_ReceiveRecord (al : AddressList) (email name : String) (t : Time) :
    (ReceiveRecord al email name t).1.find email = some (ReceiveRecord al email name t).2 := by
  unfold ReceiveRecord AddressList.find
  cases h : mapGet al.addrs ⟨ToLower email⟩ <;> simp only [h] <;> exact mapGet_mapSet_self _ _ _

theorem ReceiveRecord_snd_of_none (al : AddressList) (email name : String) (t : Time)
    (h : al.find email = none) :
    (ReceiveRecord al email name t).2 = ⟨ToLower email, effName email name, t, false⟩ := by
  unfold AddressList.find at h
  simp [ReceiveRecord, h]

theorem ReceiveRecord_snd_of_some (al : AddressList) (email name : String) (t : Time)
    (ar : AddressRecord) (h : al.find email = some ar) :
    (ReceiveRecord al email name t).2 = mergeRecord ar (effName email name) t := by
  unfold AddressList.find at h
  simp [ReceiveRecord, h]

/-! ## C1, C2: the merge policy -/

/-- C1: in a book with no record for `e`, two sightings at times `t1 < t2` with names
`N1`, `N2` leave the record for `e` with time `t2` and with name `N2` if it is non-empty,
else `N1` if it is non-empty, else empty, where a name equal to the lowercased email
ignoring case counts as empty. -/
theorem C1_two_sightings_newer_wins (al : AddressList) (e N1 N2 : String) (t1 t2 : Time)
    (hfresh : al.find e = none) (hlt : t1.Before t2) :
    ((ReceiveRecord (ReceiveRecord al e N1 t1).1 e N2 t2).1.find e).map
        (fun ar => (ar.LastUsed, ar.Name))
      = some (t2, if effName e N2 ≠ "" then N2
                  else if effName e N1 ≠ "" then N1 else "") := by
  have h1 := find_ReceiveRecord al e N1 t1
  rw [ReceiveRecord_snd_of_none al e N1 t1 hfresh] at h1
  rw [find_ReceiveRecord, ReceiveRecord_snd_of_some _ e N2 t2 _ h1]
  simp only [mergeRecord, hlt, if_true, Option.map_some', Option.some.injEq, Prod.mk.injEq,
    true_and]
  by_cases h2 : effName e N2 = ""
  · rw [if_neg (not_not.2 h2), if_neg (not_not.2 h2)]
    by_cases h3 : effName e N1 = ""
    · rw [if_neg (not_not.2 h3)]
      exact h3
    · rw [if_pos h3]
      exact effName_of_ne_empty e N1 h3
  · rw [if_pos h2, if_pos h2]
    exact effName_of_ne_empty e N2 h2

theorem C1_two_sightings_newer_wins_witness :
    (NewAddressList.find "ÉCOLE@x.org" = none ∧ (⟨1, 0⟩ : Time).Before ⟨2, 3600⟩) ∧
    effName "ÉCOLE@x.org" "école@x.org" = "" ∧
    ((ReceiveRecord (ReceiveRecord NewAddressList "ÉCOLE@x.org" "Élise" ⟨1, 0⟩).1
        "ÉCOLE@x.org" "école@x.org" ⟨2, 3600⟩).1.find "ÉCOLE@x.org").map
        (fun ar => (ar.LastUsed, ar.Name))
      = some (⟨2, 3600⟩, if effName "ÉCOLE@x.org" "école@x.org" ≠ "" then "école@x.org"
                  else if effName "ÉCOLE@x.org" "Élise" ≠ "" then "Élise" else "") :=
  ⟨⟨by decide, by decide⟩, by decide,
    C1_two_sightings_newer_wins NewAddressList "ÉCOLE@x.org" "Élise" "école@x.org" ⟨1, 0⟩
      ⟨2, 3600⟩ (by decide) (by decide)⟩

/-- C2: when the record for `e` has an empty name and time `t`, a sighting of `e` at the
same time `t` with a non-empty name `N` (not the email ignoring case) sets the stored name
to `N` and leaves the stored time equal to `t`. -/
theorem C2_equal_time_backfill (al : AddressList) (e N : String) (t : Time)
    (ar : AddressRecord) (hrec : al.find e = some ar) (hname : ar.Name = "")
    (htime : ar.LastUsed = t) (hN : N ≠ "") (hNe : ToLower N ≠ ToLower e) :
    (ReceiveRecord al e N t).1.find e = some { ar with Name := N } ∧
    ((ReceiveRecord al e N t).1.find e).map (fun r => r.LastUsed) = some t := by
  have heff : effName e N = N := by simp [effName, hNe]
  rw [find_ReceiveRecord, ReceiveRecord_snd_of_some al e N t ar hrec, heff]
  simp [mergeRecord, htime, hname, hN]

theorem C2_equal_time_backfill_witness :
    (ReceiveRecord (ReceiveRecord NewAddressList "a@b.c" "" ⟨5, 0⟩).1 "A@b.c" "Ann"
        ⟨5, 0⟩).1.find "A@b.c"
      = some { (⟨"a@b.c", "", ⟨5, 0⟩, false⟩ : AddressRecord) with Name := "Ann" } ∧
    ((ReceiveRecord (ReceiveRecord NewAddressList "a@b.c" "" ⟨5, 0⟩).1 "A@b.c" "Ann"
        ⟨5, 0⟩).1.find "A@b.c").map (fun r => r.LastUsed) = some ⟨5, 0⟩ :=
  C2_equal_time_backfill (ReceiveRecord NewAddressList "a@b.c" "" ⟨5, 0⟩).1 "A@b.c" "Ann" ⟨5, 0⟩
    ⟨"a@b.c", "", ⟨5, 0⟩, false⟩ (by decide) (by decide) (by decide) (by decide) (by decide)

/-! ## The invariant is preserved -/

theorem entryOK_merge (k : AddressKey) (ar : AddressRecord) (e N : String) (t : Time)
    (hk : k = ⟨ToLower e⟩) (h : EntryOK (k, ar)) :
    EntryOK (k, mergeRecord ar (effName e N) t) := by
  obtain ⟨h1, h2, h3⟩ := h
  have hnew : effName k.Email (effName e N) = effName e N := by
    rw [hk]
    show effName (ToLower e) (effName e N) = effName e N
    rw [effName_ToLower, effName_idem]
  unfold mergeRecord
  split_ifs with c1 c2 c3
  · exact ⟨h1, h2, hnew⟩
  · exact ⟨h1, h2, h3⟩
  · exact ⟨h1, h2, hnew⟩
  · exact ⟨h1, h2, h3⟩

theorem bookInv_mapSet (al : AddressList) (k : AddressKey) (r : AddressRecord)
    (h : BookInv al) (hr : EntryOK (k, r)) : BookInv ⟨mapSet al.addrs k r⟩ := by
  refine ⟨nodup_keys_mapSet _ _ _ h.1, ?_⟩
  intro p hp
  rcases mem_mapSet _ _ _ _ hp with hp | hp
  · rw [hp]
    exact hr
  · exact h.2 p hp

theorem entryOK_ReceiveRecord (al : AddressList) (e N : String) (t : Time) (h : BookInv al) :
    EntryOK (⟨ToLower e⟩, (ReceiveRecord al e N t).2) := by
  cases hg : al.find e with
  | none =>
    rw [ReceiveRecord_snd_of_none al e N t hg]
    refine ⟨rfl, ToLower_ToLower e, ?_⟩
    show effName (ToLower e) (effName e N) = effName e N
    rw [effName_ToLower, effName_idem]
  | some ar =>
    rw [ReceiveRecord_snd_of_some al e N t ar hg]
    exact entryOK_merge _ ar e N t rfl (h.2 _ (mem_of_mapGet _ _ _ hg))

theorem ReceiveRecord_fst (al : AddressList) (e N : String) (t : Time) :
    (ReceiveRecord al e N t).1 = ⟨mapSet al.addrs ⟨ToLower e⟩ (ReceiveRecord al e N t).2⟩ := by
  unfold ReceiveRecord
  cases hg : mapGet al.addrs ⟨ToLower e⟩ <;> simp only [hg]

theorem bookInv_ReceiveRecord (al : AddressList) (e N : String) (t : Time) (h : BookInv al) :
    BookInv (ReceiveRecord al e N t).1 := by
  rw [ReceiveRecord_fst]
  exact bookInv_mapSet al _ _ h (entryOK_ReceiveRecord al e N t h)

/-- The effect of `ParseRecord` on a row that parses. -/
theorem ParseRecord_ok (al : AddressList) (email name ts ign : String)
    (tl : List String) (t : Time) (ht : Parse ts = some t) :
    ParseRecord al (email :: name :: ts :: ign :: tl) =
      (⟨mapSet (ReceiveRecord al email name t).1.addrs ⟨ToLower email⟩
          { (ReceiveRecord al email name t).2 with Ignore := decide (ign = "IGNORE") }⟩,
        .ok { (ReceiveRecord al email name t).2 with Ignore := decide (ign = "IGNORE") }) := by
  simp [ParseRecord, ht]

/-- Either `ParseRecord` fails and leaves the book alone, or the row has four fields and a
time that parses (the case of `ParseRecord_ok`). -/
theorem ParseRecord_cases (al : AddressList) (row : List String) :
    (∃ e, ParseRecord al row = (al, .error e)) ∨
    ∃ email name ts ign tl t, row = email :: name :: ts :: ign :: tl ∧
      Parse ts = some t := by
  match row with
  | [] => exact Or.inl ⟨_, rfl⟩
  | [_] => exact Or.inl ⟨_, rfl⟩
  | [_, _] => exact Or.inl ⟨_, rfl⟩
  | [_, _, _] => exact Or.inl ⟨_, rfl⟩
  | email :: name :: ts :: ign :: tl =>
    cases ht : Parse ts with
    | none => exact Or.inl ⟨.timeParse, by simp [ParseRecord, ht]⟩
    | some t => exact Or.inr ⟨email, name, ts, ign, tl, t, rfl, ht⟩

theorem bookInv_ParseRecord (al : AddressList) (row : List String) (h : BookInv al) :
    BookInv (ParseRecord al row).1 := by
  rcases ParseRecord_cases al row with ⟨e, he⟩ | ⟨email, name, ts, ign, tl, t, hrow, ht⟩
  · rw [he]
    exact h
  · rw [hrow, ParseRecord_ok al email name ts ign tl t ht]
    refine bookInv_mapSet _ _ _ (bookInv_ReceiveRecord al email name t h) ?_
    exact entryOK_ReceiveRecord al email name t h

theorem bookInv_of_reachable (al : AddressList) (h : Reachable al) : BookInv al := by
  induction h with
  | empty => exact ⟨List.nodup_nil, fun p hp => by simp [NewAddressList] at hp⟩
  | receive al e N t _ ih => exact bookInv_ReceiveRecord al e N t ih
  | parse al row _ ih => exact bookInv_ParseRecord al row ih

/-! ## C3: one record per normalised email -/

/-- C3: in every book reachable from the empty book by `ReceiveRecord` and `ParseRecord`
(hence `Import`), no key occurs twice, each record is stored under the key equal to its
own email field, and that email is lowercase; and two `ReceiveRecord` calls whose emails
differ only in letter case update one record: the second call adds no key, and the
common lowercased email occurs exactly once among the keys. -/
theorem C3_one_record_per_normalized_email (al : AddressList) (h : Reachable al) :
    (al.addrs.map Prod.fst).Nodup ∧
    (∀ k r, (k, r) ∈ al.addrs → r.Email = k.Email ∧ ToLower r.Email = r.Email) ∧
    ∀ (e1 e2 n1 n2 : String) (t1 t2 : Time), ToLower e1 = ToLower e2 →
      ((ReceiveRecord (ReceiveRecord al e1 n1 t1).1 e2 n2 t2).1.addrs.map Prod.fst
          = (ReceiveRecord al e1 n1 t1).1.addrs.map Prod.fst) ∧
      ((ReceiveRecord (ReceiveRecord al e1 n1 t1).1 e2 n2 t2).1.addrs.map Prod.fst).count
          ⟨ToLower e1⟩ = 1 := by
  have hinv := bookInv_of_reachable al h
  refine ⟨hinv.1, ?_, ?_⟩
  · intro k r hmem
    obtain ⟨h1, h2, _⟩ := hinv.2 (k, r) hmem
    exact ⟨h1, by rw [h1]; exact h2⟩
  · intro e1 e2 n1 n2 t1 t2 hcase
    have hmem : (⟨ToLower e2⟩ : AddressKey) ∈ (ReceiveRecord al e1 n1 t1).1.addrs.map Prod.fst := by
      by_contra hc
      have := (mapGet_eq_none_iff _ _).2 hc
      have h2 := find_ReceiveRecord al e1 n1 t1
      unfold AddressList.find at h2
      rw [hcase, this] at h2
      cases h2
    have hkeys : (ReceiveRecord (ReceiveRecord al e1 n1 t1).1 e2 n2 t2).1.addrs.map Prod.fst
        = (ReceiveRecord al e1 n1 t1).1.addrs.map Prod.fst := by
      rw [ReceiveRecord_fst (ReceiveRecord al e1 n1 t1).1]
      exact keys_mapSet_of_mem _ _ _ hmem
    refine ⟨hkeys, ?_⟩
    rw [hkeys, hcase]
    exact List.count_eq_one_of_mem (bookInv_ReceiveRecord al e1 n1 t1 hinv).1 hmem

theorem C3_one_record_per_normalized_email_witness :
    Reachable (ReceiveRecord NewAddressList "Zed@Q.io" "Zed" ⟨7, 0⟩).1 ∧
    (((ReceiveRecord NewAddressList "Zed@Q.io" "Zed" ⟨7, 0⟩).1.addrs.map Prod.fst).Nodup ∧
    (∀ k r, (k, r) ∈ (ReceiveRecord NewAddressList "Zed@Q.io" "Zed" ⟨7, 0⟩).1.addrs →
      r.Email = k.Email ∧ ToLower r.Email = r.Email) ∧
    ∀ (e1 e2 n1 n2 : String) (t1 t2 : Time), ToLower e1 = ToLower e2 →
      ((ReceiveRecord (ReceiveRecord (ReceiveRecord NewAddressList "Zed@Q.io" "Zed" ⟨7, 0⟩).1
          e1 n1 t1).1 e2 n2 t2).1.addrs.map Prod.fst
          = (ReceiveRecord (ReceiveRecord NewAddressList "Zed@Q.io" "Zed" ⟨7, 0⟩).1
              e1 n1 t1).1.addrs.map Prod.fst) ∧
      ((ReceiveRecord (ReceiveRecord (ReceiveRecord NewAddressList "Zed@Q.io" "Zed" ⟨7, 0⟩).1
          e1 n1 t1).1 e2 n2 t2).1.addrs.map Prod.fst).count ⟨ToLower e1⟩ = 1) :=
  ⟨Reachable.receive _ _ _ _ Reachable.empty,
    C3_one_record_per_normalized_email _ (Reachable.receive _ _ _ _ Reachable.empty)⟩

/-- Two sightings whose emails differ only in the case of a letter outside ASCII share one
record, stored under the lower-case email. -/
theorem one_record_for_accented_email :
    ToLower "Élise@X.org" = ToLower "élise@x.org" ∧
    (ReceiveRecord (ReceiveRecord NewAddressList "Élise@X.org" "Élise" ⟨1, 0⟩).1
        "élise@x.org" "" ⟨2, 0⟩).1.addrs
      = [(⟨"élise@x.org"⟩, ⟨"élise@x.org", "Élise", ⟨2, 0⟩, false⟩)] :=
  ⟨by decide, by decide⟩

/-! ## C4: Export then Import -/

theorem mapSet_of_not_mem (m : List (AddressKey × AddressRecord)) (k : AddressKey)
    (r : AddressRecord) (h : k ∉ m.map Prod.fst) : mapSet m k r = m ++ [(k, r)] := by
  induction m with
  | nil => simp [mapSet]
  | cons q rest ih =>
    obtain ⟨k', r'⟩ := q
    simp only [List.map_cons, List.mem_cons, not_or] at h
    have h1 : k' ≠ k := fun hk => h.1 hk.symm
    simp [mapSet, h1, ih h.2]

theorem mapSet_append_last (m : List (AddressKey × AddressRecord)) (k : AddressKey)
    (r r2 : AddressRecord) (h : k ∉ m.map Prod.fst) :
    mapSet (m ++ [(k, r)]) k r2 = m ++ [(k, r2)] := by
  induction m with
  | nil => simp [mapSet]
  | cons q rest ih =>
    obtain ⟨k', r'⟩ := q
    simp only [List.map_cons, List.mem_cons, not_or] at h
    have h1 : k' ≠ k := fun hk => h.1 hk.symm
    simp [mapSet, h1, ih h.2]

theorem ignoreStr_decode (v : AddressRecord) : decide (v.IgnoreStr = "IGNORE") = v.Ignore := by
  unfold AddressRecord.IgnoreStr
  cases v.Ignore <;> decide

/-- Importing the exported row of a well-formed entry whose key is absent appends exactly
that entry. -/
theorem ParseRecord_entryRow (b : AddressList) (p : AddressKey × AddressRecord)
    (hok : EntryOK p) (ht : Parse (formatRFC3339 p.2.LastUsed) = some p.2.LastUsed)
    (habs : p.1 ∉ b.addrs.map Prod.fst) :
    ParseRecord b (entryRow p) = (⟨b.addrs ++ [p]⟩, .ok p.2) := by
  obtain ⟨k, v⟩ := p
  obtain ⟨h1, h2, h3⟩ := hok
  simp only at h1 h2 h3 ht habs
  have hkey : (⟨ToLower k.Email⟩ : AddressKey) = k := by rw [h2]
  have hnone : b.find k.Email = none := by
    unfold AddressList.find
    rw [hkey]
    exact (mapGet_eq_none_iff _ _).2 habs
  have hv : (⟨ToLower k.Email, effName k.Email v.Name, v.LastUsed,
      decide (v.IgnoreStr = "IGNORE")⟩ : AddressRecord) = v := by
    rw [h2, h3, ignoreStr_decode, ← h1]
  unfold entryRow
  rw [ParseRecord_ok b k.Email v.Name _ _ [] v.LastUsed ht, ReceiveRecord_fst,
    ReceiveRecord_snd_of_none b _ _ _ hnone, hkey]
  simp only
  rw [mapSet_of_not_mem _ _ _ habs, mapSet_append_last _ _ _ _ habs, hv]

theorem importLoop_entryRows (entries : List (AddressKey × AddressRecord)) :
    ∀ (b : AddressList) (fpr : Nat), (fpr = 0 ∨ fpr = 4) →
      (∀ p ∈ entries, EntryOK p ∧ Parse (formatRFC3339 p.2.LastUsed) = some p.2.LastUsed) →
      (entries.map Prod.fst).Nodup →
      (∀ p ∈ entries, p.1 ∉ b.addrs.map Prod.fst) →
      importLoop fpr b (entries.map entryRow) = (⟨b.addrs ++ entries⟩, none) := by
  induction entries with
  | nil =>
    intro b fpr _ _ _ _
    simp [importLoop]
  | cons p rest ih =>
    intro b fpr hfpr hok hnd habs
    have hchk : csvFieldCheck fpr (entryRow p) = .ok 4 := by
      rcases hfpr with h | h <;> subst h <;> rfl
    have hp := hok p (List.mem_cons_self _ _)
    simp only [List.map_cons, List.nodup_cons] at hnd
    rw [List.map_cons, importLoop, hchk]
    simp only
    rw [ParseRecord_entryRow b p hp.1 hp.2 (habs p (List.mem_cons_self _ _))]
    simp only
    rw [ih ⟨b.addrs ++ [p]⟩ 4 (Or.inr rfl) (fun q hq => hok q (List.mem_cons_of_mem _ hq)) hnd.2]
    · simp
    · intro q hq
      simp only [List.map_append, List.map_cons, List.map_nil, List.mem_append,
        List.mem_singleton, not_or]
      refine ⟨habs q (List.mem_cons_of_mem _ hq), ?_⟩
      intro heq
      exact hnd.1 (heq ▸ List.mem_map_of_mem Prod.fst hq)

/-- The entry of a key in the map (a default record if absent). -/
theorem entries_of_keys (m : List (AddressKey × AddressRecord)) (hnd : (m.map Prod.fst).Nodup) :
    (m.map Prod.fst).map (fun k => (k, (mapGet m k).getD ⟨"", "", ⟨0, 0⟩, false⟩)) = m := by
  rw [List.map_map]
  conv_rhs => rw [← List.map_id m]
  apply List.map_congr_left
  intro p hp
  obtain ⟨k, v⟩ := p
  simp [mapGet_of_mem m k v hnd hp]

theorem exportRow_eq_entryRow (al : AddressList) (k : AddressKey)
    (h : k ∈ al.addrs.map Prod.fst) :
    exportRow al k = entryRow (k, (mapGet al.addrs k).getD ⟨"", "", ⟨0, 0⟩, false⟩) := by
  unfold exportRow entryRow
  cases hg : mapGet al.addrs k with
  | none => exact absurd h ((mapGet_eq_none_iff _ _).1 hg)
  | some v => rfl

theorem perm_mapGet (m1 m2 : List (AddressKey × AddressRecord)) (hp : m1.Perm m2)
    (hnd : (m2.map Prod.fst).Nodup) (k : AddressKey) : mapGet m1 k = mapGet m2 k := by
  have hnd1 : (m1.map Prod.fst).Nodup := (hp.map Prod.fst).nodup_iff.2 hnd
  cases hg : mapGet m2 k with
  | none =>
    rw [mapGet_eq_none_iff] at hg ⊢
    intro hmem
    exact hg ((hp.map Prod.fst).mem_iff.1 hmem)
  | some v =>
    exact mapGet_of_mem m1 k v hnd1 (hp.mem_iff.2 (mem_of_mapGet m2 k v hg))

/-- The rows computed by `Export` are among the results `IsExport` allows. -/
theorem isExport_Export (al : AddressList) : IsExport al (Export al) := by
  haveI : IsTotal AddressKey (fun i j => ¬ (lastUsedOf al j).After (lastUsedOf al i)) :=
    ⟨fun i j => by unfold Time.After; omega⟩
  haveI : IsTrans AddressKey (fun i j => ¬ (lastUsedOf al j).After (lastUsedOf al i)) :=
    ⟨fun i j k h1 h2 => by unfold Time.After at h1 h2 ⊢; omega⟩
  exact ⟨_, List.perm_insertionSort _ _, List.sorted_insertionSort _ _, rfl⟩

/-! ### Times that survive the store -/

theorem doy_bounds (doe : Int) (h0 : 0 ≤ doe) (h1 : doe ≤ 146096) (yoe : Int)
    (hy : yoe = (doe - doe / 1460 + doe / 36524 - doe / 146096) / 365) :
    0 ≤ yoe ∧ yoe ≤ 399 ∧ 0 ≤ doe - (365 * yoe + yoe / 4 - yoe / 100) ∧
    doe - (365 * yoe + yoe / 4 - yoe / 100) ≤ 365 := by
  have hd : doe / 36524 = 0 ∨ doe / 36524 = 1 ∨ doe / 36524 = 2 ∨ doe / 36524 = 3 ∨ doe / 36524 = 4 := by omega
  have hg : yoe / 100 = 0 ∨ yoe / 100 = 1 ∨ yoe / 100 = 2 ∨ yoe / 100 = 3 := by omega
  rcases hd with hd | hd | hd | hd | hd <;> rcases hg with hg | hg | hg | hg <;> omega

theorem doy_leap (doe : Int) (h0 : 0 ≤ doe) (h1 : doe ≤ 146096) (yoe : Int)
    (hy : yoe = (doe - doe / 1460 + doe / 36524 - doe / 146096) / 365)
    (h365 : doe - (365 * yoe + yoe / 4 - yoe / 100) = 365) :
      (yoe + 1) % 4 = 0 ∧ ((yoe + 1) % 100 ≠ 0 ∨ (yoe + 1) % 400 = 0) := by
  have hd : doe / 36524 = 0 ∨ doe / 36524 = 1 ∨ doe / 36524 = 2 ∨ doe / 36524 = 3 ∨ doe / 36524 = 4 := by omega
  have hg : yoe / 100 = 0 ∨ yoe / 100 = 1 ∨ yoe / 100 = 2 ∨ yoe / 100 = 3 := by omega
  have hr : yoe % 4 = 0 ∨ yoe % 4 = 1 ∨ yoe % 4 = 2 ∨ yoe % 4 = 3 := by omega
  have he : doe / 146096 = 0 ∨ doe / 146096 = 1 := by omega
  rcases hd with hd | hd | hd | hd | hd <;> rcases hg with hg | hg | hg | hg <;>
    rcases hr with hr | hr | hr | hr <;> rcases he with he | he <;> omega

theorem daysFromCivil_march (era yoe mp doy : Int) (hy : 0 ≤ yoe ∧ yoe ≤ 399)
    (hmp : 0 ≤ mp ∧ mp ≤ 11) (hm : mp = (5 * doy + 2) / 153) (hd : 0 ≤ doy ∧ doy ≤ 365) :
    daysFromCivil (yoe + era * 400 + (if (if mp < 10 then mp + 3 else mp - 9) ≤ 2 then 1 else 0))
      (if mp < 10 then mp + 3 else mp - 9) (doy - (153 * mp + 2) / 5 + 1)
      = era * 146097 + (yoe * 365 + yoe / 4 - yoe / 100 + doy) - 719468 := by
  have hera : (yoe + era * 400) / 400 = era := by omega
  unfold daysFromCivil
  by_cases hlt : mp < 10
  · have h1 : ¬ (mp + 3 ≤ 2) := by omega
    have h2 : (mp + 3 + 9) % 12 = mp := by omega
    simp only [hlt, if_true, h1, if_false, add_zero, hera, h2]
    omega
  · have h1 : mp - 9 ≤ 2 := by omega
    have h2 : (mp - 9 + 9) % 12 = mp := by omega
    have h3 : yoe + era * 400 + 1 - 1 = yoe + era * 400 := by omega
    simp only [hlt, if_false, h1, if_true, h3, hera, h2]
    omega

set_option maxHeartbeats 1000000 in
/-- The civil date of a day number is a valid date and converts back to the day number. -/
theorem civilFromDays_valid (z : Int) (hyear : 0 ≤ (civilFromDays z).1) :
    1 ≤ (civilFromDays z).2.1 ∧ (civilFromDays z).2.1 ≤ 12 ∧ 1 ≤ (civilFromDays z).2.2 ∧
    (civilFromDays z).2.2.toNat ≤ daysIn (civilFromDays z).2.1.toNat (civilFromDays z).1.toNat ∧
    daysFromCivil (civilFromDays z).1 (civilFromDays z).2.1 (civilFromDays z).2.2 = z := by
  unfold civilFromDays at hyear ⊢
  simp only at hyear ⊢
  generalize hdoe : z + 719468 - (z + 719468) / 146097 * 146097 = doe at hyear ⊢
  have h0 : 0 ≤ doe ∧ doe ≤ 146096 := by omega
  generalize hyoe : (doe - doe / 1460 + doe / 36524 - doe / 146096) / 365 = yoe at hyear ⊢
  obtain ⟨hy0, hy1, hd0, hd1⟩ := doy_bounds doe h0.1 h0.2 yoe hyoe.symm
  have hleap := doy_leap doe h0.1 h0.2 yoe hyoe.symm
  generalize hdoy : doe - (365 * yoe + yoe / 4 - yoe / 100) = doy at hd0 hd1 hleap hyear ⊢
  generalize hmp : (5 * doy + 2) / 153 = mp at hyear ⊢
  have hmp0 : 0 ≤ mp ∧ mp ≤ 11 := by omega
  refine ⟨?_, ?_, ?_, ?_, ?_⟩
  · split_ifs <;> omega
  · split_ifs <;> omega
  · omega
  · generalize hera : (z + 719468) / 146097 = era at hyear ⊢
    have hcases : mp = 0 ∨ mp = 1 ∨ mp = 2 ∨ mp = 3 ∨ mp = 4 ∨ mp = 5 ∨ mp = 6 ∨ mp = 7 ∨
        mp = 8 ∨ mp = 9 ∨ mp = 10 ∨ mp = 11 := by omega
    rcases hcases with h | h | h | h | h | h | h | h | h | h | h | h <;> subst h
    all_goals norm_num [daysIn, isLeap] at hyear ⊢
    all_goals omega
  · rw [daysFromCivil_march _ yoe mp doy ⟨hy0, hy1⟩ hmp0 hmp.symm ⟨hd0, hd1⟩]
    omega

theorem digitChar_isDigit (a : Nat) (h : a < 10) : (Nat.digitChar a).isDigit = true := by
  interval_cases a <;> rfl

theorem digitChar_toNat (a : Nat) (h : a < 10) : (Nat.digitChar a).toNat - 48 = a := by
  interval_cases a <;> rfl

theorem parseUint_padNat_two (n lo hi : Nat) (h : n < 100) (hlo : lo ≤ n) (hhi : n ≤ hi) :
    padNat 2 n = [Nat.digitChar (n / 10 % 10), Nat.digitChar (n % 10)] ∧
    parseUint [Nat.digitChar (n / 10 % 10), Nat.digitChar (n % 10)] lo hi = some n := by
  have h1 : n / 10 % 10 < 10 := Nat.mod_lt _ (by decide)
  have h2 : n % 10 < 10 := Nat.mod_lt _ (by decide)
  constructor
  · unfold padNat
    rw [if_pos (by omega)]
    simp [List.range, List.range.loop]
  · have hval : (0 * 10 + ((Nat.digitChar (n / 10 % 10)).toNat - 48)) * 10
        + ((Nat.digitChar (n % 10)).toNat - 48) = n := by
      rw [digitChar_toNat _ h1, digitChar_toNat _ h2]
      omega
    simp only [parseUint, List.all_cons, List.all_nil, digitChar_isDigit _ h1,
      digitChar_isDigit _ h2, Bool.and_self, if_true, List.foldl_cons, List.foldl_nil, hval]
    simp [hlo, hhi]

theorem parseUint_padNat_four (n lo hi : Nat) (h : n < 10000) (hlo : lo ≤ n) (hhi : n ≤ hi) :
    padNat 4 n = [Nat.digitChar (n / 1000 % 10), Nat.digitChar (n / 100 % 10),
      Nat.digitChar (n / 10 % 10), Nat.digitChar (n % 10)] ∧
    parseUint [Nat.digitChar (n / 1000 % 10), Nat.digitChar (n / 100 % 10),
      Nat.digitChar (n / 10 % 10), Nat.digitChar (n % 10)] lo hi = some n := by
  have h1 : n / 1000 % 10 < 10 := Nat.mod_lt _ (by decide)
  have h2 : n / 100 % 10 < 10 := Nat.mod_lt _ (by decide)
  have h3 : n / 10 % 10 < 10 := Nat.mod_lt _ (by decide)
  have h4 : n % 10 < 10 := Nat.mod_lt _ (by decide)
  constructor
  · unfold padNat
    rw [if_pos (by omega)]
    simp [List.range, List.range.loop]
  · have hval : (((0 * 10 + ((Nat.digitChar (n / 1000 % 10)).toNat - 48)) * 10
        + ((Nat.digitChar (n / 100 % 10)).toNat - 48)) * 10
        + ((Nat.digitChar (n / 10 % 10)).toNat - 48)) * 10
        + ((Nat.digitChar (n % 10)).toNat - 48) = n := by
      rw [digitChar_toNat _ h1, digitChar_toNat _ h2, digitChar_toNat _ h3, digitChar_toNat _ h4]
      omega
    simp only [parseUint, List.all_cons, List.all_nil, digitChar_isDigit _ h1,
      digitChar_isDigit _ h2, digitChar_isDigit _ h3, digitChar_isDigit _ h4, Bool.and_self,
      if_true, List.foldl_cons, List.foldl_nil, hval]
    simp [hlo, hhi]

theorem appendInt_natCast (n width : Nat) : appendInt (n : Int) width = padNat width n := by
  unfold appendInt
  rw [if_neg (by omega)]
  simp

theorem appendInt_of_nonneg (x : Int) (width : Nat) (h : 0 ≤ x) :
    appendInt x width = padNat width x.toNat := by
  unfold appendInt
  rw [if_neg (by omega)]
  congr 1
  omega

/-- The fast path on the text of a valid civil date and time of day followed by `Z`. -/
theorem parseRFC3339_digits_utc (Y M D h mi sec : Nat) (hY : Y < 10000) (hM : 1 ≤ M ∧ M ≤ 12)
    (hD : 1 ≤ D ∧ D ≤ daysIn M Y) (hh : h < 24) (hmi : mi < 60) (hs : sec < 60) :
    parseRFC3339 ⟨padNat 4 Y ++ '-' :: padNat 2 M ++ '-' :: padNat 2 D ++ 'T' ::
      padNat 2 h ++ ':' :: padNat 2 mi ++ ':' :: padNat 2 sec ++ ['Z']⟩
      = some ⟨Date Y M D h mi sec 0, 0⟩ := by
  have hD31 : D ≤ 31 := by
    have : daysIn M Y ≤ 31 := by
      unfold daysIn
      split_ifs <;> omega
    omega
  obtain ⟨pY, qY⟩ := parseUint_padNat_four Y 0 9999 hY (Nat.zero_le _) (by omega)
  obtain ⟨pM, qM⟩ := parseUint_padNat_two M 1 12 (by omega) hM.1 hM.2
  obtain ⟨pD, qD⟩ := parseUint_padNat_two D 1 (daysIn M Y) (by omega) hD.1 hD.2
  obtain ⟨ph, qh⟩ := parseUint_padNat_two h 0 23 (by omega) (Nat.zero_le _) (by omega)
  obtain ⟨pmi, qmi⟩ := parseUint_padNat_two mi 0 59 (by omega) (Nat.zero_le _) (by omega)
  obtain ⟨ps, qs⟩ := parseUint_padNat_two sec 0 59 (by omega) (Nat.zero_le _) (by omega)
  rw [pY, pM, pD, ph, pmi, ps]
  unfold parseRFC3339
  simp only [List.cons_append, List.nil_append, List.length_cons, List.length_nil]
  simp only [List.take, List.drop, qY, qM, qD, qh, qmi, qs]
  simp [parseNanoseconds]

/-- The fast path on the text of a valid civil date and time of day followed by a zone
offset of `hr` hours and `mm` minutes. -/
theorem parseRFC3339_digits_zone (Y M D h mi sec : Nat) (hY : Y < 10000) (hM : 1 ≤ M ∧ M ≤ 12)
    (hD : 1 ≤ D ∧ D ≤ daysIn M Y) (hh : h < 24) (hmi : mi < 60) (hs : sec < 60)
    (sgn : Char) (hr mm : Nat) (hhr : hr ≤ 23) (hmm : mm ≤ 59)
    (hsgn : sgn = '+' ∨ sgn = '-') :
    parseRFC3339 ⟨padNat 4 Y ++ '-' :: padNat 2 M ++ '-' :: padNat 2 D ++ 'T' ::
      padNat 2 h ++ ':' :: padNat 2 mi ++ ':' :: padNat 2 sec ++
      (sgn :: padNat 2 hr ++ ':' :: padNat 2 mm)⟩
      = some ⟨Date Y M D h mi sec 0
            - (if sgn = '-' then -(((hr * 60 + mm) * 60 : Nat) : Int)
                else (((hr * 60 + mm) * 60 : Nat) : Int)) * 1000000000,
          if sgn = '-' then -(((hr * 60 + mm) * 60 : Nat) : Int)
          else (((hr * 60 + mm) * 60 : Nat) : Int)⟩ := by
  have hD31 : D ≤ 31 := by
    have : daysIn M Y ≤ 31 := by
      unfold daysIn
      split_ifs <;> omega
    omega
  obtain ⟨pY, qY⟩ := parseUint_padNat_four Y 0 9999 hY (Nat.zero_le _) (by omega)
  obtain ⟨pM, qM⟩ := parseUint_padNat_two M 1 12 (by omega) hM.1 hM.2
  obtain ⟨pD, qD⟩ := parseUint_padNat_two D 1 (daysIn M Y) (by omega) hD.1 hD.2
  obtain ⟨ph, qh⟩ := parseUint_padNat_two h 0 23 (by omega) (Nat.zero_le _) (by omega)
  obtain ⟨pmi, qmi⟩ := parseUint_padNat_two mi 0 59 (by omega) (Nat.zero_le _) (by omega)
  obtain ⟨ps, qs⟩ := parseUint_padNat_two sec 0 59 (by omega) (Nat.zero_le _) (by omega)
  obtain ⟨phr, qhr⟩ := parseUint_padNat_two hr 0 23 (by omega) (Nat.zero_le _) hhr
  obtain ⟨pmm, qmm⟩ := parseUint_padNat_two mm 0 59 (by omega) (Nat.zero_le _) hmm
  rw [pY, pM, pD, ph, pmi, ps, phr, pmm]
  unfold parseRFC3339
  simp only [List.cons_append, List.nil_append, List.length_cons, List.length_nil]
  simp only [List.take, List.drop, qY, qM, qD, qh, qmi, qs, qhr, qmm]
  rcases hsgn with h1 | h1 <;> subst h1 <;> simp [parseNanoseconds, qhr, qmm]

/-- A time of second precision whose year in its own zone is from 0 to 9999 and whose zone
offset is a whole number of minutes within 24 hours of UTC survives formatting and
parsing. -/
theorem Parse_formatRFC3339 (t : Time) (hsec : SecondPrecision t) (hrange : InRFC3339Range t) :
    Parse (formatRFC3339 t) = some t := by
  obtain ⟨hy0, hy1, hoff, hlo, hhi⟩ := hrange
  have hns : t.Nanosecond = 0 := hsec
  obtain ⟨nano, off⟩ := t
  simp only [Time.Nanosecond, Time.Year] at hns hy0 hy1 hoff hlo hhi
  obtain ⟨hm1, hm12, hd1, hdIn, hrt⟩ := civilFromDays_valid ((nano / 1000000000 + off) / 86400) hy0
  have hfast : parseRFC3339 (formatRFC3339 ⟨nano, off⟩) = some ⟨nano, off⟩ := by
    unfold formatRFC3339
    simp only
    generalize hc : civilFromDays ((nano / 1000000000 + off) / 86400) = c
      at hy0 hy1 hm1 hm12 hd1 hdIn hrt ⊢
    obtain ⟨y, m, d⟩ := c
    simp only at hy0 hy1 hm1 hm12 hd1 hdIn hrt ⊢
    have hrem : (Int.toNat ((nano / 1000000000 + off) % 86400)) < 86400 := by omega
    have hR : ((Int.toNat ((nano / 1000000000 + off) % 86400) : Nat) : Int)
        = (nano / 1000000000 + off) % 86400 := Int.toNat_of_nonneg (by omega)
    generalize Int.toNat ((nano / 1000000000 + off) % 86400) = R at hR hrem ⊢
    have ey : ((y.toNat : Nat) : Int) = y := Int.toNat_of_nonneg hy0
    have em : ((m.toNat : Nat) : Int) = m := Int.toNat_of_nonneg (by omega)
    have ed : ((d.toNat : Nat) : Int) = d := Int.toNat_of_nonneg (by omega)
    have hsum : R / 3600 * 3600 + R % 3600 / 60 * 60 + R % 60 = R := by omega
    have hs : (nano / 1000000000 + off) / 86400 * 86400 + (nano / 1000000000 + off) % 86400
        = nano / 1000000000 + off := Int.ediv_add_emod' _ _
    have ht : nano / 1000000000 * 1000000000 = nano :=
      Int.ediv_mul_cancel (Int.dvd_of_emod_eq_zero hns)
    have hdate : Date y.toNat m.toNat d.toNat (R / 3600) (R % 3600 / 60) (R % 60) 0
        = nano + off * 1000000000 := by
      unfold Date
      rw [ey, em, ed, hrt, hsum, hR, hs]
      simp only [Nat.cast_zero, add_zero]
      rw [add_mul, ht]
    rw [appendInt_of_nonneg y 4 hy0, appendInt_of_nonneg m 2 (by omega),
      appendInt_of_nonneg d 2 (by omega), appendInt_natCast, appendInt_natCast,
      appendInt_natCast]
    by_cases h0 : off = 0
    · subst h0
      rw [if_pos rfl, parseRFC3339_digits_utc y.toNat m.toNat d.toNat _ _ _ (by omega)
        (by omega) (by omega) (by omega) (by omega) (by omega), hdate]
      simp
    · rw [if_neg h0, appendInt_natCast, appendInt_natCast]
      have hdiv : Int.tdiv off 60 = off / 60 :=
        Int.tdiv_eq_ediv_of_dvd (Int.dvd_of_emod_eq_zero hoff)
      rw [hdiv]
      generalize hz : (off / 60).natAbs = z
      have hzz : (z : Int) = if off / 60 < 0 then -(off / 60) else off / 60 := by
        rw [← hz]
        split_ifs <;> omega
      rw [parseRFC3339_digits_zone y.toNat m.toNat d.toNat _ _ _ (by omega)
        (by omega) (by omega) (by omega) (by omega) (by omega) _ (z / 60) (z % 60)
        (by split_ifs at hzz <;> omega) (by omega) (by split_ifs <;> simp), hdate]
      by_cases hneg : off / 60 < 0
      · rw [if_pos hneg] at hzz
        simp only [hneg, if_true]
        have : (((z / 60 * 60 + z % 60) * 60 : Nat) : Int) = -off := by
          push_cast
          omega
        rw [this]
        simp
      · rw [if_neg hneg] at hzz
        simp only [hneg, if_false]
        have : (((z / 60 * 60 + z % 60) * 60 : Nat) : Int) = off := by
          push_cast
          omega
        simp only [show ('+' = '-') = False by decide, if_false, this]
        simp
  unfold Parse
  rw [hfast]

/-- C4 (as stated, refuted): second precision does not make a time survive the store. The
book holding one sighting at 10000-01-01T00:00:00Z is reachable, its name is delimiter-safe
and its time is a whole number of seconds, but `Export` writes a year of five digits, which
`Import` rejects, so re-importing fails and yields no record. And a sighting at a whole
second in a zone 30 seconds east of UTC is written with the offset `+00:00` and comes back
as another instant. -/
theorem C4_round_trip_fails_outside_rfc3339 :
    (Reachable farFutureBook ∧
      (∀ p ∈ farFutureBook.addrs, SecondPrecision p.2.LastUsed) ∧
      Export farFutureBook = [["a@b.c", "Ann", "10000-01-01T00:00:00Z", ""]] ∧
      IsExport farFutureBook (Export farFutureBook) ∧
      Import NewAddressList (Export farFutureBook) = (NewAddressList, some .timeParse)) ∧
    (Reachable oddZoneBook ∧
      (∀ p ∈ oddZoneBook.addrs, SecondPrecision p.2.LastUsed) ∧
      oddZoneBook.find "a@b.c" = some ⟨"a@b.c", "Ann", ⟨0, 30⟩, false⟩ ∧
      Export oddZoneBook = [["a@b.c", "Ann", "1970-01-01T00:00:30+00:00", ""]] ∧
      (Import NewAddressList (Export oddZoneBook)).1.find "a@b.c"
        = some ⟨"a@b.c", "Ann", ⟨30000000000, 0⟩, false⟩ ∧
      ¬ (⟨30000000000, 0⟩ : Time).Equal ⟨0, 30⟩) :=
  ⟨⟨Reachable.receive _ _ _ _ Reachable.empty, by decide, by decide,
      isExport_Export farFutureBook, by decide⟩,
    ⟨Reachable.receive _ _ _ _ Reachable.empty, by decide, by decide, by decide, by decide,
      by decide⟩⟩

/-- C4 (amended): round trip. For a reachable book whose times have second precision and
can be written in RFC3339 (a year from 0 to 9999 in the time's own zone, a zone offset of a
whole number of minutes, less than 24 hours from UTC), importing into a fresh book any rows
`Export` can write for it (the names taken delimiter-safe, so that the CSV reader yields
the fields as written) succeeds and yields the same record set: the same entries up to
order, so for every key the same email, name, ignore flag and time. -/
theorem C4_export_import_round_trip (al : AddressList) (rows : List (List String))
    (hreach : Reachable al)
    (htime : ∀ p ∈ al.addrs, SecondPrecision p.2.LastUsed ∧ InRFC3339Range p.2.LastUsed)
    (hexp : IsExport al rows) :
    (Import NewAddressList rows).2 = none ∧
    (Import NewAddressList rows).1.addrs.Perm al.addrs ∧
    ∀ k, mapGet (Import NewAddressList rows).1.addrs k = mapGet al.addrs k := by
  have hinv := bookInv_of_reachable al hreach
  obtain ⟨keys, hperm, _, hrows⟩ := hexp
  have hentries : (keys.map (fun k => (k, (mapGet al.addrs k).getD ⟨"", "", ⟨0, 0⟩, false⟩))).Perm
      al.addrs := by
    have := hperm.map (fun k => (k, (mapGet al.addrs k).getD ⟨"", "", ⟨0, 0⟩, false⟩))
    rwa [entries_of_keys al.addrs hinv.1] at this
  have hrows2 : rows
      = (keys.map (fun k => (k, (mapGet al.addrs k).getD ⟨"", "", ⟨0, 0⟩, false⟩))).map
      entryRow := by
    rw [hrows, List.map_map]
    apply List.map_congr_left
    intro k hk
    exact exportRow_eq_entryRow al k (hperm.mem_iff.1 hk)
  have himp := importLoop_entryRows
    (keys.map (fun k => (k, (mapGet al.addrs k).getD ⟨"", "", ⟨0, 0⟩, false⟩)))
    NewAddressList 0 (Or.inl rfl)
    (fun p hp => ⟨hinv.2 p (hentries.mem_iff.1 hp),
      Parse_formatRFC3339 _ (htime p (hentries.mem_iff.1 hp)).1
        (htime p (hentries.mem_iff.1 hp)).2⟩)
    (by
      rw [List.map_map]
      have : (Prod.fst ∘ fun k => (k, (mapGet al.addrs k).getD ⟨"", "", ⟨0, 0⟩, false⟩))
          = (id : AddressKey → AddressKey) := rfl
      rw [this, List.map_id]
      exact hperm.nodup_iff.2 hinv.1)
    (fun p _ => by simp [NewAddressList])
  unfold Import
  rw [hrows2, himp]
  simp only [NewAddressList, List.nil_append]
  exact ⟨trivial, hentries, perm_mapGet _ _ hentries hinv.1⟩

theorem C4_export_import_round_trip_witness :
    (Reachable zoneBook ∧
      (∀ p ∈ zoneBook.addrs, SecondPrecision p.2.LastUsed ∧ InRFC3339Range p.2.LastUsed) ∧
      IsExport zoneBook (Export zoneBook)) ∧
    Export zoneBook = [["bob@x.org", "Bob", "2020-01-01T05:30:00+05:30", ""],
      ["a@b.c", "Ann", "2019-12-31T17:00:00-07:00", "IGNORE"]] ∧
    ((Import NewAddressList (Export zoneBook)).2 = none ∧
    (Import NewAddressList (Export zoneBook)).1.addrs.Perm zoneBook.addrs ∧
    ∀ k, mapGet (Import NewAddressList (Export zoneBook)).1.addrs k
      = mapGet zoneBook.addrs k) :=
  ⟨⟨Reachable.parse _ _ (Reachable.receive _ _ _ _ Reachable.empty), by decide,
      isExport_Export zoneBook⟩, by decide,
    C4_export_import_round_trip zoneBook (Export zoneBook)
      (Reachable.parse _ _ (Reachable.receive _ _ _ _ Reachable.empty)) (by decide)
      (isExport_Export zoneBook)⟩

/-! ## C5: importing twice -/

theorem ParseRecord_eq (al : AddressList) (row : List String) :
    ParseRecord al row =
      match parseRow row with
      | some sg => (applySighting al sg,
          .ok { (ReceiveRecord al sg.email sg.name sg.time).2 with Ignore := sg.ignore })
      | none => (al, .error (rowError row)) := by
  match row with
  | [] => rfl
  | [_] => rfl
  | [_, _] => rfl
  | [_, _, _] => rfl
  | email :: name :: ts :: ign :: tl =>
    cases ht : Parse ts with
    | none =>
      have hl : ¬ (tl.length + 1 + 1 + 1 + 1 < 4) := by omega
      simp [ParseRecord, parseRow, ht, rowError, hl]
    | some t => simp [ParseRecord, parseRow, ht, applySighting, Sighting.key]

theorem importLoop_eq (store : List (List String)) :
    ∀ (fpr : Nat) (al : AddressList), importLoop fpr al store
      = ((importPrefix fpr store).1.foldl applySighting al, (importPrefix fpr store).2) := by
  induction store with
  | nil => intro fpr al; rfl
  | cons row rest ih =>
    intro fpr al
    unfold importLoop importPrefix
    cases hc : csvFieldCheck fpr row with
    | error e => rfl
    | ok n =>
      simp only
      rw [ParseRecord_eq]
      cases hp : parseRow row with
      | none => rfl
      | some sg =>
        simp only
        rw [ih]
        rfl

theorem mapGet_applySighting (al : AddressList) (s : Sighting) (k : AddressKey) :
    mapGet (applySighting al s).addrs k
      = if s.key = k then entryStep (mapGet al.addrs k) s else mapGet al.addrs k := by
  unfold applySighting
  by_cases hk : s.key = k
  · subst hk
    rw [if_pos rfl, mapGet_mapSet_self]
    unfold entryStep stepRec ReceiveRecord Sighting.key
    cases hg : mapGet al.addrs ⟨ToLower s.email⟩ <;> simp only [hg]
  · rw [if_neg hk]
    simp only
    rw [mapGet_mapSet_of_ne _ _ _ _ hk, ReceiveRecord_fst]
    exact mapGet_mapSet_of_ne _ _ _ _ hk

theorem mapGet_foldl_applySighting (L : List Sighting) (k : AddressKey) :
    ∀ al : AddressList, mapGet (L.foldl applySighting al).addrs k
      = (L.filter (fun s => s.key = k)).foldl entryStep (mapGet al.addrs k) := by
  induction L with
  | nil => intro al; rfl
  | cons s rest ih =>
    intro al
    rw [List.foldl_cons, ih, mapGet_applySighting]
    by_cases hk : s.key = k
    · simp [List.filter_cons, hk]
    · simp [List.filter_cons, hk]

theorem mergeRecord_dominates (ar : AddressRecord) (n : String) (t : Time) :
    Dominates ar (mergeRecord ar n t) := by
  unfold Dominates mergeRecord
  have hirr : ¬ ar.LastUsed.Before ar.LastUsed := lt_irrefl _
  split_ifs with c1 c2 c3
  · exact ⟨fun h => lt_asymm c1 h, fun h => absurd h c2⟩
  · exact ⟨fun h => lt_asymm c1 h, fun h => h⟩
  · exact ⟨hirr, fun h => absurd h c3.2⟩
  · exact ⟨hirr, fun h => h⟩

theorem mergeRecord_absorbs (ar : AddressRecord) (n : String) (t : Time) :
    ¬ (mergeRecord ar n t).LastUsed.Before t ∧ ((mergeRecord ar n t).Name = "" → n = "") := by
  unfold mergeRecord
  have hirr : ¬ t.Before t := lt_irrefl _
  split_ifs with c1 c2 c3
  · exact ⟨hirr, fun h => absurd h c2⟩
  · exact ⟨hirr, fun _ => not_not.1 c2⟩
  · exact ⟨c1, fun h => absurd h c3.2⟩
  · refine ⟨c1, fun h => ?_⟩
    by_contra hn
    exact c3 ⟨h, hn⟩

theorem stepRec_dominates (ar : AddressRecord) (s : Sighting) :
    Dominates ar (stepRec (some ar) s) :=
  mergeRecord_dominates ar _ _

theorem stepRec_absorbs (o : Option AddressRecord) (s : Sighting) :
    Absorbs (stepRec o s) s := by
  cases o with
  | none => exact ⟨lt_irrefl _, fun h => h⟩
  | some ar => exact mergeRecord_absorbs ar _ _

theorem absorbs_of_dominates (r1 r2 : AddressRecord) (s : Sighting) (hd : Dominates r1 r2)
    (ha : Absorbs r1 s) : Absorbs r2 s := by
  refine ⟨?_, fun h => ha.2 (hd.2 h)⟩
  have h1 := ha.1
  have h2 := hd.1
  unfold Time.Before at h1 h2 ⊢
  omega

theorem stepRec_ignore (o : Option AddressRecord) (s : Sighting) :
    (stepRec o s).Ignore = s.ignore := by
  cases o <;> rfl

/-- Folding the sightings of a key from an existing entry: the result dominates the entry,
absorbs every sighting, and carries the ignore flag of the last one. -/
theorem foldl_entryStep_some (L : List Sighting) :
    ∀ r : AddressRecord, ∃ r2, L.foldl entryStep (some r) = some r2 ∧ Dominates r r2 ∧
      (∀ s ∈ L, Absorbs r2 s) ∧ r2.Ignore = L.foldl (fun _ s => s.ignore) r.Ignore := by
  induction L with
  | nil =>
    intro r
    exact ⟨r, rfl, ⟨lt_irrefl _, fun h => h⟩, fun s hs => by simp at hs, rfl⟩
  | cons s rest ih =>
    intro r
    obtain ⟨r2, h1, h2, h3, h4⟩ := ih (stepRec (some r) s)
    refine ⟨r2, h1, ?_, ?_, ?_⟩
    · refine ⟨?_, fun h => (stepRec_dominates r s).2 (h2.2 h)⟩
      have g1 := (stepRec_dominates r s).1
      have g2 := h2.1
      unfold Time.Before at g1 g2 ⊢
      omega
    · intro s2 hs2
      rcases List.mem_cons.1 hs2 with heq | hmem
      · rw [heq]
        exact absorbs_of_dominates _ _ _ h2 (stepRec_absorbs _ s)
      · exact h3 s2 hmem
    · rw [h4, stepRec_ignore]
      rfl

/-- A sighting that is absorbed only rewrites the ignore flag. -/
theorem stepRec_of_absorbs (r : AddressRecord) (s : Sighting) (h : Absorbs r s) :
    stepRec (some r) s = { r with Ignore := s.ignore } := by
  have hm : mergeRecord r (effName s.email s.name) s.time = r := by
    unfold mergeRecord
    rw [if_neg h.1, if_neg]
    intro hc
    exact hc.2 (h.2 hc.1)
  show ({ mergeRecord r (effName s.email s.name) s.time with Ignore := s.ignore }
    : AddressRecord) = _
  rw [hm]

theorem foldl_entryStep_absorbed (L : List Sighting) :
    ∀ r : AddressRecord, (∀ s ∈ L, Absorbs r s) →
      L.foldl entryStep (some r)
        = some { r with Ignore := L.foldl (fun _ s => s.ignore) r.Ignore } := by
  induction L with
  | nil => intro r _; rfl
  | cons s rest ih =>
    intro r h
    rw [List.foldl_cons, entryStep, stepRec_of_absorbs r s (h s (List.mem_cons_self _ _))]
    rw [ih { r with Ignore := s.ignore }
      (fun s2 hs2 => (h s2 (List.mem_cons_of_mem _ hs2)))]
    rfl

/-- Per key, a second pass over the same sightings changes nothing. -/
theorem foldl_entryStep_twice (L : List Sighting) (o : Option AddressRecord) :
    L.foldl entryStep (L.foldl entryStep o) = L.foldl entryStep o := by
  cases L with
  | nil => rfl
  | cons s rest =>
    obtain ⟨r2, h1, h2, h3, h4⟩ := foldl_entryStep_some rest (stepRec o s)
    have hfold : (s :: rest).foldl entryStep o = some r2 := h1
    have habs : ∀ s2 ∈ s :: rest, Absorbs r2 s2 := by
      intro s2 hs2
      rcases List.mem_cons.1 hs2 with heq | hmem
      · rw [heq]
        exact absorbs_of_dominates _ _ _ h2 (stepRec_absorbs _ s)
      · exact h3 s2 hmem
    rw [hfold, foldl_entryStep_absorbed _ r2 habs]
    have hflag : (s :: rest).foldl (fun _ s => s.ignore) r2.Ignore = r2.Ignore := by
      rw [h4, stepRec_ignore]
      rfl
    rw [hflag]

theorem nodup_keys_applySighting (al : AddressList) (s : Sighting)
    (h : (al.addrs.map Prod.fst).Nodup) : ((applySighting al s).addrs.map Prod.fst).Nodup := by
  unfold applySighting
  refine nodup_keys_mapSet _ _ _ ?_
  rw [ReceiveRecord_fst]
  exact nodup_keys_mapSet _ _ _ h

theorem nodup_keys_foldl (L : List Sighting) :
    ∀ al : AddressList, (al.addrs.map Prod.fst).Nodup →
      ((L.foldl applySighting al).addrs.map Prod.fst).Nodup := by
  induction L with
  | nil => intro al h; exact h
  | cons s rest ih =>
    intro al h
    exact ih _ (nodup_keys_applySighting al s h)

theorem keys_applySighting_of_mem (al : AddressList) (s : Sighting)
    (h : s.key ∈ al.addrs.map Prod.fst) :
    (applySighting al s).addrs.map Prod.fst = al.addrs.map Prod.fst := by
  have h1 : (ReceiveRecord al s.email s.name s.time).1.addrs.map Prod.fst
      = al.addrs.map Prod.fst := by
    rw [ReceiveRecord_fst]
    exact keys_mapSet_of_mem _ _ _ h
  unfold applySighting
  simp only
  rw [keys_mapSet_of_mem _ _ _ (by rw [h1]; exact h), h1]

theorem keys_foldl_of_mem (L : List Sighting) :
    ∀ al : AddressList, (∀ s ∈ L, s.key ∈ al.addrs.map Prod.fst) →
      (L.foldl applySighting al).addrs.map Prod.fst = al.addrs.map Prod.fst := by
  induction L with
  | nil => intro al _; rfl
  | cons s rest ih =>
    intro al h
    have hk := keys_applySighting_of_mem al s (h s (List.mem_cons_self _ _))
    rw [List.foldl_cons, ih (applySighting al s), hk]
    intro s2 hs2
    rw [hk]
    exact h s2 (List.mem_cons_of_mem _ hs2)

/-- After a pass over the sightings, every one of their keys is in the map. -/
theorem key_mem_foldl (L : List Sighting) (al : AddressList) (s : Sighting) (hs : s ∈ L) :
    s.key ∈ (L.foldl applySighting al).addrs.map Prod.fst := by
  by_contra hc
  have hnone := (mapGet_eq_none_iff _ _).2 hc
  rw [mapGet_foldl_applySighting] at hnone
  have hmem : s ∈ L.filter (fun s2 => s2.key = s.key) := by
    simp [List.mem_filter, hs]
  cases hf : L.filter (fun s2 => s2.key = s.key) with
  | nil => rw [hf] at hmem; simp at hmem
  | cons s0 rest =>
    rw [hf] at hnone
    obtain ⟨r2, h1, _⟩ := foldl_entryStep_some rest (stepRec (mapGet al.addrs s.key) s0)
    have : (s0 :: rest).foldl entryStep (mapGet al.addrs s.key) = some r2 := h1
    rw [this] at hnone
    cases hnone

/-- Two maps with the same keys, without repetition, and the same lookups are equal. -/
theorem map_ext_of_keys (m1 m2 : List (AddressKey × AddressRecord))
    (hk : m1.map Prod.fst = m2.map Prod.fst) (hnd : (m2.map Prod.fst).Nodup)
    (h : ∀ k, mapGet m1 k = mapGet m2 k) : m1 = m2 := by
  rw [← entries_of_keys m1 (hk ▸ hnd), ← entries_of_keys m2 hnd, hk]
  apply List.map_congr_left
  intro k _
  rw [h k]

/-- A second pass over the same sightings leaves the book as the first pass made it. -/
theorem foldl_applySighting_twice (L : List Sighting) (al : AddressList)
    (hnd : (al.addrs.map Prod.fst).Nodup) :
    L.foldl applySighting (L.foldl applySighting al) = L.foldl applySighting al := by
  have hnd1 := nodup_keys_foldl L al hnd
  have hkeys := keys_foldl_of_mem L (L.foldl applySighting al)
    (fun s hs => key_mem_foldl L al s hs)
  have hext : ∀ k, mapGet (L.foldl applySighting (L.foldl applySighting al)).addrs k
      = mapGet (L.foldl applySighting al).addrs k := by
    intro k
    rw [mapGet_foldl_applySighting L k (L.foldl applySighting al),
      mapGet_foldl_applySighting L k al, foldl_entryStep_twice]
  have := map_ext_of_keys _ _ hkeys hnd1 hext
  cases hb : L.foldl applySighting (L.foldl applySighting al) with
  | mk a2 =>
    cases hb1 : L.foldl applySighting al with
    | mk a1 =>
      rw [hb, hb1] at this
      simp only at this
      rw [this]

/-- C5: idempotence of `Import`. For every store (rows of any shape, emails repeated with
different names, times and ignore markers included), importing it a second time into the
book obtained by importing it into a fresh book gives the same book, and the same error
result, as the first import. -/
theorem C5_import_idempotent (store : List (List String)) :
    Import (Import NewAddressList store).1 store = Import NewAddressList store := by
  unfold Import
  rw [importLoop_eq store 0 NewAddressList, importLoop_eq store 0]
  simp only
  rw [foldl_applySighting_twice _ NewAddressList List.nodup_nil]

/-! ## C6: IsMatch -/

theorem containsChars_iff (s sub : List Char) : containsChars s sub = true ↔ sub <:+: s := by
  induction s with
  | nil =>
    rw [containsChars, List.isPrefixOf_iff_prefix, List.prefix_nil, List.infix_nil]
  | cons c cs ih =>
    rw [containsChars, Bool.or_eq_true, List.isPrefixOf_iff_prefix, ih, List.infix_cons_iff]

theorem SplitN2_eq (s : List Char) :
    SplitN2 s ++ List.replicate (2 - (SplitN2 s).length) [] = [localPart s, domainPart s] := by
  unfold SplitN2 localPart domainPart
  rw [List.span_eq_take_drop]
  cases h : List.dropWhile (fun c => decide (c ≠ '@')) s with
  | nil => simp [h]
  | cons a b => simp [h]

theorem emailParts_eq (email : String) :
    emailParts email = [localPart (ToLower email).data, domainPart (ToLower email).data] :=
  SplitN2_eq _

/-- The function `IsMatch` computes the matching relation of the specification. -/
theorem isMatch_iff (rec : AddressRecord) (searches : List String) :
    IsMatch rec searches = true ↔
      rec.Ignore = false ∧ ∀ tok ∈ searches, TokenMatches rec tok := by
  unfold IsMatch
  cases hi : rec.Ignore with
  | true => simp
  | false =>
    simp only [Bool.false_eq_true, if_false, true_and, emailParts_eq, List.all_eq_true,
      Bool.or_eq_true, Contains, containsChars_iff, TokenMatches, List.getD_cons_zero,
      List.getD_cons_succ, or_assoc]

/-- C6: `IsMatch` returns true if and only if the record's ignore flag is false and every
token is a substring of the lowercased name, or of the part of the lowercased email before
the first `@`, or, both prefixed with `.`, of the part after the first `@` (empty when
there is none). Against the domain `example.com` the tokens `com` and `example.com` match
and the token `ample` does not. Lower-casing is that of Unicode: the lower-case token
`élodie` matches the name `ÉLODIE`, and the token `k` matches a name written with the
Kelvin sign. -/
theorem C6_isMatch_spec :
    (∀ (rec : AddressRecord) (searches : List String),
      IsMatch rec searches = true ↔
        rec.Ignore = false ∧ ∀ tok ∈ searches,
          tok.data <:+: (ToLower rec.Name).data ∨
          tok.data <:+: localPart (ToLower rec.Email).data ∨
          ('.' :: tok.data) <:+: ('.' :: domainPart (ToLower rec.Email).data)) ∧
    IsMatch ⟨"joe@example.com", "Joe", ⟨0, 0⟩, false⟩ ["com"] = true ∧
    IsMatch ⟨"joe@example.com", "Joe", ⟨0, 0⟩, false⟩ ["example.com"] = true ∧
    IsMatch ⟨"joe@example.com", "Joe", ⟨0, 0⟩, false⟩ ["ample"] = false ∧
    IsMatch ⟨"el@example.com", "ÉLODIE", ⟨0, 0⟩, false⟩ ["élodie"] = true ∧
    IsMatch ⟨"lk@example.com", "Lord \u212Aelvin", ⟨0, 0⟩, false⟩ ["k"] = true :=
  ⟨fun rec searches => isMatch_iff rec searches, by decide, by decide, by decide, by decide,
    by decide⟩

/-! ## C7: the `acme` example -/

/-- C7: `FindMatches("acme", store, 20)`, run as the find command runs it (on a fresh
list), over the store holding alice@acme.com/"Alice", bob@other.com/"Bob" and
carol@sub.acme.com/"Carol", none ignored, returns exactly the alice and carol records and
not bob; and in general a record that is not ignored matches a token that stands at the
start of a label of its email's domain (at the start of the domain, or right after a dot),
whatever its name and local part. -/
theorem C7_acme_example :
    (∀ (ts1 ts2 ts3 : String) (t1 t2 t3 : Time), Parse ts1 = some t1 →
      Parse ts2 = some t2 → Parse ts3 = some t3 →
      (FindMatches NewAddressList "acme" (acmeStore ts1 ts2 ts3) 20).2
        = .ok [⟨"alice@acme.com", "Alice", t1, false⟩,
               ⟨"carol@sub.acme.com", "Carol", t3, false⟩]) ∧
    (∀ (rec : AddressRecord) (tok : String), rec.Ignore = false →
      ((∃ post, domainPart (ToLower rec.Email).data = tok.data ++ post) ∨
        (∃ pre post, domainPart (ToLower rec.Email).data = pre ++ '.' :: (tok.data ++ post))) →
      IsMatch rec [tok] = true) := by
  constructor
  · intro ts1 ts2 ts3 t1 t2 t3 h1 h2 h3
    have hk : tokenize "acme" = ["acme"] := by decide
    have ha : ∀ t, IsMatch ⟨"alice@acme.com", "Alice", t, false⟩ ["acme"] = true :=
      fun t => rfl
    have hb : ∀ t, IsMatch ⟨"bob@other.com", "Bob", t, false⟩ ["acme"] = false :=
      fun t => rfl
    have hc : ∀ t, IsMatch ⟨"carol@sub.acme.com", "Carol", t, false⟩ ["acme"] = true :=
      fun t => rfl
    have la : ToLower "alice@acme.com" = "alice@acme.com" := by decide
    have lb : ToLower "bob@other.com" = "bob@other.com" := by decide
    have lc : ToLower "carol@sub.acme.com" = "carol@sub.acme.com" := by decide
    have ea : effName "alice@acme.com" "Alice" = "Alice" := by decide
    have eb : effName "bob@other.com" "Bob" = "Bob" := by decide
    have ec : effName "carol@sub.acme.com" "Carol" = "Carol" := by decide
    simp [FindMatches, acmeStore, findLoop, csvFieldCheck, hk, ParseRecord, h1, h2, h3,
      ReceiveRecord, mapGet, mapSet, NewAddressList, la, lb, lc, ea, eb, ec, ha, hb, hc,
      Slice.append]
  · intro rec tok hi hlabel
    rw [isMatch_iff]
    refine ⟨hi, ?_⟩
    intro tok2 htok2
    rw [List.mem_singleton] at htok2
    subst htok2
    right
    right
    rcases hlabel with ⟨post, hpost⟩ | ⟨pre, post, hpost⟩
    · exact ⟨[], post, by rw [hpost]; simp⟩
    · exact ⟨'.' :: pre, post, by rw [hpost]; simp⟩

theorem C7_acme_example_witness :
    (Parse "2020-01-01T00:00:00Z" = some ⟨1577836800000000000, 0⟩ ∧
      Parse "2020-01-02T00:00:00Z" = some ⟨1577923200000000000, 0⟩ ∧
      Parse "2020-01-03T00:00:00Z" = some ⟨1578009600000000000, 0⟩) ∧
    (FindMatches NewAddressList "acme" (acmeStore "2020-01-01T00:00:00Z"
        "2020-01-02T00:00:00Z" "2020-01-03T00:00:00Z") 20).2
      = .ok [⟨"alice@acme.com", "Alice", ⟨1577836800000000000, 0⟩, false⟩,
             ⟨"carol@sub.acme.com", "Carol", ⟨1578009600000000000, 0⟩, false⟩] ∧
    IsMatch ⟨"carol@sub.acme.com", "Carol", ⟨1578009600000000000, 0⟩, false⟩ ["acme"] = true :=
  ⟨⟨by decide, by decide, by decide⟩,
    C7_acme_example.1 "2020-01-01T00:00:00Z" "2020-01-02T00:00:00Z" "2020-01-03T00:00:00Z"
      ⟨1577836800000000000, 0⟩ ⟨1577923200000000000, 0⟩ ⟨1578009600000000000, 0⟩
      (by decide) (by decide) (by decide),
    C7_acme_example.2 ⟨"carol@sub.acme.com", "Carol", ⟨1578009600000000000, 0⟩, false⟩ "acme" rfl
      (Or.inr ⟨"sub".data, ".com".data, by decide⟩)⟩

/-! ## C8, C9: what `FindMatches` returns -/

theorem ignore_of_isMatch (rec : AddressRecord) (searches : List String)
    (h : IsMatch rec searches = true) : rec.Ignore = false :=
  ((isMatch_iff rec searches).1 h).1

theorem findLoop_ignore (searches : List String) (store : List (List String)) :
    ∀ (fpr : Nat) (al : AddressList) (res : Slice) (recs : List AddressRecord),
      (∀ r ∈ res.elems, r.Ignore = false) →
      (findLoop searches fpr al res store).2 = .ok recs →
      ∀ r ∈ recs, r.Ignore = false := by
  induction store with
  | nil =>
    intro fpr al res recs hres h
    simp only [findLoop, Except.ok.injEq] at h
    rw [← h]
    exact hres
  | cons row rest ih =>
    intro fpr al res recs hres h
    unfold findLoop at h
    cases hc : csvFieldCheck fpr row with
    | error e => simp [hc] at h
    | ok n =>
      rcases hp : ParseRecord al row with ⟨al1, e | rec⟩
      · simp [hc, hp] at h
      · simp only [hc, hp] at h
        by_cases hm : IsMatch rec searches = true
        · have happ : ∀ r ∈ (res.append rec).elems, r.Ignore = false := by
            intro r hr
            have : (res.append rec).elems = res.elems ++ [rec] := by
              unfold Slice.append
              split_ifs <;> rfl
            rw [this, List.mem_append, List.mem_singleton] at hr
            rcases hr with hr | hr
            · exact hres r hr
            · rw [hr]
              exact ignore_of_isMatch rec searches hm
          simp only [hm, if_true] at h
          by_cases hfull : (res.append rec).elems.length = (res.append rec).cap
          · simp only [hfull, if_true, Except.ok.injEq] at h
            rw [← h]
            exact happ
          · simp only [hfull, if_false] at h
            exact ih n al1 (res.append rec) recs happ h
        · simp only [hm] at h
          exact ih n al1 res recs hres h

/-- C8: every record `FindMatches` returns has `Ignore = false`; and the record parsed from
a row whose fourth field is the `IGNORE` marker fails `IsMatch` for every list of tokens,
so such a row is never returned, whatever the query matches. -/
theorem C8_ignored_never_returned :
    (∀ (al : AddressList) (search : String) (store : List (List String)) (maxMatches : Nat)
        (recs : List AddressRecord),
      (FindMatches al search store maxMatches).2 = .ok recs → ∀ r ∈ recs, r.Ignore = false) ∧
    (∀ (al : AddressList) (email name ts : String) (tl : List String) (rec : AddressRecord),
      (ParseRecord al (email :: name :: ts :: "IGNORE" :: tl)).2 = .ok rec →
      ∀ searches, IsMatch rec searches = false) := by
  constructor
  · intro al search store maxMatches recs h
    exact findLoop_ignore _ store 0 al ⟨[], maxMatches⟩ recs (fun r hr => by simp at hr) h
  · intro al email name ts tl rec h searches
    cases ht : Parse ts with
    | none => simp [ParseRecord, ht] at h
    | some t =>
      rw [ParseRecord_ok al email name ts "IGNORE" tl t ht] at h
      simp only [Except.ok.injEq] at h
      rw [← h]
      simp [IsMatch]

theorem C8_ignored_never_returned_witness :
    (FindMatches NewAddressList "ann" [["ann@b.c", "Ann", "2020-01-02T00:00:00Z", "IGNORE"],
        ["ann@d.e", "Ann", "2020-01-02T00:00:00Z", ""]] 20).2
      = .ok [⟨"ann@d.e", "Ann", ⟨1577923200000000000, 0⟩, false⟩] ∧
    (∀ r ∈ [(⟨"ann@d.e", "Ann", ⟨1577923200000000000, 0⟩, false⟩ : AddressRecord)],
      r.Ignore = false) ∧
    (ParseRecord NewAddressList ["ann@b.c", "Ann", "2020-01-02T00:00:00Z", "IGNORE"]).2
      = .ok ⟨"ann@b.c", "Ann", ⟨1577923200000000000, 0⟩, true⟩ ∧
    IsMatch ⟨"ann@b.c", "Ann", ⟨1577923200000000000, 0⟩, true⟩ ["ann"] = false :=
  ⟨by rfl,
    C8_ignored_never_returned.1 NewAddressList "ann"
      [["ann@b.c", "Ann", "2020-01-02T00:00:00Z", "IGNORE"],
        ["ann@d.e", "Ann", "2020-01-02T00:00:00Z", ""]] 20 _ (by rfl),
    by rfl,
    C8_ignored_never_returned.2 NewAddressList "ann@b.c" "Ann" "2020-01-02T00:00:00Z" []
      ⟨"ann@b.c", "Ann", ⟨1577923200000000000, 0⟩, true⟩ (by rfl) ["ann"]⟩

theorem slice_append_of_lt (res : Slice) (rec : AddressRecord)
    (h : res.elems.length < res.cap) : res.append rec = ⟨res.elems ++ [rec], res.cap⟩ := by
  unfold Slice.append
  rw [if_pos h]

/-- With room left in the result slice, the loop returns the collected records followed by
the first matching parsed records that fill the remaining room. -/
theorem findLoop_take (searches : List String) (store : List (List String)) :
    ∀ (fpr : Nat) (al : AddressList) (res : Slice) (recs : List AddressRecord),
      res.elems.length < res.cap →
      (findLoop searches fpr al res store).2 = .ok recs →
      recs = res.elems ++
        ((parsedRecords fpr al store).filter (fun r => IsMatch r searches)).take
          (res.cap - res.elems.length) := by
  induction store with
  | nil =>
    intro fpr al res recs _ h
    simp only [findLoop, Except.ok.injEq] at h
    simp [parsedRecords, h]
  | cons row rest ih =>
    intro fpr al res recs hroom h
    unfold findLoop at h
    unfold parsedRecords
    cases hc : csvFieldCheck fpr row with
    | error e => simp [hc] at h
    | ok n =>
      rcases hp : ParseRecord al row with ⟨al1, e | rec⟩
      · simp [hc, hp] at h
      · simp only [hc, hp] at h ⊢
        by_cases hm : IsMatch rec searches = true
        · simp only [hm, if_true, slice_append_of_lt res rec hroom] at h
          rw [List.filter_cons_of_pos (by simpa using hm)]
          by_cases hfull : (res.elems ++ [rec]).length = res.cap
          · simp only [hfull, if_true, Except.ok.injEq] at h
            have h1 : res.cap - res.elems.length = 1 := by
              simp only [List.length_append, List.length_singleton] at hfull
              omega
            rw [← h, h1]
            simp
          · simp only [hfull, if_false] at h
            have hroom2 : (res.elems ++ [rec]).length < res.cap := by
              simp only [List.length_append, List.length_singleton] at hfull ⊢
              omega
            have := ih n al1 ⟨res.elems ++ [rec], res.cap⟩ recs hroom2 h
            rw [this]
            have h2 : res.cap - res.elems.length
                = (res.cap - (res.elems ++ [rec]).length) + 1 := by
              simp only [List.length_append, List.length_singleton] at hroom2 ⊢
              omega
            rw [h2, List.take_succ_cons]
            simp
        · simp only [hm] at h
          rw [List.filter_cons_of_neg (by simpa using hm)]
          exact ih n al1 res recs hroom h

/-- For a limit of at least one, `FindMatches` returns at most `maxMatches` records: the
first `maxMatches` matching parsed records in row order, or all of them when fewer. -/
theorem findMatches_take (al : AddressList) (search : String) (store : List (List String))
    (maxMatches : Nat) (recs : List AddressRecord) (hmax : 1 ≤ maxMatches)
    (h : (FindMatches al search store maxMatches).2 = .ok recs) :
    recs.length ≤ maxMatches ∧
    recs = ((parsedRecords 0 al store).filter (fun r => IsMatch r (tokenize search))).take
      maxMatches := by
  have := findLoop_take (tokenize search) store 0 al ⟨[], maxMatches⟩ recs hmax h
  simp only [List.nil_append, List.length_nil, Nat.sub_zero] at this
  refine ⟨?_, this⟩
  rw [this]
  exact List.length_take_le _ _

/-- C9 (at the failing input): with `maxMatches = 0` the result slice has capacity 0, the
first `append` grows it to capacity 1, and the loop stops only then: over the `acme` store
`FindMatches` returns one record, more than the limit of zero. -/
theorem C9_zero_limit_returns_a_match :
    (FindMatches NewAddressList "acme" (acmeStore "2020-01-01T00:00:00Z"
        "2020-01-02T00:00:00Z" "2020-01-03T00:00:00Z") 0).2
      = .ok [⟨"alice@acme.com", "Alice", ⟨1577836800000000000, 0⟩, false⟩] := by
  rfl

/-! ## C10: `FindMatches` and the in-memory book -/

theorem findLoop_book (searches : List String) (store : List (List String)) :
    ∀ (fpr : Nat) (al : AddressList) (res : Slice), ∃ n, n ≤ store.length ∧
      (findLoop searches fpr al res store).1 = (importLoop fpr al (store.take n)).1 := by
  induction store with
  | nil =>
    intro fpr al res
    exact ⟨0, le_refl _, rfl⟩
  | cons row rest ih =>
    intro fpr al res
    cases hc : csvFieldCheck fpr row with
    | error e => exact ⟨0, Nat.zero_le _, by simp [findLoop, importLoop, hc]⟩
    | ok n =>
      rcases hp : ParseRecord al row with ⟨al1, e | rec⟩
      · refine ⟨1, by simp, ?_⟩
        simp [findLoop, importLoop, hc, hp]
      · have himp : ∀ m, (importLoop fpr al ((row :: rest).take (m + 1))).1
            = (importLoop n al1 (rest.take m)).1 := by
          intro m
          simp [importLoop, hc, hp]
        by_cases hm : IsMatch rec searches = true
        · by_cases hfull : (res.append rec).elems.length = (res.append rec).cap
          · refine ⟨1, by simp, ?_⟩
            rw [himp 0]
            simp [findLoop, importLoop, hc, hp, hm, hfull]
          · obtain ⟨m, hm1, hm2⟩ := ih n al1 (res.append rec)
            refine ⟨m + 1, by simpa using hm1, ?_⟩
            rw [himp m, ← hm2]
            simp [findLoop, hc, hp, hm, hfull]
        · obtain ⟨m, hm1, hm2⟩ := ih n al1 res
          refine ⟨m + 1, by simpa using hm1, ?_⟩
          rw [himp m, ← hm2]
          simp [findLoop, hc, hp, hm]

theorem head_of_parseRow (row : List String) (sg : Sighting) (h : parseRow row = some sg) :
    row.head? = some sg.email := by
  match row with
  | [] => simp [parseRow] at h
  | [_] => simp [parseRow] at h
  | [_, _] => simp [parseRow] at h
  | [_, _, _] => simp [parseRow] at h
  | email :: name :: ts :: ign :: tl =>
    cases ht : Parse ts with
    | none => simp [parseRow, ht] at h
    | some t =>
      simp only [parseRow, ht, Option.some.injEq] at h
      rw [← h]
      rfl

theorem importPrefix_mem (store : List (List String)) :
    ∀ (fpr : Nat) (sg : Sighting), sg ∈ (importPrefix fpr store).1 →
      ∃ row ∈ store, parseRow row = some sg := by
  induction store with
  | nil => intro fpr sg h; simp [importPrefix] at h
  | cons row rest ih =>
    intro fpr sg h
    unfold importPrefix at h
    cases hc : csvFieldCheck fpr row with
    | error e => simp [hc] at h
    | ok n =>
      cases hp : parseRow row with
      | none => simp [hc, hp] at h
      | some sg0 =>
        simp only [hc, hp, List.mem_cons] at h
        rcases h with h | h
        · exact ⟨row, List.mem_cons_self _ _, by rw [hp, h]⟩
        · obtain ⟨r, hr, hr2⟩ := ih n sg h
          exact ⟨r, List.mem_cons_of_mem _ hr, hr2⟩

/-- The loop of `Import` leaves alone every key that is not the lowercased first field of a row. -/
theorem importLoop_frame (store : List (List String)) (fpr : Nat) (al : AddressList)
    (k : AddressKey) (h : ∀ row ∈ store, ∀ e, row.head? = some e → (⟨ToLower e⟩ : AddressKey) ≠ k) :
    mapGet (importLoop fpr al store).1.addrs k = mapGet al.addrs k := by
  rw [importLoop_eq]
  simp only
  rw [mapGet_foldl_applySighting]
  have : (importPrefix fpr store).1.filter (fun s => s.key = k) = [] := by
    rw [List.filter_eq_nil_iff]
    intro sg hsg
    obtain ⟨row, hrow, hp⟩ := importPrefix_mem store fpr sg hsg
    simpa using h row hrow sg.email (head_of_parseRow row sg hp)
  rw [this]
  rfl

theorem parsed_record_eq (al : AddressList) (sg : Sighting) :
    ({ (ReceiveRecord al sg.email sg.name sg.time).2 with Ignore := sg.ignore } : AddressRecord)
      = stepRec (al.find sg.email) sg := by
  unfold stepRec ReceiveRecord AddressList.find
  cases hg : mapGet al.addrs ⟨ToLower sg.email⟩ <;> simp only [hg]

/-- The result of the scan is the same from two books that agree on the emails of the rows. -/
theorem findLoop_congr (searches : List String) (store : List (List String)) :
    ∀ (fpr : Nat) (al1 al2 : AddressList) (res : Slice),
      (∀ row ∈ store, ∀ e, row.head? = some e → al1.find e = al2.find e) →
      (findLoop searches fpr al1 res store).2 = (findLoop searches fpr al2 res store).2 := by
  induction store with
  | nil => intro fpr al1 al2 res _; rfl
  | cons row rest ih =>
    intro fpr al1 al2 res h
    unfold findLoop
    cases hc : csvFieldCheck fpr row with
    | error e => rfl
    | ok n =>
      simp only
      rw [ParseRecord_eq al1 row, ParseRecord_eq al2 row]
      cases hp : parseRow row with
      | none => rfl
      | some sg =>
        have hhead := head_of_parseRow row sg hp
        have hfind := h row (List.mem_cons_self _ _) sg.email hhead
        have hrest : ∀ r ∈ rest, ∀ e, r.head? = some e →
            (applySighting al1 sg).find e = (applySighting al2 sg).find e := by
          intro r hr e he
          unfold AddressList.find
          rw [mapGet_applySighting, mapGet_applySighting]
          have h2 := h r (List.mem_cons_of_mem _ hr) e he
          unfold AddressList.find at h2
          rw [h2]
        simp only
        rw [parsed_record_eq al1 sg, parsed_record_eq al2 sg, hfind]
        split_ifs
        · rfl
        · exact ih n _ _ _ hrest
        · exact ih n _ _ _ hrest

/-- C10 (as stated, refuted): `FindMatches` writes to the book it is called on and its
result depends on that book. On the fresh book the call over the `acme` store leaves a
record for alice@acme.com where there was none; and from a book that knows bob@other.com
as "Acme Bob" the same query over the same store also returns bob. -/
theorem C10_findMatches_touches_book :
    (mapGet NewAddressList.addrs ⟨"alice@acme.com"⟩ = none ∧
      mapGet (FindMatches NewAddressList "acme" (acmeStore "2020-01-01T00:00:00Z"
          "2020-01-02T00:00:00Z" "2020-01-03T00:00:00Z") 20).1.addrs ⟨"alice@acme.com"⟩
        = some ⟨"alice@acme.com", "Alice", ⟨1577836800000000000, 0⟩, false⟩) ∧
    ((FindMatches NewAddressList "acme" (acmeStore "2020-01-01T00:00:00Z"
          "2020-01-02T00:00:00Z" "2020-01-03T00:00:00Z") 20).2
        = .ok [⟨"alice@acme.com", "Alice", ⟨1577836800000000000, 0⟩, false⟩,
               ⟨"carol@sub.acme.com", "Carol", ⟨1578009600000000000, 0⟩, false⟩] ∧
      (FindMatches bobBook "acme" (acmeStore "2020-01-01T00:00:00Z"
          "2020-01-02T00:00:00Z" "2020-01-03T00:00:00Z") 20).2
        = .ok [⟨"alice@acme.com", "Alice", ⟨1577836800000000000, 0⟩, false⟩,
               ⟨"bob@other.com", "Acme Bob", ⟨1600000000000000000, 0⟩, false⟩,
               ⟨"carol@sub.acme.com", "Carol", ⟨1578009600000000000, 0⟩, false⟩]) :=
  ⟨⟨by rfl, by rfl⟩, by rfl, by rfl⟩

/-- C10 (amended): `FindMatches` reads the store through `ParseRecord` and so merges the
rows it scans into the book: the book after the call is the one `Import` leaves after the
first `n` rows of the store, for some `n`; every record under a key that is not the
lowercased first field of a row of the store is unchanged; and the result is the same from
any two books that hold the same records for the emails of the store's rows, so it depends
only on the store, the query, the limit and those records. -/
theorem C10_findMatches_merges_scanned_rows :
    (∀ (al : AddressList) (search : String) (store : List (List String)) (maxMatches : Nat),
      ∃ n, n ≤ store.length ∧
        (FindMatches al search store maxMatches).1 = (Import al (store.take n)).1) ∧
    (∀ (al : AddressList) (search : String) (store : List (List String)) (maxMatches : Nat)
        (k : AddressKey),
      (∀ row ∈ store, ∀ e, row.head? = some e → (⟨ToLower e⟩ : AddressKey) ≠ k) →
      mapGet (FindMatches al search store maxMatches).1.addrs k = mapGet al.addrs k) ∧
    (∀ (al1 al2 : AddressList) (search : String) (store : List (List String))
        (maxMatches : Nat),
      (∀ row ∈ store, ∀ e, row.head? = some e → al1.find e = al2.find e) →
      (FindMatches al1 search store maxMatches).2
        = (FindMatches al2 search store maxMatches).2) := by
  refine ⟨?_, ?_, ?_⟩
  · intro al search store maxMatches
    exact findLoop_book (tokenize search) store 0 al ⟨[], maxMatches⟩
  · intro al search store maxMatches k h
    obtain ⟨n, _, hn⟩ := findLoop_book (tokenize search) store 0 al ⟨[], maxMatches⟩
    unfold FindMatches
    rw [hn]
    exact importLoop_frame (store.take n) 0 al k
      (fun row hrow e he => h row (List.mem_of_mem_take hrow) e he)
  · intro al1 al2 search store maxMatches h
    exact findLoop_congr (tokenize search) store 0 al1 al2 ⟨[], maxMatches⟩ h

theorem C10_findMatches_merges_scanned_rows_witness :
    (∀ row ∈ acmeStore "2020-01-01T00:00:00Z" "2020-01-02T00:00:00Z" "2020-01-03T00:00:00Z",
      ∀ e, row.head? = some e → (⟨ToLower e⟩ : AddressKey) ≠ ⟨"bob@x.org"⟩) ∧
    mapGet (FindMatches exampleBook "acme" (acmeStore "2020-01-01T00:00:00Z"
        "2020-01-02T00:00:00Z" "2020-01-03T00:00:00Z") 20).1.addrs ⟨"bob@x.org"⟩
      = mapGet exampleBook.addrs ⟨"bob@x.org"⟩ ∧
    (∀ row ∈ acmeStore "2020-01-01T00:00:00Z" "2020-01-02T00:00:00Z" "2020-01-03T00:00:00Z",
      ∀ e, row.head? = some e → exampleBook.find e = NewAddressList.find e) ∧
    (FindMatches exampleBook "acme" (acmeStore "2020-01-01T00:00:00Z"
        "2020-01-02T00:00:00Z" "2020-01-03T00:00:00Z") 20).2
      = (FindMatches NewAddressList "acme" (acmeStore "2020-01-01T00:00:00Z"
        "2020-01-02T00:00:00Z" "2020-01-03T00:00:00Z") 20).2 :=
  ⟨by decide,
    C10_findMatches_merges_scanned_rows.2.1 exampleBook "acme" _ 20 ⟨"bob@x.org"⟩ (by decide),
    by decide,
    C10_findMatches_merges_scanned_rows.2.2 exampleBook NewAddressList "acme" _ 20 (by decide)⟩

/-! ## C11, C12: what `ParseRecord` accepts and writes -/

/-- The rows `ParseRecord` rejects: fewer than four fields, or a third field that
`time.Parse` rejects. -/
theorem ParseRecord_error_iff (al : AddressList) (row : List String) :
    (∃ e, (ParseRecord al row).2 = .error e) ↔
      (row.length < 4 ∨ ∃ ts, row.get? 2 = some ts ∧ Parse ts = none) := by
  match row with
  | [] => exact ⟨fun _ => Or.inl (by simp), fun _ => ⟨_, rfl⟩⟩
  | [_] => exact ⟨fun _ => Or.inl (by simp), fun _ => ⟨_, rfl⟩⟩
  | [_, _] => exact ⟨fun _ => Or.inl (by simp), fun _ => ⟨_, rfl⟩⟩
  | [_, _, _] => exact ⟨fun _ => Or.inl (by simp), fun _ => ⟨_, rfl⟩⟩
  | email :: name :: ts :: ign :: tl =>
    cases ht : Parse ts with
    | none =>
      refine ⟨fun _ => Or.inr ⟨ts, by simp, ht⟩, fun _ => ⟨.timeParse, ?_⟩⟩
      simp [ParseRecord, ht]
    | some t =>
      rw [ParseRecord_ok al email name ts ign tl t ht]
      constructor
      · rintro ⟨e, he⟩
        cases he
      · rintro (hlen | ⟨ts2, hts2, hnone⟩)
        · simp at hlen
          omega
        · simp at hts2
          rw [← hts2, ht] at hnone
          cases hnone

theorem ParseRecord_error_book (al : AddressList) (row : List String) (e : Error)
    (h : (ParseRecord al row).2 = .error e) : ParseRecord al row = (al, .error e) := by
  rcases ParseRecord_cases al row with ⟨e2, he2⟩ | ⟨email, name, ts, ign, tl, t, hrow, ht⟩
  · rw [he2] at h ⊢
    simp only [Except.error.injEq] at h
    rw [h]
  · rw [hrow, ParseRecord_ok al email name ts ign tl t ht] at h
    cases h

/-- Whether `ParseRecord` rejects a row, and with which error, does not depend on the
book. -/
theorem ParseRecord_error_any_book (al al2 : AddressList) (row : List String) (e : Error)
    (h : (ParseRecord al row).2 = .error e) : (ParseRecord al2 row).2 = .error e := by
  rw [ParseRecord_eq] at h ⊢
  cases hpr : parseRow row with
  | none =>
    rw [hpr] at h
    exact h
  | some sg =>
    rw [hpr] at h
    cases h

/-- A store with a row that `ParseRecord` rejects cannot be imported without an error. -/
theorem importLoop_error_of_bad_row (store : List (List String)) :
    ∀ (fpr : Nat) (al : AddressList),
      (∃ row ∈ store, ∃ e, ∀ al2, (ParseRecord al2 row).2 = .error e) →
      (importLoop fpr al store).2 ≠ none := by
  induction store with
  | nil =>
    intro fpr al h
    obtain ⟨row, hrow, _⟩ := h
    simp at hrow
  | cons r rest ih =>
    intro fpr al h
    unfold importLoop
    cases hc : csvFieldCheck fpr r with
    | error e => simp
    | ok n =>
      rcases hp : ParseRecord al r with ⟨al1, e | rec⟩
      · simp
      · simp only
        obtain ⟨row, hrow, e, he⟩ := h
        rcases List.mem_cons.1 hrow with heq | hmem
        · subst heq
          have := he al
          rw [hp] at this
          cases this
        · exact ih n al1 ⟨row, hmem, e, he⟩

/-- C11 (as stated, refuted): a row with five fields and a valid time is accepted by
`ParseRecord`, and a store whose rows all have five fields is imported without error,
both of its rows merged. A row of four fields whose third field is no RFC3339 timestamp is
accepted as well when `time.Parse` takes it: an hour of one digit, a comma before the
fraction of a second, a zone offset of 24 hours. -/
theorem C11_rows_accepted_beyond_claim :
    (ParseRecord NewAddressList ["a@b.c", "Ann", "2020-01-02T00:00:00Z", "", "extra"]).2
      = .ok ⟨"a@b.c", "Ann", ⟨1577923200000000000, 0⟩, false⟩ ∧
    (Import NewAddressList fiveFieldStore).2 = none ∧
    (Import NewAddressList fiveFieldStore).1.addrs
      = [(⟨"a@b.c"⟩, ⟨"a@b.c", "Ann", ⟨1577923200000000000, 0⟩, false⟩),
         (⟨"d@e.f"⟩, ⟨"d@e.f", "Dan", ⟨1578009600000000000, 0⟩, true⟩)] ∧
    (ParseRecord NewAddressList ["a@b.c", "Ann", "2020-01-02T1:02:03Z", ""]).2
      = .ok ⟨"a@b.c", "Ann", ⟨1577926923000000000, 0⟩, false⟩ ∧
    (Import NewAddressList [["a@b.c", "Ann", "2020-01-02T01:02:03,5+24:00", ""]]).1.addrs
      = [(⟨"a@b.c"⟩, ⟨"a@b.c", "Ann", ⟨1577840523500000000, 86400⟩, false⟩)] ∧
    (Import NewAddressList [["a@b.c", "Ann", "2020-01-02T01:02:03,5+24:00", ""]]).2 = none :=
  ⟨by rfl, by rfl, by rfl, by rfl, by rfl, by rfl⟩

/-- C11 (amended): `ParseRecord` fails if and only if the row has fewer than four fields or
`time.Parse` with the layout `RFC3339` rejects its third field (fields after the fourth are
ignored); a failing `ParseRecord` leaves the book as it was; when the loop of `Import` or
of `FindMatches` reaches a row `ParseRecord` rejects, the call returns that error at once,
without reading the rows after it; and `Import` of a store containing such a row returns
an error. What `time.Parse` takes includes every text its strict RFC3339 parser takes, with
the same time; it rejects a text that is no timestamp, a date without a time, a space in
place of the `T`, a second of 60 and a day that the month does not have. -/
theorem C11_row_validation :
    (∀ (al : AddressList) (row : List String),
      (∃ e, (ParseRecord al row).2 = .error e) ↔
        (row.length < 4 ∨ ∃ ts, row.get? 2 = some ts ∧ Parse ts = none)) ∧
    (∀ (fpr n : Nat) (al : AddressList) (row : List String) (rest : List (List String))
        (e : Error),
      csvFieldCheck fpr row = .ok n → (ParseRecord al row).2 = .error e →
      importLoop fpr al (row :: rest) = (al, some e) ∧
      ∀ searches res, findLoop searches fpr al res (row :: rest) = (al, .error e)) ∧
    (∀ (al : AddressList) (store : List (List String)),
      (∃ row ∈ store, row.length < 4 ∨ ∃ ts, row.get? 2 = some ts ∧ Parse ts = none) →
      (Import al store).2 ≠ none) ∧
    (∀ (ts : String) (t : Time), parseRFC3339 ts = some t → Parse ts = some t) ∧
    (Parse "yesterday" = none ∧ Parse "2020-01-02" = none ∧
      Parse "2020-01-02 00:00:00Z" = none ∧ Parse "2020-01-02T23:59:60Z" = none ∧
      Parse "2021-02-29T00:00:00Z" = none) := by
  refine ⟨ParseRecord_error_iff, ?_, ?_, ?_, by decide, by decide, by decide, by decide,
    by decide⟩
  · intro fpr n al row rest e hc hp
    have hp2 := ParseRecord_error_book al row e hp
    constructor
    · simp [importLoop, hc, hp2]
    · intro searches res
      simp [findLoop, hc, hp2]
  · intro al store h
    obtain ⟨row, hrow, hbad⟩ := h
    obtain ⟨e, he⟩ := (ParseRecord_error_iff NewAddressList row).2 hbad
    refine importLoop_error_of_bad_row store 0 al ⟨row, hrow, e, ?_⟩
    intro al2
    exact ParseRecord_error_any_book NewAddressList al2 row e he
  · intro ts t h
    unfold Parse
    rw [h]

theorem C11_row_validation_witness :
    (csvFieldCheck 0 ["a@b.c", "Ann", "yesterday", ""] = .ok 4 ∧
      (ParseRecord exampleBook ["a@b.c", "Ann", "yesterday", ""]).2 = .error .timeParse) ∧
    (importLoop 0 exampleBook (["a@b.c", "Ann", "yesterday", ""] :: fiveFieldStore)
        = (exampleBook, some .timeParse) ∧
      ∀ searches res, findLoop searches 0 exampleBook res
        (["a@b.c", "Ann", "yesterday", ""] :: fiveFieldStore)
          = (exampleBook, .error .timeParse)) ∧
    (Import exampleBook [["a@b.c", "Ann"]]).2 ≠ none ∧
    (parseRFC3339 "2020-01-02T00:00:00.25-07:00" = some ⟨1577948400250000000, -25200⟩ ∧
      Parse "2020-01-02T00:00:00.25-07:00" = some ⟨1577948400250000000, -25200⟩) :=
  ⟨⟨by rfl, by rfl⟩,
    C11_row_validation.2.1 0 4 exampleBook ["a@b.c", "Ann", "yesterday", ""] fiveFieldStore
      .timeParse (by rfl) (by rfl),
    C11_row_validation.2.2.1 exampleBook [["a@b.c", "Ann"]]
      ⟨["a@b.c", "Ann"], by simp, Or.inl (by decide)⟩,
    by decide,
    C11_row_validation.2.2.2.1 "2020-01-02T00:00:00.25-07:00" ⟨1577948400250000000, -25200⟩
      (by decide)⟩

/-- C12: after a well-formed row is imported, the record for the row's lowercased email has
`Ignore = true` if and only if the fourth field is exactly `IGNORE`, whatever the book held
before, and its name and time are those `ReceiveRecord` produces from the first three
fields; `Import` of the one-row store does exactly this. -/
theorem C12_ignore_from_marker (al : AddressList) (email name ts ign : String)
    (tl : List String) (t : Time) (ht : Parse ts = some t) :
    (∃ r, (ParseRecord al (email :: name :: ts :: ign :: tl)).1.find email = some r ∧
      (r.Ignore = true ↔ ign = "IGNORE") ∧
      r.Name = (ReceiveRecord al email name t).2.Name ∧
      r.LastUsed = (ReceiveRecord al email name t).2.LastUsed) ∧
    Import al [email :: name :: ts :: ign :: tl]
      = ((ParseRecord al (email :: name :: ts :: ign :: tl)).1, none) := by
  constructor
  · refine ⟨{ (ReceiveRecord al email name t).2 with Ignore := decide (ign = "IGNORE") },
      ?_, ?_, rfl, rfl⟩
    · rw [ParseRecord_ok al email name ts ign tl t ht]
      exact mapGet_mapSet_self _ _ _
    · simp
  · have hc : csvFieldCheck 0 (email :: name :: ts :: ign :: tl) = .ok (tl.length + 4) := by
      simp [csvFieldCheck]
    unfold Import importLoop
    rw [hc, ParseRecord_ok al email name ts ign tl t ht]
    rfl

theorem C12_ignore_from_marker_witness :
    Parse "2020-01-02T00:00:00Z" = some ⟨1577923200000000000, 0⟩ ∧
    (∃ r, (ParseRecord exampleBook ["A@b.c", "", "2020-01-02T00:00:00Z", ""]).1.find "A@b.c"
        = some r ∧
      (r.Ignore = true ↔ "" = "IGNORE") ∧
      r.Name = (ReceiveRecord exampleBook "A@b.c" "" ⟨1577923200000000000, 0⟩).2.Name ∧
      r.LastUsed = (ReceiveRecord exampleBook "A@b.c" "" ⟨1577923200000000000, 0⟩).2.LastUsed) ∧
    Import exampleBook [["A@b.c", "", "2020-01-02T00:00:00Z", ""]]
      = ((ParseRecord exampleBook ["A@b.c", "", "2020-01-02T00:00:00Z", ""]).1, none) :=
  ⟨by decide,
    C12_ignore_from_marker exampleBook "A@b.c" "" "2020-01-02T00:00:00Z" "" []
      ⟨1577923200000000000, 0⟩ (by decide)⟩

/-! ## C13: the rows of `Export` -/

theorem exportedRows_of_isExport (al : AddressList) (hinv : BookInv al)
    (rows : List (List String)) (hexp : IsExport al rows) : ExportedRows al rows := by
  obtain ⟨keys, hperm, hsorted, hrows⟩ := hexp
  have hentries : (keys.map (fun k => (k, (mapGet al.addrs k).getD ⟨"", "", ⟨0, 0⟩, false⟩))).Perm
      al.addrs := by
    have := hperm.map (fun k => (k, (mapGet al.addrs k).getD ⟨"", "", ⟨0, 0⟩, false⟩))
    rwa [entries_of_keys al.addrs hinv.1] at this
  have hget : ∀ k ∈ keys, ∃ v, mapGet al.addrs k = some v ∧ v.Email = k.Email := by
    intro k hk
    cases hg : mapGet al.addrs k with
    | none => exact absurd (hperm.mem_iff.1 hk) ((mapGet_eq_none_iff _ _).1 hg)
    | some v => exact ⟨v, rfl, (hinv.2 (k, v) (mem_of_mapGet _ _ _ hg)).1⟩
  refine ⟨keys.map (fun k => (mapGet al.addrs k).getD ⟨"", "", ⟨0, 0⟩, false⟩), ?_, ?_, ?_⟩
  · have := hentries.map Prod.snd
    rwa [List.map_map] at this
  · rw [hrows, List.map_map]
    apply List.map_congr_left
    intro k hk
    obtain ⟨v, hv, hemail⟩ := hget k hk
    simp only [exportRow, hv, Function.comp, Option.getD_some, recordRow, hemail,
      AddressRecord.IgnoreStr]
  · rw [List.pairwise_map]
    refine List.Pairwise.imp_of_mem ?_ hsorted
    intro k1 k2 hk1 hk2 hle
    obtain ⟨v1, hv1, _⟩ := hget k1 hk1
    obtain ⟨v2, hv2, _⟩ := hget k2 hk2
    simp only [lastUsedOf, hv1, hv2] at hle
    simp only [hv1, hv2, Option.getD_some]
    exact hle

/-- C13: for every reachable book, the rows `Export` writes, and the rows of every other order
the map iteration and the unstable sort can produce, are exactly one row per record of the
book (a permutation of its records, each written as email, name, RFC3339 time and `IGNORE` or
the empty string according to the ignore flag), and no row has a time strictly later than
that of a row written before it. -/
theorem C13_export_rows (al : AddressList) (hreach : Reachable al) :
    ExportedRows al (Export al) ∧ ∀ rows, IsExport al rows → ExportedRows al rows :=
  ⟨exportedRows_of_isExport al (bookInv_of_reachable al hreach) _ (isExport_Export al),
    fun rows h => exportedRows_of_isExport al (bookInv_of_reachable al hreach) rows h⟩

theorem C13_export_rows_witness :
    Reachable exampleBook ∧
    Export exampleBook = [["a@b.c", "Ann", "2020-01-02T00:00:00Z", "IGNORE"],
      ["bob@x.org", "Bob", "2020-01-01T00:00:00Z", ""]] ∧
    (ExportedRows exampleBook (Export exampleBook) ∧
      ∀ rows, IsExport exampleBook rows → ExportedRows exampleBook rows) :=
  ⟨Reachable.parse _ _ (Reachable.receive _ _ _ _ Reachable.empty), by decide,
    C13_export_rows exampleBook (Reachable.parse _ _ (Reachable.receive _ _ _ _ Reachable.empty))⟩

/-! ## C18, C19, C20: more laws of `ReceiveRecord` -/

theorem find_congr (al : AddressList) (e1 e2 : String) (h : ToLower e1 = ToLower e2) :
    al.find e1 = al.find e2 := by
  unfold AddressList.find
  rw [h]

theorem find_ReceiveRecord_of_ne (al : AddressList) (e e2 N : String) (t : Time)
    (h : ToLower e ≠ ToLower e2) : (ReceiveRecord al e N t).1.find e2 = al.find e2 := by
  unfold AddressList.find
  rw [ReceiveRecord_fst]
  exact mapGet_mapSet_of_ne _ _ _ _ (fun hk => h (AddressKey.mk.inj hk))

/-- The later of two times, the first one when they are the same instant. -/
theorem mergeRecord_time (ar : AddressRecord) (n : String) (t : Time) :
    (mergeRecord ar n t).LastUsed = if ar.LastUsed.Before t then t else ar.LastUsed := by
  unfold mergeRecord
  by_cases c1 : ar.LastUsed.Before t
  · rw [if_pos c1, if_pos c1]
  · rw [if_neg c1, if_neg c1]
    split_ifs <;> rfl

theorem mergeRecord_ignore (ar : AddressRecord) (n : String) (t : Time) :
    (mergeRecord ar n t).Ignore = ar.Ignore := by
  unfold mergeRecord
  split_ifs <;> rfl

/-- The time stored for `e` after one call for an email with the same lowercase form. -/
theorem time_after_ReceiveRecord (al : AddressList) (e N : String) (t : Time) :
    ((ReceiveRecord al e N t).1.find e).map (fun r => r.LastUsed)
      = some (match al.find e with
              | some r => if r.LastUsed.Before t then t else r.LastUsed
              | none => t) := by
  rw [find_ReceiveRecord]
  cases hg : al.find e with
  | none => rw [ReceiveRecord_snd_of_none al e N t hg]; rfl
  | some r =>
    rw [ReceiveRecord_snd_of_some al e N t r hg]
    simp [mergeRecord_time]

/-- After a sequence of sightings of one email, starting from a record `r0` for it, the
stored time is `r0`'s or one of the sighting times, and is not before any of them. -/
theorem time_after_receiveAll (e : String) (calls : List (String × String × Time)) :
    ∀ (al : AddressList) (r0 : AddressRecord), al.find e = some r0 →
      (∀ c ∈ calls, ToLower c.1 = ToLower e) →
      ∃ r, (receiveAll al calls).find e = some r ∧
        (r.LastUsed = r0.LastUsed ∨ r.LastUsed ∈ calls.map (fun c => c.2.2)) ∧
        ¬ r.LastUsed.Before r0.LastUsed ∧ ∀ c ∈ calls, ¬ r.LastUsed.Before c.2.2 := by
  induction calls with
  | nil =>
    intro al r0 h0 _
    exact ⟨r0, h0, Or.inl rfl, lt_irrefl _, fun c hc => by simp at hc⟩
  | cons c rest ih =>
    intro al r0 h0 hsame
    have hc := hsame c (List.mem_cons_self _ _)
    have h0c : al.find c.1 = some r0 := by rw [find_congr al c.1 e hc]; exact h0
    have h1 : (ReceiveRecord al c.1 c.2.1 c.2.2).1.find e
        = some (mergeRecord r0 (effName c.1 c.2.1) c.2.2) := by
      rw [← find_congr _ c.1 e hc, find_ReceiveRecord, ReceiveRecord_snd_of_some al _ _ _ r0 h0c]
    obtain ⟨r, hr, hmem, hle, hall⟩ := ih _ _ h1
      (fun c2 hc2 => hsame c2 (List.mem_cons_of_mem _ hc2))
    rw [mergeRecord_time] at hmem hle
    by_cases hb : r0.LastUsed.Before c.2.2
    · rw [if_pos hb] at hmem hle
      refine ⟨r, hr, ?_, ?_, ?_⟩
      · right
        simp only [List.map_cons, List.mem_cons]
        rcases hmem with hm | hm
        · exact Or.inl hm
        · exact Or.inr hm
      · unfold Time.Before at hb hle ⊢
        omega
      · intro c2 hc2
        rcases List.mem_cons.1 hc2 with heq | hmem2
        · rw [heq]
          exact hle
        · exact hall c2 hmem2
    · rw [if_neg hb] at hmem hle
      refine ⟨r, hr, ?_, hle, ?_⟩
      · rcases hmem with hm | hm
        · exact Or.inl hm
        · right
          simp only [List.map_cons, List.mem_cons]
          exact Or.inr hm
      · intro c2 hc2
        rcases List.mem_cons.1 hc2 with heq | hmem2
        · rw [heq]
          unfold Time.Before at hb hle ⊢
          omega
        · exact hall c2 hmem2

/-- C18: a record's time never moves backwards. After `ReceiveRecord` the time stored for the
email is the later of the time stored before and `t` (`t` itself when there was no record,
the stored time when both are the same instant), so it is not before either of them; and
after any non-empty sequence of sightings of one email (in any letter case) on a book that
had no record for it, the stored time is the maximum of the sighting times: it is one of
them and it is before none of them. -/
theorem C18_time_is_maximum :
    (∀ (al : AddressList) (e N : String) (t : Time),
      ((ReceiveRecord al e N t).1.find e).map (fun r => r.LastUsed)
        = some (match al.find e with
                | some r => if r.LastUsed.Before t then t else r.LastUsed
                | none => t)) ∧
    (∀ (al : AddressList) (e N : String) (t : Time) (r0 : AddressRecord),
      al.find e = some r0 →
      ∃ r, (ReceiveRecord al e N t).1.find e = some r ∧
        ¬ r.LastUsed.Before r0.LastUsed ∧ ¬ r.LastUsed.Before t ∧
        r.LastUsed.unixNano = max r0.LastUsed.unixNano t.unixNano) ∧
    (∀ (al : AddressList) (e : String) (calls : List (String × String × Time)),
      al.find e = none → calls ≠ [] → (∀ c ∈ calls, ToLower c.1 = ToLower e) →
      ∃ r, (receiveAll al calls).find e = some r ∧
        r.LastUsed ∈ calls.map (fun c => c.2.2) ∧
        ∀ c ∈ calls, ¬ r.LastUsed.Before c.2.2) := by
  refine ⟨time_after_ReceiveRecord, ?_, ?_⟩
  · intro al e N t r0 h0
    refine ⟨mergeRecord r0 (effName e N) t, ?_, ?_⟩
    · rw [find_ReceiveRecord, ReceiveRecord_snd_of_some al e N t r0 h0]
    · rw [mergeRecord_time]
      unfold Time.Before
      split_ifs with hb
      · unfold Time.Before at hb
        exact ⟨by omega, by omega, by omega⟩
      · unfold Time.Before at hb
        exact ⟨by omega, by omega, by omega⟩
  intro al e calls hnone hne hsame
  cases calls with
  | nil => exact absurd rfl hne
  | cons c rest =>
    have hc := hsame c (List.mem_cons_self _ _)
    have h0c : al.find c.1 = none := by rw [find_congr al c.1 e hc]; exact hnone
    have h1 : (ReceiveRecord al c.1 c.2.1 c.2.2).1.find e
        = some ⟨ToLower c.1, effName c.1 c.2.1, c.2.2, false⟩ := by
      rw [← find_congr _ c.1 e hc, find_ReceiveRecord, ReceiveRecord_snd_of_none al _ _ _ h0c]
    obtain ⟨r, hr, hmem, hle, hall⟩ := time_after_receiveAll e rest _ _ h1
      (fun c2 hc2 => hsame c2 (List.mem_cons_of_mem _ hc2))
    refine ⟨r, hr, ?_, ?_⟩
    · simp only [List.map_cons, List.mem_cons]
      rcases hmem with hm | hm
      · exact Or.inl hm
      · exact Or.inr hm
    · intro c2 hc2
      rcases List.mem_cons.1 hc2 with heq | hmem2
      · rw [heq]; exact hle
      · exact hall c2 hmem2

theorem C18_time_is_maximum_witness :
    (NewAddressList.find "a@b.c" = none ∧
      [("A@b.c", "Ann", (⟨5, 0⟩ : Time)), ("a@B.c", "", ⟨9, 3600⟩), ("a@b.c", "Al", ⟨7, 0⟩)]
        ≠ [] ∧
      ∀ c ∈ [("A@b.c", "Ann", (⟨5, 0⟩ : Time)), ("a@B.c", "", ⟨9, 3600⟩),
          ("a@b.c", "Al", ⟨7, 0⟩)],
        ToLower c.1 = ToLower "a@b.c") ∧
    (receiveAll NewAddressList
        [("A@b.c", "Ann", ⟨5, 0⟩), ("a@B.c", "", ⟨9, 3600⟩), ("a@b.c", "Al", ⟨7, 0⟩)]).find
        "a@b.c"
      = some ⟨"a@b.c", "Ann", ⟨9, 3600⟩, false⟩ ∧
    ∃ r, (receiveAll NewAddressList
        [("A@b.c", "Ann", ⟨5, 0⟩), ("a@B.c", "", ⟨9, 3600⟩), ("a@b.c", "Al", ⟨7, 0⟩)]).find
        "a@b.c" = some r ∧
      r.LastUsed ∈ [("A@b.c", "Ann", (⟨5, 0⟩ : Time)), ("a@B.c", "", ⟨9, 3600⟩),
          ("a@b.c", "Al", ⟨7, 0⟩)].map (fun c => c.2.2) ∧
      ∀ c ∈ [("A@b.c", "Ann", (⟨5, 0⟩ : Time)), ("a@B.c", "", ⟨9, 3600⟩),
          ("a@b.c", "Al", ⟨7, 0⟩)],
        ¬ r.LastUsed.Before c.2.2 :=
  ⟨⟨by decide, by decide, by decide⟩, by decide,
    C18_time_is_maximum.2.2 NewAddressList "a@b.c"
      [("A@b.c", "Ann", ⟨5, 0⟩), ("a@B.c", "", ⟨9, 3600⟩), ("a@b.c", "Al", ⟨7, 0⟩)]
      (by decide) (by decide) (by decide)⟩

/-! ### C19: what `ReceiveRecord` leaves alone -/

/-- A call of `ReceiveRecord` keeps every record there is, with its ignore flag. -/
theorem ignore_after_ReceiveRecord (al : AddressList) (e N e2 : String) (t : Time)
    (r : AddressRecord) (h : al.find e2 = some r) :
    ∃ r2, (ReceiveRecord al e N t).1.find e2 = some r2 ∧ r2.Ignore = r.Ignore := by
  by_cases hk : ToLower e = ToLower e2
  · have he : al.find e = some r := by rw [find_congr al e e2 hk]; exact h
    refine ⟨mergeRecord r (effName e N) t, ?_, mergeRecord_ignore _ _ _⟩
    rw [← find_congr _ e e2 hk, find_ReceiveRecord, ReceiveRecord_snd_of_some al e N t r he]
  · exact ⟨r, by rw [find_ReceiveRecord_of_ne al e e2 N t hk]; exact h, rfl⟩

theorem ignore_after_receiveAll (e2 : String) (calls : List (String × String × Time)) :
    ∀ (al : AddressList) (r : AddressRecord), al.find e2 = some r →
      ∃ r2, (receiveAll al calls).find e2 = some r2 ∧ r2.Ignore = r.Ignore := by
  induction calls with
  | nil => intro al r h; exact ⟨r, h, rfl⟩
  | cons c rest ih =>
    intro al r h
    obtain ⟨r1, h1, hi1⟩ := ignore_after_ReceiveRecord al c.1 c.2.1 e2 c.2.2 r h
    obtain ⟨r2, h2, hi2⟩ := ih _ r1 h1
    exact ⟨r2, h2, hi2.trans hi1⟩

/-- C19: `ReceiveRecord` touches only the record of the lowercased email it is given. Every
record under another key is unchanged; no record is removed; an existing record for the
email keeps its ignore flag; so after a row carrying the `IGNORE` marker has been imported,
the record for its email is still ignored after any sequence of later sightings. -/
theorem C19_receive_frame :
    (∀ (al : AddressList) (e N : String) (t : Time) (k : AddressKey),
      k ≠ ⟨ToLower e⟩ → mapGet (ReceiveRecord al e N t).1.addrs k = mapGet al.addrs k) ∧
    (∀ (al : AddressList) (e N : String) (t : Time) (k : AddressKey),
      mapGet al.addrs k ≠ none → mapGet (ReceiveRecord al e N t).1.addrs k ≠ none) ∧
    (∀ (al : AddressList) (e N : String) (t : Time) (r : AddressRecord),
      al.find e = some r →
      ∃ r2, (ReceiveRecord al e N t).1.find e = some r2 ∧ r2.Ignore = r.Ignore) ∧
    (∀ (al : AddressList) (email name ts : String) (tl : List String) (t : Time)
        (calls : List (String × String × Time)),
      Parse ts = some t →
      ∃ r, (receiveAll (ParseRecord al (email :: name :: ts :: "IGNORE" :: tl)).1 calls).find
          email = some r ∧ r.Ignore = true) := by
  refine ⟨?_, ?_, ?_, ?_⟩
  · intro al e N t k hk
    rw [ReceiveRecord_fst]
    exact mapGet_mapSet_of_ne _ _ _ _ (fun h => hk h.symm)
  · intro al e N t k hk
    by_cases hkey : (⟨ToLower e⟩ : AddressKey) = k
    · rw [ReceiveRecord_fst, ← hkey, mapGet_mapSet_self]
      simp
    · rw [ReceiveRecord_fst]
      simp only
      rw [mapGet_mapSet_of_ne _ _ _ _ hkey]
      exact hk
  · intro al e N t r h
    exact ignore_after_ReceiveRecord al e N e t r h
  · intro al email name ts tl t calls ht
    have h0 : (ParseRecord al (email :: name :: ts :: "IGNORE" :: tl)).1.find email
        = some { (ReceiveRecord al email name t).2 with Ignore := decide ("IGNORE" = "IGNORE") } := by
      rw [ParseRecord_ok al email name ts "IGNORE" tl t ht]
      exact mapGet_mapSet_self _ _ _
    obtain ⟨r2, h2, hi⟩ := ignore_after_receiveAll email calls _ _ h0
    exact ⟨r2, h2, by rw [hi]; rfl⟩

theorem C19_receive_frame_witness :
    ((⟨"bob@x.org"⟩ : AddressKey) ≠ ⟨ToLower "A@b.c"⟩ ∧
      mapGet exampleBook.addrs ⟨"bob@x.org"⟩ ≠ none ∧
      exampleBook.find "A@b.c" = some ⟨"a@b.c", "Ann", ⟨1577923200000000000, 0⟩, true⟩ ∧
      Parse "2020-01-02T00:00:00Z" = some ⟨1577923200000000000, 0⟩) ∧
    mapGet (ReceiveRecord exampleBook "A@b.c" "Anna" ⟨1600000000000000000, 0⟩).1.addrs ⟨"bob@x.org"⟩
      = mapGet exampleBook.addrs ⟨"bob@x.org"⟩ ∧
    mapGet (ReceiveRecord exampleBook "A@b.c" "Anna" ⟨1600000000000000000, 0⟩).1.addrs ⟨"bob@x.org"⟩
      ≠ none ∧
    (∃ r2, (ReceiveRecord exampleBook "A@b.c" "Anna" ⟨1600000000000000000, 0⟩).1.find "A@b.c"
        = some r2 ∧
      r2.Ignore = (⟨"a@b.c", "Ann", ⟨1577923200000000000, 0⟩, true⟩ : AddressRecord).Ignore) ∧
    ∃ r, (receiveAll (ParseRecord NewAddressList
        ["a@b.c", "Ann", "2020-01-02T00:00:00Z", "IGNORE"]).1
        [("A@b.c", "Anna", ⟨1600000000000000000, 0⟩)]).find "a@b.c" = some r ∧ r.Ignore = true :=
  ⟨⟨by decide, by decide, by decide, by decide⟩,
    C19_receive_frame.1 exampleBook "A@b.c" "Anna" ⟨1600000000000000000, 0⟩ ⟨"bob@x.org"⟩ (by decide),
    C19_receive_frame.2.1 exampleBook "A@b.c" "Anna" ⟨1600000000000000000, 0⟩ ⟨"bob@x.org"⟩
      (by decide),
    C19_receive_frame.2.2.1 exampleBook "A@b.c" "Anna" ⟨1600000000000000000, 0⟩
      ⟨"a@b.c", "Ann", ⟨1577923200000000000, 0⟩, true⟩ (by decide),
    C19_receive_frame.2.2.2 NewAddressList "a@b.c" "Ann" "2020-01-02T00:00:00Z" []
      ⟨1577923200000000000, 0⟩ [("A@b.c", "Anna", ⟨1600000000000000000, 0⟩)] (by decide)⟩

/-! ### C20: two sightings in either order -/

theorem mergeRecord_swap (k n1 n2 : String) (t1 t2 : Time) (h : ¬ t1.Equal t2) :
    mergeRecord ⟨k, n1, t1, false⟩ n2 t2 = mergeRecord ⟨k, n2, t2, false⟩ n1 t1 := by
  rcases lt_or_gt_of_ne h with hlt | hgt
  · have hlt2 : t1.Before t2 := hlt
    have h2 : ¬ t2.Before t1 := not_lt.2 (le_of_lt hlt)
    simp only [mergeRecord, hlt2, h2, if_true, if_false]
    by_cases c2 : n2 = "" <;> by_cases c1 : n1 = "" <;> simp [c1, c2]
  · have hgt2 : t2.Before t1 := hgt
    have h2 : ¬ t1.Before t2 := not_lt.2 (le_of_lt hgt)
    simp only [mergeRecord, hgt2, h2, if_true, if_false]
    by_cases c2 : n2 = "" <;> by_cases c1 : n1 = "" <;> simp [c1, c2]

/-- C20: on a book with no record for `e`, two sightings of `e` at different times (times
that are not the same instant) leave the same record for `e` in either order, and that
record is not ignored. -/
theorem C20_two_sightings_commute (al : AddressList) (e N1 N2 : String) (t1 t2 : Time)
    (hfresh : al.find e = none) (hne : ¬ t1.Equal t2) :
    (ReceiveRecord (ReceiveRecord al e N1 t1).1 e N2 t2).1.find e
      = (ReceiveRecord (ReceiveRecord al e N2 t2).1 e N1 t1).1.find e ∧
    ∃ r, (ReceiveRecord (ReceiveRecord al e N1 t1).1 e N2 t2).1.find e = some r ∧
      r.Ignore = false := by
  have ha := find_ReceiveRecord al e N1 t1
  rw [ReceiveRecord_snd_of_none al e N1 t1 hfresh] at ha
  have hb := find_ReceiveRecord al e N2 t2
  rw [ReceiveRecord_snd_of_none al e N2 t2 hfresh] at hb
  have h12 : (ReceiveRecord (ReceiveRecord al e N1 t1).1 e N2 t2).1.find e
      = some (mergeRecord ⟨ToLower e, effName e N1, t1, false⟩ (effName e N2) t2) := by
    rw [find_ReceiveRecord, ReceiveRecord_snd_of_some _ e N2 t2 _ ha]
  have h21 : (ReceiveRecord (ReceiveRecord al e N2 t2).1 e N1 t1).1.find e
      = some (mergeRecord ⟨ToLower e, effName e N2, t2, false⟩ (effName e N1) t1) := by
    rw [find_ReceiveRecord, ReceiveRecord_snd_of_some _ e N1 t1 _ hb]
  refine ⟨?_, _, h12, ?_⟩
  · rw [h12, h21, mergeRecord_swap _ _ _ _ _ hne]
  · rw [mergeRecord_ignore]

theorem C20_two_sightings_commute_witness :
    (NewAddressList.find "a@b.c" = none ∧ ¬ (⟨3, 0⟩ : Time).Equal ⟨8, -3600⟩) ∧
    (ReceiveRecord (ReceiveRecord NewAddressList "a@b.c" "Ann" ⟨3, 0⟩).1 "a@b.c" ""
        ⟨8, -3600⟩).1.find "a@b.c"
      = (ReceiveRecord (ReceiveRecord NewAddressList "a@b.c" "" ⟨8, -3600⟩).1 "a@b.c" "Ann"
        ⟨3, 0⟩).1.find "a@b.c" ∧
    ∃ r, (ReceiveRecord (ReceiveRecord NewAddressList "a@b.c" "Ann" ⟨3, 0⟩).1 "a@b.c" ""
        ⟨8, -3600⟩).1.find "a@b.c" = some r ∧ r.Ignore = false :=
  ⟨⟨by decide, by decide⟩,
    C20_two_sightings_commute NewAddressList "a@b.c" "Ann" "" ⟨3, 0⟩ ⟨8, -3600⟩ (by decide)
      (by decide)⟩

/-! ## C14, C15, C16: the session controller -/

/-- C14: `ProcessMessage` reports termination (returns false) if and only if the message is
an Error or a Done acknowledging FetchMessageHeaders; for every other message, in every
state, it returns true. -/
theorem C14_termination_iff (client : AccountClient) (msg : WorkerMessage) :
    ((client.ProcessMessage msg).2.2 = false ↔
      ((∃ r, msg = .error r) ∨ ∃ uids, msg = .done (some (.fetchMessageHeaders uids)))) ∧
    ((client.ProcessMessage msg).2.2 = true ↔
      ¬ ((∃ r, msg = .error r) ∨ ∃ uids, msg = .done (some (.fetchMessageHeaders uids)))) := by
  cases msg with
  | error r => simp [AccountClient.ProcessMessage]
  | directoryInfo info =>
    cases hs : client.store <;> simp [AccountClient.ProcessMessage, hs]
  | directoryContents uids =>
    cases hs : client.store <;> simp [AccountClient.ProcessMessage, hs]
  | messageInfo info => simp [AccountClient.ProcessMessage]
  | done r =>
    cases r with
    | none => simp [AccountClient.ProcessMessage]
    | some a =>
      cases a <;> simp [AccountClient.ProcessMessage, AccountClient.connected,
        AccountClient.openedDirectory, AccountClient.fetchedDirContents,
        AccountClient.fetchedMsgHeaders]
  | otherMessage tag r => simp [AccountClient.ProcessMessage]

theorem parseMessage_eq (client : AccountClient) (info : MessageInfo) :
    client.parseMessage info
      = (info.Envelope.From ++ info.Envelope.ReplyTo ++ info.Envelope.To ++ info.Envelope.Cc
          ++ info.Envelope.Bcc).map (fun addr => Effect.callback client.acct addr info) := by
  simp [AccountClient.parseMessage]

theorem filter_parseMessage (client : AccountClient) (info : MessageInfo) :
    (client.parseMessage info).filter (fun e => !e.isCallback) = [] := by
  rw [parseMessage_eq, List.filter_eq_nil_iff]
  intro e he
  obtain ⟨addr, _, rfl⟩ := List.mem_map.1 he
  simp [Effect.isCallback]

/-- C15: a fresh controller fed Done(Connect), DirectoryInfo, DirectoryContents, three
MessageInfo and Done(FetchMessageHeaders) returns true six times and false on the last
message only; besides the sighting callbacks of the three messages its effects are exactly
one OpenDirectory for its folder, one creation of a message store and one header-fetch
request, in this order; and a DirectoryInfo received when a store exists has no effect at
all. -/
theorem C15_example_run :
    (∀ (acct folder info : String) (worker : Nat) (uids fetched : List Nat)
        (m1 m2 m3 : MessageInfo),
      (feed (NewAccountClient acct folder worker).1
          (exampleRun info uids fetched m1 m2 m3)).2.2
        = [true, true, true, true, true, true, false] ∧
      (feed (NewAccountClient acct folder worker).1
          (exampleRun info uids fetched m1 m2 m3)).2.1
        = [.postAction (.openDirectory folder), .newMessageStore info, .fetchHeaders uids]
          ++ (NewAccountClient acct folder worker).1.parseMessage m1
          ++ (NewAccountClient acct folder worker).1.parseMessage m2
          ++ (NewAccountClient acct folder worker).1.parseMessage m3 ∧
      ((feed (NewAccountClient acct folder worker).1
          (exampleRun info uids fetched m1 m2 m3)).2.1.filter (fun e => !e.isCallback))
        = [.postAction (.openDirectory folder), .newMessageStore info, .fetchHeaders uids]) ∧
    (∀ (client : AccountClient) (st : MessageStore) (info : String),
      client.store = some st →
      client.ProcessMessage (.directoryInfo info) = (client, [], true)) := by
  constructor
  · intro acct folder info worker uids fetched m1 m2 m3
    have hfeed : (feed (NewAccountClient acct folder worker).1
        (exampleRun info uids fetched m1 m2 m3))
        = (⟨acct, folder, worker, some ⟨info, uids⟩⟩,
          [.postAction (.openDirectory folder), .newMessageStore info, .fetchHeaders uids]
          ++ (NewAccountClient acct folder worker).1.parseMessage m1
          ++ (NewAccountClient acct folder worker).1.parseMessage m2
          ++ (NewAccountClient acct folder worker).1.parseMessage m3,
          [true, true, true, true, true, true, false]) := by
      simp [feed, exampleRun, NewAccountClient, AccountClient.ProcessMessage,
        AccountClient.connected, AccountClient.fetchedMsgHeaders, MessageStore.Update,
        AccountClient.parseMessage]
    rw [hfeed]
    refine ⟨rfl, rfl, ?_⟩
    simp only [List.filter_append, filter_parseMessage, List.append_nil]
    rfl
  · intro client st info hs
    simp [AccountClient.ProcessMessage, hs]

theorem C15_example_run_witness :
    (feed (NewAccountClient "one" "Sent" 1).1 [.directoryInfo "Sent"]).1.store
      = some ⟨"Sent", []⟩ ∧
    (feed (NewAccountClient "one" "Sent" 1).1 [.directoryInfo "Sent"]).1.ProcessMessage
        (.directoryInfo "Other")
      = ((feed (NewAccountClient "one" "Sent" 1).1 [.directoryInfo "Sent"]).1, [], true) :=
  ⟨by decide,
    C15_example_run.2 (feed (NewAccountClient "one" "Sent" 1).1 [.directoryInfo "Sent"]).1
      ⟨"Sent", []⟩ "Other" (by decide)⟩

theorem runEffects_callbacks (acct : String) (info : MessageInfo) (addrs : List MailAddress) :
    ∀ al : AddressList,
      runEffects al (addrs.map (fun addr => Effect.callback acct addr info))
        = receiveAll al (addrs.map (fun addr => (addr.Address, addr.Name, info.InternalDate))) := by
  induction addrs with
  | nil => intro al; rfl
  | cons a rest ih =>
    intro al
    simp only [List.map_cons, runEffects, receiveAll, List.foldl_cons, clientCallback]
    exact ih _

/-- C16: for a MessageInfo event the controller's only effects are sighting callbacks, one
for each address of the From, Reply-To, To, Cc and Bcc lists, in that field order and in
list order within a field, duplicates included, so their number is the sum of the five
lengths; run through `clientCallback` they are the `ReceiveRecord` calls with each
address's email and name and the arrival time of the message. -/
theorem C16_one_sighting_per_address (client : AccountClient) (info : MessageInfo)
    (al : AddressList) :
    client.ProcessMessage (.messageInfo info)
      = (client, (info.Envelope.From ++ info.Envelope.ReplyTo ++ info.Envelope.To
          ++ info.Envelope.Cc ++ info.Envelope.Bcc).map
            (fun addr => Effect.callback client.acct addr info), true) ∧
    (client.ProcessMessage (.messageInfo info)).2.1.length
      = info.Envelope.From.length + info.Envelope.ReplyTo.length + info.Envelope.To.length
        + info.Envelope.Cc.length + info.Envelope.Bcc.length ∧
    runEffects al (client.ProcessMessage (.messageInfo info)).2.1
      = receiveAll al (sightingsOf info) ∧
    (sightingsOf info).length
      = info.Envelope.From.length + info.Envelope.ReplyTo.length + info.Envelope.To.length
        + info.Envelope.Cc.length + info.Envelope.Bcc.length := by
  have h : client.ProcessMessage (.messageInfo info)
      = (client, (info.Envelope.From ++ info.Envelope.ReplyTo ++ info.Envelope.To
          ++ info.Envelope.Cc ++ info.Envelope.Bcc).map
            (fun addr => Effect.callback client.acct addr info), true) := by
    simp only [AccountClient.ProcessMessage, parseMessage_eq]
  refine ⟨h, ?_, ?_, ?_⟩
  · rw [h]
    simp only [List.length_map, List.length_append]
  · rw [h]
    exact runEffects_callbacks client.acct info _ al
  · simp only [sightingsOf, List.length_map, List.length_append]

/-! ## C17: the event loop -/

theorem set_perm_cons_eraseIdx {α : Type} (x : α) :
    ∀ (l : List α) (i : Nat), i < l.length → (l.set i x).Perm (l.eraseIdx i ++ [x])
  | [], i, h => by simp at h
  | a :: l, 0, _ => by
    simp only [List.set_cons_zero, List.eraseIdx_cons_zero]
    exact (List.perm_append_singleton x l).symm
  | a :: l, i + 1, h => by
    simp only [List.set_cons_succ, List.eraseIdx_cons_succ, List.cons_append]
    exact (set_perm_cons_eraseIdx x l i (by simpa using h)).cons a

theorem eraseIdx_set_self {α : Type} (x : α) :
    ∀ (l : List α) (i : Nat), (l.set i x).eraseIdx i = l.eraseIdx i
  | [], _ => by simp
  | _ :: _, 0 => by simp
  | a :: l, i + 1 => by
    simp only [List.set_cons_succ, List.eraseIdx_cons_succ]
    rw [eraseIdx_set_self x l i]

theorem swapRemove_concat {α : Type} (l : List α) (x : α) (i : Nat) :
    swapRemove (l ++ [x]) i = if i < l.length then l.set i x else l := by
  unfold swapRemove
  rw [List.getLast?_concat]
  simp only
  split_ifs with h
  · rw [List.set_append_left i x h, List.dropLast_concat]
  · by_cases h2 : i = l.length
    · subst h2
      rw [List.set_append_right _ _ (le_refl _)]
      simp
    · rw [List.set_eq_of_length_le (by simp; omega), List.dropLast_concat]

/-- Removal by swapping with the last element removes exactly the element at the index: what
remains is, up to order, the list without that position. -/
theorem swapRemove_perm {α : Type} (l : List α) (i : Nat) (h : i < l.length) :
    (swapRemove l i).Perm (l.eraseIdx i) := by
  rcases List.eq_nil_or_concat l with hnil | ⟨l2, x, hl⟩
  · subst hnil
    simp at h
  · rw [List.concat_eq_append] at hl
    subst hl
    rw [swapRemove_concat]
    split_ifs with h2
    · rw [List.eraseIdx_append_of_lt_length h2]
      exact set_perm_cons_eraseIdx x l2 i h2
    · have h3 : i = l2.length := by
        simp only [List.length_append, List.length_singleton] at h
        omega
      subst h3
      rw [List.eraseIdx_append_of_length_le (le_refl _)]
      simp

theorem swapRemove_map {α β : Type} (f : α → β) (l : List α) (i : Nat) :
    (swapRemove l i).map f = swapRemove (l.map f) i := by
  unfold swapRemove
  rw [List.getLast?_map]
  cases l.getLast? with
  | none => rfl
  | some last => simp

theorem length_swapRemove {α : Type} (l : List α) (i : Nat) (h : i < l.length) :
    (swapRemove l i).length + 1 = l.length := by
  have := (swapRemove_perm l i h).length_eq
  rw [this, List.length_eraseIdx]
  simp only [h, if_true]
  omega

theorem worker_ProcessMessage (client : AccountClient) (msg : WorkerMessage) :
    (client.ProcessMessage msg).1.worker = client.worker := by
  cases msg with
  | error r => rfl
  | directoryInfo info => cases hs : client.store <;> simp [AccountClient.ProcessMessage, hs]
  | directoryContents uids => cases hs : client.store <;> simp [AccountClient.ProcessMessage, hs]
  | messageInfo info => rfl
  | done r =>
    cases r with
    | none => rfl
    | some a => cases a <;> rfl
  | otherMessage tag r => rfl

theorem map_worker_set (clients : List AccountClient) (i : Nat) (client : AccountClient)
    (msg : WorkerMessage) (h : clients[i]? = some client) :
    (clients.set i (client.ProcessMessage msg).1).map (fun c => c.worker)
      = clients.map (fun c => c.worker) := by
  rw [List.map_set, worker_ProcessMessage]
  apply List.ext_get?
  intro n
  by_cases hn : i = n
  · subst hn
    rw [List.get?_eq_getElem?, List.get?_eq_getElem?, List.getElem?_set_self']
    simp only [List.getElem?_map]
    simp [h]
  · rw [List.get?_eq_getElem?, List.get?_eq_getElem?, List.getElem?_set_ne hn]

/-- The body of the loop, case by case. -/
theorem loopBody_cases (s : MuxState) (sel : Selected) :
    (reportsTermination s sel = false ∧ (loopBody s sel).cases = s.cases ∧
      (loopBody s sel).clients.map (fun c => c.worker) = s.clients.map (fun c => c.worker) ∧
      (loopBody s sel).clients.length = s.clients.length) ∨
    (reportsTermination s sel = true ∧ sel.chosen < s.clients.length ∧
      (loopBody s sel).cases = swapRemove s.cases sel.chosen ∧
      (loopBody s sel).clients.map (fun c => c.worker)
        = swapRemove (s.clients.map (fun c => c.worker)) sel.chosen ∧
      (loopBody s sel).clients.Perm (s.clients.eraseIdx sel.chosen)) := by
  cases hv : sel.value with
  | none => exact Or.inl (by simp [loopBody, reportsTermination, hv])
  | some msg =>
    cases hc : s.clients[sel.chosen]? with
    | none => exact Or.inl (by simp [loopBody, reportsTermination, hv, hc])
    | some client =>
      have hw := map_worker_set s.clients sel.chosen client msg hc
      by_cases hcont : (client.ProcessMessage msg).2.2 = true
      · left
        have hbody : loopBody s sel = { s with
            clients := s.clients.set sel.chosen (client.ProcessMessage msg).1,
            al := runEffects s.al (client.ProcessMessage msg).2.1 } := by
          simp [loopBody, hv, hc, hcont]
        refine ⟨by simp [reportsTermination, hv, hc, hcont], ?_, ?_, ?_⟩
        · rw [hbody]
        · rw [hbody]
          exact hw
        · rw [hbody]
          simp
      · right
        have hlt : sel.chosen < s.clients.length := by
          by_contra hge
          rw [List.getElem?_eq_none (not_lt.1 hge)] at hc
          cases hc
        have hbody : loopBody s sel =
            { clients := swapRemove (s.clients.set sel.chosen (client.ProcessMessage msg).1)
                sel.chosen,
              cases := swapRemove s.cases sel.chosen,
              al := runEffects s.al (client.ProcessMessage msg).2.1 } := by
          simp [loopBody, hv, hc, hcont]
        refine ⟨by simp [reportsTermination, hv, hc, hcont], hlt, ?_, ?_, ?_⟩
        · rw [hbody]
        · rw [hbody]
          simp only
          rw [swapRemove_map, hw]
        · rw [hbody]
          simp only
          refine (swapRemove_perm _ _ (by simpa using hlt)).trans ?_
          rw [eraseIdx_set_self]

theorem paired_loopBody (s : MuxState) (sel : Selected) (h : Paired s) :
    Paired (loopBody s sel) := by
  unfold Paired at h ⊢
  rcases loopBody_cases s sel with ⟨_, h1, h2, _⟩ | ⟨_, _, h1, h2, _⟩
  · rw [h1, h2, h]
  · rw [h1, h2, h]

theorem length_loopBody (s : MuxState) (sel : Selected) :
    (loopBody s sel).clients.length + (if reportsTermination s sel then 1 else 0)
      = s.clients.length := by
  rcases loopBody_cases s sel with ⟨h0, _, _, h3⟩ | ⟨h0, hlt, _, _, h4⟩
  · rw [h0, h3]
    rfl
  · rw [h0, h4.length_eq, List.length_eraseIdx]
    simp only [hlt, if_true]
    omega

theorem empty_of_cases_length (s : MuxState) (hp : Paired s) (hlen : ¬ s.cases.length > 0) :
    s.cases = [] ∧ s.clients = [] := by
  have hc : s.cases = [] := List.eq_nil_of_length_eq_zero (by omega)
  refine ⟨hc, ?_⟩
  unfold Paired at hp
  rw [hc] at hp
  exact List.map_eq_nil_iff.1 hp.symm

/-- When the loop returns, the live set is empty, and as many dispatches have reported
termination as there were sessions. -/
theorem mainLoop_returns (sched : List Selected) :
    ∀ (s s2 : MuxState), Paired s → mainLoop s sched = some s2 →
      s2.cases = [] ∧ s2.clients = [] ∧ terminations s sched = s.clients.length := by
  induction sched with
  | nil =>
    intro s s2 hp h
    unfold mainLoop at h
    by_cases hlen : s.cases.length > 0
    · rw [if_pos hlen] at h
      cases h
    · rw [if_neg hlen] at h
      simp only [Option.some.injEq] at h
      subst h
      obtain ⟨hc, hcl⟩ := empty_of_cases_length s hp hlen
      exact ⟨hc, hcl, by rw [hcl]; rfl⟩
  | cons sel rest ih =>
    intro s s2 hp h
    unfold mainLoop at h
    unfold terminations
    by_cases hlen : s.cases.length > 0
    · rw [if_pos hlen] at h
      rw [if_pos hlen]
      obtain ⟨h1, h2, h3⟩ := ih _ s2 (paired_loopBody s sel hp) h
      refine ⟨h1, h2, ?_⟩
      rw [h3, Nat.add_comm]
      exact length_loopBody s sel
    · rw [if_neg hlen] at h
      rw [if_neg hlen]
      simp only [Option.some.injEq] at h
      subst h
      obtain ⟨hc, hcl⟩ := empty_of_cases_length s hp hlen
      exact ⟨hc, hcl, by rw [hcl]; rfl⟩

/-- The loop has returned by the end of a schedule exactly when the live set is empty
then. -/
theorem mainLoop_eq_some_iff (sched : List Selected) :
    ∀ (s : MuxState), Paired s →
      (mainLoop s sched = some (sched.foldl loopBody s) ↔ (sched.foldl loopBody s).cases = []) ∧
      (mainLoop s sched = none ↔ (sched.foldl loopBody s).cases ≠ []) := by
  induction sched with
  | nil =>
    intro s _
    unfold mainLoop
    simp only [List.foldl_nil]
    split_ifs with hlen
    · have : s.cases ≠ [] := fun h => by rw [h] at hlen; simp at hlen
      simp [this]
    · have : s.cases = [] := List.eq_nil_of_length_eq_zero (by omega)
      simp [this]
  | cons sel rest ih =>
    intro s hp
    unfold mainLoop
    simp only [List.foldl_cons]
    split_ifs with hlen
    · exact ih _ (paired_loopBody s sel hp)
    · have hc : s.cases = [] := List.eq_nil_of_length_eq_zero (by omega)
      have hcl : s.clients = [] := by
        unfold Paired at hp
        rw [hc] at hp
        exact List.map_eq_nil_iff.1 hp.symm
      have hfix : ∀ (l : List Selected) (t : MuxState), t.clients = [] →
          l.foldl loopBody t = t := by
        intro l
        induction l with
        | nil => intro t _; rfl
        | cons x xs ihx =>
          intro t ht
          have : loopBody t x = t := by
            unfold loopBody
            cases x.value with
            | none => rfl
            | some msg => simp [ht]
          rw [List.foldl_cons, this]
          exact ihx t ht
      have hb : loopBody s sel = s := by
        unfold loopBody
        cases sel.value with
        | none => rfl
        | some msg => simp [hcl]
      rw [hb, hfix rest s hcl]
      simp [hc]

theorem paired_foldl_loopBody (sched : List Selected) :
    ∀ s : MuxState, Paired s → Paired (sched.foldl loopBody s) := by
  induction sched with
  | nil => intro s h; exact h
  | cons sel rest ih =>
    intro s h
    exact ih _ (paired_loopBody s sel h)

/-- The start-up loop leaves the two slices paired. -/
theorem paired_startSessions (accounts : List AccountConfig) (al : AddressList) :
    Paired (startSessions accounts al) := by
  unfold startSessions
  have hgen : ∀ (l : List AccountConfig) (s : MuxState), Paired s →
      Paired (l.foldl (fun s acct =>
        if acct.folder = "" then s
        else
          match acct.worker with
          | some w =>
            { s with clients := s.clients ++ [(NewAccountClient acct.Name acct.folder w).1],
                     cases := s.cases ++ [w] }
          | none => s) s) := by
    intro l
    induction l with
    | nil => intro s h; exact h
    | cons a rest ih =>
      intro s h
      rw [List.foldl_cons]
      apply ih
      by_cases hf : a.folder = ""
      · rw [if_pos hf]
        exact h
      · rw [if_neg hf]
        cases hw : a.worker with
        | none => exact h
        | some w =>
          unfold Paired at h ⊢
          simp only [List.map_append, List.map_cons, List.map_nil, h]
          rfl
  exact hgen accounts _ rfl

/-- C17: the live set of the event loop. The two slices are paired (equal length, position by
position the channel of the session's worker) after the start-up loop and after every
iteration of the event loop; in every paired state, a
dispatch that reports termination, which happens only at an index in range, leaves up to
order exactly the sessions at the other positions, each unchanged; a dispatch that does not
leaves `cases` and the sessions' identities as they were; the loop has returned at the end
of a schedule exactly when the live set is empty then, and when it returns as many dispatches
have reported termination as there were sessions, so three for three sessions, whether a
session ended by an Error or by the final Done. -/
theorem C17_live_set :
    (∀ (accounts : List AccountConfig) (al : AddressList) (sched : List Selected),
      Paired (sched.foldl loopBody (startSessions accounts al))) ∧
    ∀ (s : MuxState), Paired s →
    s.cases.length = s.clients.length ∧
    (∀ sel, Paired (loopBody s sel)) ∧
    (∀ sel, reportsTermination s sel = true →
      sel.chosen < s.clients.length ∧
      (loopBody s sel).clients.Perm (s.clients.eraseIdx sel.chosen) ∧
      (loopBody s sel).cases.Perm (s.cases.eraseIdx sel.chosen)) ∧
    (∀ sel, reportsTermination s sel = false →
      (loopBody s sel).cases = s.cases ∧
      (loopBody s sel).clients.map (fun c => c.worker) = s.clients.map (fun c => c.worker)) ∧
    (∀ sched, (mainLoop s sched = some (sched.foldl loopBody s) ↔
        (sched.foldl loopBody s).cases = []) ∧
      (mainLoop s sched = none ↔ (sched.foldl loopBody s).cases ≠ [])) ∧
    (∀ sched s2, mainLoop s sched = some s2 →
      s2.cases = [] ∧ s2.clients = [] ∧ terminations s sched = s.clients.length) ∧
    (∀ sched s2, s.clients.length = 3 → mainLoop s sched = some s2 →
      terminations s sched = 3) := by
  refine ⟨fun accounts al sched =>
    paired_foldl_loopBody sched _ (paired_startSessions accounts al), ?_⟩
  intro s hp
  refine ⟨?_, ?_, ?_, ?_, ?_, ?_, ?_⟩
  · rw [hp, List.length_map]
  · intro sel
    exact paired_loopBody s sel hp
  · intro sel hrep
    rcases loopBody_cases s sel with ⟨h0, _⟩ | ⟨_, hlt, h1, _, h4⟩
    · rw [h0] at hrep
      cases hrep
    · refine ⟨hlt, h4, ?_⟩
      rw [h1]
      exact swapRemove_perm _ _ (by rw [hp, List.length_map]; exact hlt)
  · intro sel hrep
    rcases loopBody_cases s sel with ⟨_, h1, h2, _⟩ | ⟨h0, _⟩
    · exact ⟨h1, h2⟩
    · rw [h0] at hrep
      cases hrep
  · intro sched
    exact mainLoop_eq_some_iff sched s hp
  · intro sched s2 h
    exact mainLoop_returns sched s s2 hp h
  · intro sched s2 h3 h
    rw [(mainLoop_returns sched s s2 hp h).2.2, h3]

theorem C17_live_set_witness :
    Paired threeSessions ∧
    mainLoop threeSessions [⟨1, some (.error none)⟩,
      ⟨0, some (.done (some (.fetchMessageHeaders [])))⟩] = none ∧
    (mainLoop threeSessions [⟨1, some (.error none)⟩,
      ⟨0, some (.done (some (.fetchMessageHeaders [])))⟩,
      ⟨0, some (.done (some (.fetchMessageHeaders [])))⟩]).map (fun s => s.cases) = some [] ∧
    terminations threeSessions [⟨1, some (.error none)⟩,
      ⟨0, some (.done (some (.fetchMessageHeaders [])))⟩,
      ⟨0, some (.done (some (.fetchMessageHeaders [])))⟩] = 3 ∧
    (reportsTermination threeSessions ⟨1, some (.error none)⟩ = true ∧
      (loopBody threeSessions ⟨1, some (.error none)⟩).cases = [1, 3]) :=
  ⟨by decide, by decide, by decide,
    (C17_live_set.2 threeSessions (by decide)).2.2.2.2.2.2
      [⟨1, some (.error none)⟩, ⟨0, some (.done (some (.fetchMessageHeaders [])))⟩,
        ⟨0, some (.done (some (.fetchMessageHeaders [])))⟩]
      (([⟨1, some (.error none)⟩, ⟨0, some (.done (some (.fetchMessageHeaders [])))⟩,
        ⟨0, some (.done (some (.fetchMessageHeaders [])))⟩] : List Selected).foldl loopBody
          threeSessions)
      (by decide) (by decide),
    by decide, by decide⟩

end AddrList
